import Mathlib

/-!
# advanced-vector: `RawMemory<T>` and `Vector<T>` (src/advanced-vector/vector.h)

A shallow embedding of the container.

* A raw block of memory is a list of cells; a cell is `none` while it holds no
  live object and `some x` while it holds a live `T` of value `x`.  The null
  pointer is the empty block.  A `T*` into a block is its offset from the
  block's base address.
* Element operations (constructors, assignments, destructors) are the
  primitives below.  They thread a `World` that counts them and that can
  inject one failure (a throwing constructor or assignment).
* An operation ends in one of four ways: it returns, it throws, it has
  undefined behaviour (a failed `assert`, an access outside a block, the use of
  a cell without a live object), or it terminates the program (an exception
  leaving a `noexcept` function).
* Sizes are natural numbers and a request for `n` cells is met with `n` cells:
  the wrap-around of `n * sizeof(T)` in `size_t` and `std::bad_alloc` are not
  embedded (see `Allocate`).
* For the copy constructor the blocks are put in a free store and a vector object
  holds the address of its block (see `FreeStore` and `Object`).
-/

namespace AdvancedVector

/-! ## The element type -/

/-- What the container needs to know about its element type `T`. -/
class Element (T : Type) where
  /-- the value of a value-initialised `T()` -/
  value_init : T
  /-- the state a moved-from object is left in -/
  moved_from : T → T
  /-- `std::is_nothrow_move_constructible_v<T>` -/
  nothrow_move : Bool
  /-- `std::is_copy_constructible_v<T>` -/
  copyable : Bool

/-- The compile-time test
`std::is_nothrow_move_constructible_v<T> || !std::is_copy_constructible_v<T>`. -/
def move_branch (T : Type) [Element T] : Bool :=
  Element.nothrow_move T || !Element.copyable T

/-! ## The world: counters of element operations and fault injection -/

/-- Ghost state threaded through every operation. -/
structure World where
  /-- `some k`: the next `k` fallible element operations succeed and the one
  after them throws; `none`: no element operation throws -/
  budget : Option Nat
  /-- constructor calls of `T` (value, from arguments, copy, move) -/
  constructions : Nat
  /-- assignment operator calls of `T` (copy, move) -/
  assignments : Nat
  /-- destructor calls of `T` -/
  destructions : Nat
  /-- live objects whose cell was reused by a placement `new` without a
  destructor call -/
  clobbered : Nat
  /-- live objects lost with their block: the block was deallocated, or its
  only handle was overwritten, while they were alive -/
  leaked : Nat
deriving DecidableEq, Repr

/-- A world in which no element operation throws and nothing has happened. -/
def World.quiet : World :=
  { budget := none, constructions := 0, assignments := 0, destructions := 0,
    clobbered := 0, leaked := 0 }

/-- Account for one element operation that may throw (`fallible`): `none` when
it throws. -/
def World.charge (w : World) (fallible : Bool) : Option World :=
  if fallible then
    match w.budget with
    | none => some w
    | some 0 => none
    | some (k + 1) => some { w with budget := some k }
  else some w

/-- The world after the injected failure has fired (it fires once). -/
def World.fired (w : World) : World :=
  { w with budget := none }

/-- How an operation ends.  `ok a w`: it returns `a`; `thrown e w`: an exception
propagates out of it, leaving `e`; `undefined`: undefined behaviour;
`terminated`: `std::terminate`. -/
inductive Outcome (α ε : Type) where
  | ok (a : α) (w : World)
  | thrown (e : ε) (w : World)
  | undefined
  | terminated
deriving DecidableEq, Repr

/-! ## Raw cells -/

/-- A block of raw memory; `[]` is the null pointer. -/
abbrev Block (T : Type) := List (Option T)

/-- The value of the live object in cell `i`, if there is one. -/
def live? {T : Type} (buf : Block T) (i : Nat) : Option T :=
  match buf[i]? with
  | some (some x) => some x
  | _ => none

/-- Number of live objects in a block. -/
def liveCount {T : Type} (buf : Block T) : Nat :=
  (buf.filter Option.isSome).length

/-- `operator new(n * sizeof(T))` for `n != 0`, `nullptr` for `n == 0`
(`RawMemory::Allocate`, lines 80-82), for a request that the machine can meet: the
product `n * sizeof(T)` is below the range of `size_t` and `operator new` returns
storage.  A product that wraps around (the block then has fewer than `n` cells) and
`std::bad_alloc` are not part of the embedding, so a statement below about a block
of `n` cells is a statement about such a request only. -/
def Allocate (T : Type) (n : Nat) : Block T :=
  if n ≠ 0 then List.replicate n none else []

/-- `operator delete(buf)` (`RawMemory::Deallocate`, lines 85-87).  No destructor
runs: the objects still alive in the block are lost. -/
def Deallocate {T : Type} (buf : Block T) (w : World) : World :=
  { w with leaked := w.leaked + liveCount buf }

/-- `buf->~T()` on cell `i` (`Vector::Destroy`, lines 569-571). -/
def Destroy {T : Type} (buf : Block T) (i : Nat) (w : World) :
    Outcome (Block T) (Block T) :=
  match live? buf i with
  | some _ => .ok (buf.set i none) { w with destructions := w.destructions + 1 }
  | none => .undefined

/-- The loop of `Vector::DestroyN` on a non-null pointer: `Destroy(buf + i)` for
`i = 0 .. n-1`. -/
def destroy_loop {T : Type} : Block T → Nat → Nat → World →
    Outcome (Block T) (Block T)
  | buf, _, 0, w => .ok buf w
  | buf, first, n + 1, w =>
    match Destroy buf first w with
    | .ok buf1 w1 => destroy_loop buf1 (first + 1) n w1
    | _ => .undefined

/-- `Vector::DestroyN(buf + first, n)` (lines 555-561): the loop body is guarded
by `if (buf)`, so nothing happens when the pointer passed is null (the null
block at offset 0). -/
def DestroyN {T : Type} (buf : Block T) (first n : Nat) (w : World) :
    Outcome (Block T) (Block T) :=
  if buf.isEmpty ∧ first = 0 then .ok buf w else destroy_loop buf first n w

/-- Placement `new (buf + i) T(...)` where the constructor produces the value
`x`; `fallible` says whether this constructor may throw. -/
def construct_at {T : Type} (fallible : Bool) (buf : Block T) (i : Nat) (x : T)
    (w : World) : Outcome (Block T) (Block T) :=
  match buf[i]? with
  | none => .undefined
  | some c =>
    match w.charge fallible with
    | none => .thrown buf w.fired
    | some w1 =>
      .ok (buf.set i (some x))
        { w1 with constructions := w1.constructions + 1,
                  clobbered := w1.clobbered + (if c.isSome then 1 else 0) }

/-- Undo of a partly done `std::uninitialized_*`: destroy the object built at
`d`, then keep propagating. -/
def unwind_destroy {T : Type} (buf : Block T) (d : Nat) (w : World) :
    Outcome (Block T) (Block T) :=
  match Destroy buf d w with
  | .ok buf1 w1 => .thrown buf1 w1
  | _ => .undefined

/-- `std::uninitialized_value_construct_n(buf + first, n)`. -/
def uninitialized_value_construct_n {T : Type} [Element T] :
    Block T → Nat → Nat → World → Outcome (Block T) (Block T)
  | buf, _, 0, w => .ok buf w
  | buf, first, n + 1, w =>
    match construct_at true buf first (Element.value_init : T) w with
    | .ok buf1 w1 =>
      match uninitialized_value_construct_n buf1 (first + 1) n w1 with
      | .ok buf2 w2 => .ok buf2 w2
      | .thrown buf2 w2 => unwind_destroy buf2 first w2
      | .undefined => .undefined
      | .terminated => .terminated
    | .thrown buf1 w1 => .thrown buf1 w1
    | .undefined => .undefined
    | .terminated => .terminated

/-- `std::uninitialized_copy_n(src + first, n, dst + d)`, `src` and `dst` in
different blocks.  On a throwing copy the objects already built are destroyed. -/
def uninitialized_copy_n {T : Type} (src : Block T) :
    Nat → Nat → Block T → Nat → World → Outcome (Block T) (Block T)
  | _, 0, dst, _, w => .ok dst w
  | first, n + 1, dst, d, w =>
    match live? src first with
    | none => .undefined
    | some x =>
      match construct_at true dst d x w with
      | .ok dst1 w1 =>
        match uninitialized_copy_n src (first + 1) n dst1 (d + 1) w1 with
        | .ok dst2 w2 => .ok dst2 w2
        | .thrown dst2 w2 => unwind_destroy dst2 d w2
        | .undefined => .undefined
        | .terminated => .terminated
      | .thrown dst1 w1 => .thrown dst1 w1
      | .undefined => .undefined
      | .terminated => .terminated

/-- `std::uninitialized_move_n(src + first, n, dst + d)`, `src` and `dst` in
different blocks; the result is `(src, dst)`.  Each source object is left
moved-from.  A move constructor may throw only when it is not `noexcept`. -/
def uninitialized_move_n {T : Type} [Element T] :
    Block T → Nat → Nat → Block T → Nat → World →
    Outcome (Block T × Block T) (Block T × Block T)
  | src, _, 0, dst, _, w => .ok (src, dst) w
  | src, first, n + 1, dst, d, w =>
    match live? src first with
    | none => .undefined
    | some x =>
      match construct_at (!Element.nothrow_move T) dst d x w with
      | .ok dst1 w1 =>
        match uninitialized_move_n (src.set first (some (Element.moved_from x)))
            (first + 1) n dst1 (d + 1) w1 with
        | .ok r w2 => .ok r w2
        | .thrown (src2, dst2) w2 =>
          match unwind_destroy dst2 d w2 with
          | .thrown dst3 w3 => .thrown (src2, dst3) w3
          | _ => .undefined
        | .undefined => .undefined
        | .terminated => .terminated
      | .thrown dst1 w1 => .thrown (src, dst1) w1
      | .undefined => .undefined
      | .terminated => .terminated

/-- The element-wise transfer every reallocation uses (lines 149-155, 259-267,
298-307, 339-352, 422-465): `std::uninitialized_move_n` when `move_branch`,
`std::uninitialized_copy_n` otherwise.  The result is `(src, dst)`. -/
def transfer_n {T : Type} [Element T] (src : Block T) (first n : Nat)
    (dst : Block T) (d : Nat) (w : World) :
    Outcome (Block T × Block T) (Block T × Block T) :=
  if move_branch T then uninitialized_move_n src first n dst d w
  else
    match uninitialized_copy_n src first n dst d w with
    | .ok dst1 w1 => .ok (src, dst1) w1
    | .thrown dst1 w1 => .thrown (src, dst1) w1
    | .undefined => .undefined
    | .terminated => .terminated

/-- `*(buf + d) = std::move(*(buf + s))` inside one block. -/
def move_assign_within {T : Type} [Element T] (buf : Block T) (d s : Nat)
    (w : World) : Outcome (Block T) (Block T) :=
  match live? buf s, live? buf d with
  | some x, some _ =>
    match w.charge (!Element.nothrow_move T) with
    | none => .thrown buf w.fired
    | some w1 =>
      .ok ((buf.set d (some x)).set s (some (Element.moved_from x)))
        { w1 with assignments := w1.assignments + 1 }
  | _, _ => .undefined

/-- `*(dst + d) = std::move(*(src + s))` between two blocks; the result is
`(dst, src)`. -/
def move_assign_from {T : Type} [Element T] (dst : Block T) (d : Nat)
    (src : Block T) (s : Nat) (w : World) :
    Outcome (Block T × Block T) (Block T × Block T) :=
  match live? src s, live? dst d with
  | some x, some _ =>
    match w.charge (!Element.nothrow_move T) with
    | none => .thrown (dst, src) w.fired
    | some w1 =>
      .ok (dst.set d (some x), src.set s (some (Element.moved_from x)))
        { w1 with assignments := w1.assignments + 1 }
  | _, _ => .undefined

/-- `*(dst + d) = *(src + s)` between two blocks (copy assignment). -/
def copy_assign_from {T : Type} (dst : Block T) (d : Nat) (src : Block T)
    (s : Nat) (w : World) : Outcome (Block T) (Block T) :=
  match live? src s, live? dst d with
  | some x, some _ =>
    match w.charge true with
    | none => .thrown dst w.fired
    | some w1 => .ok (dst.set d (some x)) { w1 with assignments := w1.assignments + 1 }
  | _, _ => .undefined

/-- The loop of `std::move(first, last, d_first)`: `n` move assignments going
up, inside one block. -/
def move_loop {T : Type} [Element T] :
    Block T → Nat → Nat → Nat → World → Outcome (Block T) (Block T)
  | buf, _, _, 0, w => .ok buf w
  | buf, first, d, n + 1, w =>
    match move_assign_within buf d first w with
    | .ok buf1 w1 => move_loop buf1 (first + 1) (d + 1) n w1
    | .thrown buf1 w1 => .thrown buf1 w1
    | .undefined => .undefined
    | .terminated => .terminated

/-- `std::move(buf + first, buf + last, buf + d_first)`. -/
def std_move {T : Type} [Element T] (buf : Block T) (first last d_first : Nat)
    (w : World) : Outcome (Block T) (Block T) :=
  if last < first then .undefined else move_loop buf first d_first (last - first) w

/-- The loop of `std::move_backward`: `n` move assignments going down from
`*(--d_last) = std::move(*(--last))`. -/
def move_backward_loop {T : Type} [Element T] :
    Block T → Nat → Nat → Nat → World → Outcome (Block T) (Block T)
  | buf, _, _, 0, w => .ok buf w
  | buf, last, d_last, n + 1, w =>
    if last = 0 ∨ d_last = 0 then .undefined
    else
      match move_assign_within buf (d_last - 1) (last - 1) w with
      | .ok buf1 w1 => move_backward_loop buf1 (last - 1) (d_last - 1) n w1
      | .thrown buf1 w1 => .thrown buf1 w1
      | .undefined => .undefined
      | .terminated => .terminated

/-- `std::move_backward(buf + first, buf + last, buf + d_last)`. -/
def std_move_backward {T : Type} [Element T] (buf : Block T)
    (first last d_last : Nat) (w : World) : Outcome (Block T) (Block T) :=
  if last < first then .undefined
  else move_backward_loop buf last d_last (last - first) w

/-! ## `RawMemory<T>` (lines 9-91) -/

/-- `RawMemory<T>`: `buffer_` and `capacity_`. -/
structure RawMemory (T : Type) where
  buffer_ : Block T
  capacity_ : Nat
deriving DecidableEq, Repr

/-- `RawMemory() = default` (line 13). -/
def RawMemory.empty (T : Type) : RawMemory T :=
  { buffer_ := [], capacity_ := 0 }

/-- `explicit RawMemory(size_t capacity)` (lines 15-18). -/
def RawMemory.alloc (T : Type) (capacity : Nat) : RawMemory T :=
  { buffer_ := Allocate T capacity, capacity_ := capacity }

/-- `~RawMemory()` (lines 20-22). -/
def RawMemory.destroy {T : Type} (m : RawMemory T) (w : World) : World :=
  Deallocate m.buffer_ w

/-- `RawMemory& operator=(RawMemory&& rhs)` (lines 32-39); the result is
`(*this, rhs)`.  The block `*this` held before is neither destroyed nor
deallocated. -/
def RawMemory.move_assign {T : Type} (this rhs : RawMemory T) (w : World) :
    (RawMemory T × RawMemory T) × World :=
  (({ buffer_ := rhs.buffer_, capacity_ := rhs.capacity_ },
    { buffer_ := [], capacity_ := 0 }),
   { w with leaked := w.leaked + liveCount this.buffer_ })

/-- `T* operator+(size_t offset)` (lines 42-46): `none` when the `assert`
fails. -/
def RawMemory.plus {T : Type} (m : RawMemory T) (offset : Nat) : Option Nat :=
  if offset ≤ m.capacity_ then some offset else none

/-- `T& operator[](size_t index)` (lines 56-59): the cell referred to, `none`
when the `assert` fails. -/
def RawMemory.index {T : Type} (m : RawMemory T) (index : Nat) : Option Nat :=
  if index < m.capacity_ then some index else none

/-- `void Swap(RawMemory& other)` (lines 61-64); the result is `(*this, other)`. -/
def RawMemory.Swap {T : Type} (this other : RawMemory T) :
    RawMemory T × RawMemory T :=
  ({ buffer_ := other.buffer_, capacity_ := other.capacity_ },
   { buffer_ := this.buffer_, capacity_ := this.capacity_ })

/-- `size_t Capacity() const` (lines 74-76). -/
def RawMemory.Capacity {T : Type} (m : RawMemory T) : Nat :=
  m.capacity_

/-! ## `Vector<T>` (lines 94-576) -/

/-- `Vector<T>`: `data_`, `capacity_`, `size_` (lines 573-575). -/
structure Vector (T : Type) where
  data_ : RawMemory T
  capacity_ : Nat
  size_ : Nat
deriving DecidableEq, Repr

/-- The argument of a call that takes the new element by reference: an object
outside the vector, or the vector's own element `(*this)[j]`. -/
inductive Arg (T : Type) where
  | value (x : T)
  | element (j : Nat)
deriving DecidableEq, Repr

/-- The value seen through the reference at the moment it is read. -/
def Arg.read {T : Type} (a : Arg T) (data : RawMemory T) : Option T :=
  match a with
  | .value x => some x
  | .element j => live? data.buffer_ j

namespace Vector

/-- `Vector()` (lines 99-101). -/
def default (T : Type) : Vector T :=
  { data_ := RawMemory.empty T, capacity_ := 0, size_ := 0 }

/-- `size_t Size() const` (lines 125-127). -/
def Size {T : Type} (v : Vector T) : Nat := v.size_

/-- `size_t Capacity() const` (lines 129-131): the vector's own counter, not
`data_.Capacity()`. -/
def Capacity {T : Type} (v : Vector T) : Nat := v.capacity_

/-- `T& operator[](size_t index)` (lines 137-140), read: the value of element
`index`; `none` when an `assert` fails or the cell holds no live object. -/
def get {T : Type} (v : Vector T) (index : Nat) : Option T :=
  if index < v.size_ then
    match v.data_.index index with
    | some i => live? v.data_.buffer_ i
    | none => none
  else none

/-- `begin()` (lines 384-386): offset of `data_.GetAddress()` in the block. -/
def begin_ {T : Type} (_v : Vector T) : Option Nat := some 0

/-- `end()` (lines 387-389): `data_ + size_`. -/
def end_ {T : Type} (v : Vector T) : Option Nat := v.data_.plus v.size_

/-- With the buffer of `data_` replaced. -/
def withBuffer {T : Type} (v : Vector T) (b : Block T) : Vector T :=
  { v with data_ := { v.data_ with buffer_ := b } }

/-- `std::uninitialized_move_n(buf + first, n, buf + d)` with source and
destination in the same block (line 480). -/
def uninitialized_move_n_within {T : Type} [Element T] :
    Block T → Nat → Nat → Nat → World → Outcome (Block T) (Block T)
  | buf, _, 0, _, w => .ok buf w
  | buf, first, n + 1, d, w =>
    match live? buf first with
    | none => .undefined
    | some x =>
      match construct_at (!Element.nothrow_move T) buf d x w with
      | .ok buf1 w1 =>
        match uninitialized_move_n_within
            (buf1.set first (some (Element.moved_from x))) (first + 1) n (d + 1) w1 with
        | .ok buf2 w2 => .ok buf2 w2
        | .thrown buf2 w2 => unwind_destroy buf2 d w2
        | .undefined => .undefined
        | .terminated => .terminated
      | .thrown buf1 w1 => .thrown buf1 w1
      | .undefined => .undefined
      | .terminated => .terminated

/-- `explicit Vector(size_t size)` (lines 103-113). -/
def sized (T : Type) [Element T] (size : Nat) (w : World) :
    Outcome (Vector T) Unit :=
  let data := RawMemory.alloc T size
  match uninitialized_value_construct_n data.buffer_ 0 size w with
  | .ok b w1 =>
    .ok { data_ := { data with buffer_ := b }, capacity_ := size, size_ := size } w1
  | .thrown b w1 => .thrown () (Deallocate b w1)
  | .undefined => .undefined
  | .terminated => .terminated

/-- `Vector(const Vector& other)` (lines 115-123). -/
def copy_construct {T : Type} (other : Vector T) (w : World) :
    Outcome (Vector T) Unit :=
  let data := RawMemory.alloc T other.size_
  match uninitialized_copy_n other.data_.buffer_ 0 other.size_ data.buffer_ 0 w with
  | .ok b w1 =>
    .ok { data_ := { data with buffer_ := b }, capacity_ := other.size_,
          size_ := other.size_ } w1
  | .thrown b w1 => .thrown () (Deallocate b w1)
  | .undefined => .undefined
  | .terminated => .terminated

/-- `Vector(Vector&& other) noexcept` (lines 162-170); the result is
`(*this, other)`. -/
def move_construct {T : Type} (other : Vector T) (w : World) :
    (Vector T × Vector T) × World :=
  let this0 : Vector T := { data_ := RawMemory.empty T, capacity_ := 0, size_ := 0 }
  let r := RawMemory.move_assign this0.data_ other.data_ w
  (({ data_ := r.1.1, capacity_ := other.capacity_, size_ := other.size_ },
    { data_ := r.1.2, capacity_ := 0, size_ := 0 }), r.2)

/-- `~Vector()` (lines 537-540), followed by the destructor of `data_`. -/
def destroy {T : Type} (v : Vector T) (w : World) : Outcome Unit Unit :=
  match DestroyN v.data_.buffer_ 0 v.size_ w with
  | .ok b w1 => .ok () (Deallocate b w1)
  | _ => .undefined

/-- `void Swap(Vector& other) noexcept` (lines 236-240); the result is
`(*this, other)`. -/
def Swap {T : Type} (this other : Vector T) : Vector T × Vector T :=
  let d := RawMemory.Swap this.data_ other.data_
  ({ data_ := d.1, capacity_ := other.capacity_, size_ := other.size_ },
   { data_ := d.2, capacity_ := this.capacity_, size_ := this.size_ })

/-- `void Reserve(size_t new_capacity)` (lines 143-160). -/
def Reserve {T : Type} [Element T] (v : Vector T) (new_capacity : Nat) (w : World) :
    Outcome (Vector T) (Vector T) :=
  if new_capacity ≤ v.capacity_ then .ok v w
  else
    let new_data := RawMemory.alloc T new_capacity
    match transfer_n v.data_.buffer_ 0 v.size_ new_data.buffer_ 0 w with
    | .ok (ob, nb) w1 =>
      match destroy_loop ob 0 v.size_ w1 with
      | .ok ob1 w2 =>
        let d := RawMemory.Swap { v.data_ with buffer_ := ob1 } { new_data with buffer_ := nb }
        .ok { data_ := d.1, capacity_ := new_capacity, size_ := v.size_ } (d.2.destroy w2)
      | _ => .undefined
    | .thrown (ob, nb) w1 => .thrown (v.withBuffer ob) (Deallocate nb w1)
    | .undefined => .undefined
    | .terminated => .terminated

/-- `void Resize(size_t new_size)` (lines 242-253). -/
def Resize {T : Type} [Element T] (v : Vector T) (new_size : Nat) (w : World) :
    Outcome (Vector T) (Vector T) :=
  if new_size < v.size_ then
    match DestroyN v.data_.buffer_ new_size (v.size_ - new_size) w with
    | .ok b w1 => .ok { v.withBuffer b with size_ := new_size } w1
    | _ => .undefined
  else
    match Reserve v new_size w with
    | .ok v1 w1 =>
      match uninitialized_value_construct_n v1.data_.buffer_ v1.size_
          (new_size - v1.size_) w1 with
      | .ok b w2 => .ok { v1.withBuffer b with size_ := new_size } w2
      | .thrown b w2 => .thrown (v1.withBuffer b) w2
      | .undefined => .undefined
      | .terminated => .terminated
    | .thrown v1 w1 => .thrown v1 w1
    | .undefined => .undefined
    | .terminated => .terminated

/-- The reallocating branch shared, line for line, by both `PushBack` overloads
and `EmplaceBack` (lines 256-271, 293-311, 336-357): build the new element at
`new_data + size_`, transfer the old elements, swap the blocks, destroy the old
elements; then `++size_` (lines 286, 320, 374).  `x` is the value the new
element's constructor produces and `fallible` whether it may throw. -/
def grow_back {T : Type} [Element T] (v : Vector T) (fallible : Bool) (x : T)
    (w : World) : Outcome (Vector T) (Vector T) :=
  let new_capacity := if v.size_ = 0 then 1 else v.size_ * 2
  let new_data := RawMemory.alloc T new_capacity
  match new_data.plus v.size_ with
  | none => .undefined
  | some p =>
    match construct_at fallible new_data.buffer_ p x w with
    | .ok nb w1 =>
      match transfer_n v.data_.buffer_ 0 v.size_ nb 0 w1 with
      | .ok (ob, nb1) w2 =>
        let d := RawMemory.Swap { v.data_ with buffer_ := ob } { new_data with buffer_ := nb1 }
        match DestroyN d.2.buffer_ 0 v.size_ w2 with
        | .ok ob1 w3 =>
          .ok { data_ := d.1, capacity_ := new_capacity, size_ := v.size_ + 1 }
            (Deallocate ob1 w3)
        | _ => .undefined
      | .thrown (ob, nb1) w2 => .thrown (v.withBuffer ob) (Deallocate nb1 w2)
      | .undefined => .undefined
      | .terminated => .terminated
    | .thrown nb w1 => .thrown v (Deallocate nb w1)
    | .undefined => .undefined
    | .terminated => .terminated

/-- The branch without reallocation of `PushBack` and `EmplaceBack` (lines
274-284, 314-318, 360-372): `new (data_ + size_) T(...)`, then `++size_`. -/
def construct_back {T : Type} (v : Vector T) (fallible : Bool) (x : T) (w : World) :
    Outcome (Vector T) (Vector T) :=
  match v.data_.plus v.size_ with
  | none => .undefined
  | some p =>
    match construct_at fallible v.data_.buffer_ p x w with
    | .ok b w1 => .ok { v.withBuffer b with size_ := v.size_ + 1 } w1
    | .thrown _ w1 => .thrown v w1
    | .undefined => .undefined
    | .terminated => .terminated

/-- `void PushBack(const T& value)` (lines 254-288).  `value` is `const`, so
`T(std::move(value))` copies in both `if constexpr` branches. -/
def PushBack {T : Type} [Element T] (v : Vector T) (value : Arg T) (w : World) :
    Outcome (Vector T) (Vector T) :=
  match value.read v.data_ with
  | none => .undefined
  | some x =>
    if v.size_ = v.Capacity then grow_back v true x w
    else construct_back v true x w

/-- `void PushBack(T&& value)` (lines 290-322): the new element is
move-constructed from an object outside the vector. -/
def PushBackMove {T : Type} [Element T] (v : Vector T) (value : T) (w : World) :
    Outcome (Vector T) (Vector T) :=
  if v.size_ = v.Capacity then grow_back v (!Element.nothrow_move T) value w
  else construct_back v (!Element.nothrow_move T) value w

/-- `void PopBack() noexcept` (lines 323-328). -/
def PopBack {T : Type} (v : Vector T) (w : World) : Outcome (Vector T) (Vector T) :=
  if v.size_ ≠ 0 then
    match Destroy v.data_.buffer_ (v.size_ - 1) w with
    | .ok b w1 => .ok { v.withBuffer b with size_ := v.size_ - 1 } w1
    | _ => .undefined
  else .ok v w

/-- `T& EmplaceBack(Args&&... args)` (lines 331-377).  `fallible`: whether the
constructor `T(args...)` may throw; `arg`: what it reads.  The result is the
vector and the cell of the reference returned, `data_[size_ - 1]`. -/
def EmplaceBack {T : Type} [Element T] (v : Vector T) (fallible : Bool) (arg : Arg T)
    (w : World) : Outcome (Vector T × Nat) (Vector T) :=
  match arg.read v.data_ with
  | none => .undefined
  | some x =>
    match (if v.size_ = v.Capacity then grow_back v fallible x w
           else construct_back v fallible x w) with
    | .ok v1 w1 =>
      match v1.data_.index (v1.size_ - 1) with
      | some i => .ok (v1, i) w1
      | none => .undefined
    | .thrown v1 w1 => .thrown v1 w1
    | .undefined => .undefined
    | .terminated => .terminated

/-- The reallocating branch of `Emplace` (lines 416-471).  The `catch` handlers
run `Destroy(data_.GetAddress() + pos_index)` and
`DestroyN(data_.GetAddress(), pos_index)` on the vector's own block, then
rethrow; `new_data` is deallocated by its destructor on the way out. -/
def emplace_grow {T : Type} [Element T] (v : Vector T) (pos_index : Nat)
    (fallible : Bool) (x : T) (w : World) : Outcome (Vector T) (Vector T) :=
  let new_capacity := if v.size_ = 0 then 1 else v.size_ * 2
  let new_data := RawMemory.alloc T new_capacity
  match new_data.plus pos_index with
  | none => .undefined
  | some p =>
    match construct_at fallible new_data.buffer_ p x w with
    | .ok nb w1 =>
      match transfer_n v.data_.buffer_ 0 pos_index nb 0 w1 with
      | .ok (ob, nb1) w2 =>
        match transfer_n ob pos_index (v.size_ - pos_index) nb1 (pos_index + 1) w2 with
        | .ok (ob1, nb2) w3 =>
          let d := RawMemory.Swap { v.data_ with buffer_ := ob1 }
            { new_data with buffer_ := nb2 }
          match DestroyN d.2.buffer_ 0 v.size_ w3 with
          | .ok ob2 w4 =>
            .ok { data_ := d.1, capacity_ := new_capacity, size_ := v.size_ }
              (Deallocate ob2 w4)
          | _ => .undefined
        | .thrown (ob1, nb2) w3 =>
          match DestroyN ob1 0 pos_index w3 with
          | .ok ob2 w4 => .thrown (v.withBuffer ob2) (Deallocate nb2 w4)
          | _ => .undefined
        | .undefined => .undefined
        | .terminated => .terminated
      | .thrown (ob, nb1) w2 =>
        match Destroy ob pos_index w2 with
        | .ok ob1 w3 => .thrown (v.withBuffer ob1) (Deallocate nb1 w3)
        | _ => .undefined
      | .undefined => .undefined
      | .terminated => .terminated
    | .thrown nb w1 => .thrown v (Deallocate nb w1)
    | .undefined => .undefined
    | .terminated => .terminated

/-- The branch of `Emplace` without reallocation (lines 472-506): the new
element is built in the one-cell block `temp_data`, the last element is
move-constructed one cell up, the rest of the tail is shifted by
`std::move_backward`, and the new element is move-assigned into the hole. -/
def emplace_shift {T : Type} [Element T] (v : Vector T) (pos_index : Nat)
    (fallible : Bool) (x : T) (w : World) : Outcome (Vector T) (Vector T) :=
  let temp_data := RawMemory.alloc T 1
  match construct_at fallible temp_data.buffer_ 0 x w with
  | .ok tb w1 =>
    match uninitialized_move_n_within v.data_.buffer_ (v.size_ - 1) 1 v.size_ w1 with
    | .ok b w2 =>
      match v.data_.plus pos_index, v.data_.plus v.size_ with
      | some first, some last1 =>
        match std_move_backward b first (last1 - 1) last1 w2 with
        | .ok b1 w3 =>
          match v.data_.index pos_index, temp_data.index 0 with
          | some i, some t =>
            match move_assign_from b1 i tb t w3 with
            | .ok (b2, tb1) w4 =>
              match Destroy tb1 0 w4 with
              | .ok tb2 w5 => .ok (v.withBuffer b2) (Deallocate tb2 w5)
              | _ => .undefined
            | .thrown (b2, tb1) w4 => .thrown (v.withBuffer b2) (Deallocate tb1 w4)
            | .undefined => .undefined
            | .terminated => .terminated
          | _, _ => .undefined
        | .thrown b1 w3 => .thrown (v.withBuffer b1) (Deallocate tb w3)
        | .undefined => .undefined
        | .terminated => .terminated
      | _, _ => .undefined
    | .thrown b w2 => .thrown (v.withBuffer b) (Deallocate tb w2)
    | .undefined => .undefined
    | .terminated => .terminated
  | .thrown tb w1 => .thrown v (Deallocate tb w1)
  | .undefined => .undefined
  | .terminated => .terminated

/-- `iterator Emplace(const_iterator pos, Args&&... args)` (lines 403-512).
`pos` is the offset of the iterator from `data_.GetAddress()`; the result is
the vector and the offset of the iterator returned, `&data_[pos_index]`. -/
def Emplace {T : Type} [Element T] (v : Vector T) (pos : Nat) (fallible : Bool)
    (arg : Arg T) (w : World) : Outcome (Vector T × Nat) (Vector T) :=
  match v.end_ with
  | none => .undefined
  | some e =>
    if ¬ pos ≤ e then .undefined
    else
      match (if v.size_ = 0 then some 0 else (v.data_.index 0).map (fun b => pos - b)) with
      | none => .undefined
      | some pos_index =>
        if v.size_ = pos_index then
          match EmplaceBack v fallible arg w with
          | .ok (v1, _) w1 =>
            match v1.data_.index pos_index with
            | some i => .ok (v1, i) w1
            | none => .undefined
          | .thrown v1 w1 => .thrown v1 w1
          | .undefined => .undefined
          | .terminated => .terminated
        else
          match arg.read v.data_ with
          | none => .undefined
          | some x =>
            match (if v.size_ = v.Capacity then emplace_grow v pos_index fallible x w
                   else emplace_shift v pos_index fallible x w) with
            | .ok v1 w1 =>
              let v2 := { v1 with size_ := v1.size_ + 1 }
              match v2.data_.index pos_index with
              | some i => .ok (v2, i) w1
              | none => .undefined
            | .thrown v1 w1 => .thrown v1 w1
            | .undefined => .undefined
            | .terminated => .terminated

/-- `iterator Insert(const_iterator pos, const T& value)` (lines 526-529). -/
def Insert {T : Type} [Element T] (v : Vector T) (pos : Nat) (value : Arg T)
    (w : World) : Outcome (Vector T × Nat) (Vector T) :=
  Emplace v pos true value w

/-- `iterator Insert(const_iterator pos, T&& value)` (lines 531-533). -/
def InsertMove {T : Type} [Element T] (v : Vector T) (pos : Nat) (value : T)
    (w : World) : Outcome (Vector T × Nat) (Vector T) :=
  Emplace v pos (!Element.nothrow_move T) (.value value) w

/-- `iterator Erase(const_iterator pos)` (lines 516-524).  `pos` is the offset
of the iterator from `data_.GetAddress()`; the result is the vector and the
offset of the iterator returned. -/
def Erase {T : Type} [Element T] (v : Vector T) (pos : Nat) (w : World) :
    Outcome (Vector T × Nat) (Vector T) :=
  match v.end_ with
  | none => .undefined
  | some e =>
    if ¬ pos < e then .undefined
    else
      match std_move v.data_.buffer_ (pos + 1) e pos w with
      | .ok b w1 =>
        match PopBack (v.withBuffer b) w1 with
        | .ok v1 w2 =>
          if v1.size_ = 0 then
            match v1.end_ with
            | some e1 => .ok (v1, e1) w2
            | none => .undefined
          else .ok (v1, pos) w2
        | _ => .undefined
      | .thrown b w1 => .thrown (v.withBuffer b) w1
      | .undefined => .undefined
      | .terminated => .terminated

/-- The loop `for (i = 0; i < n; i++) data_[i] = rhs.data_[i];` (lines 182-184
and 189-191), from `i` for `n` more rounds. -/
def copy_assign_loop {T : Type} (src : RawMemory T) :
    RawMemory T → Nat → Nat → World → Outcome (RawMemory T) (RawMemory T)
  | dst, _, 0, w => .ok dst w
  | dst, i, n + 1, w =>
    match dst.index i, src.index i with
    | some p, some q =>
      match copy_assign_from dst.buffer_ p src.buffer_ q w with
      | .ok b w1 => copy_assign_loop src { dst with buffer_ := b } (i + 1) n w1
      | .thrown b w1 => .thrown { dst with buffer_ := b } w1
      | .undefined => .undefined
      | .terminated => .terminated
    | _, _ => .undefined

/-- The body of `Vector& operator=(const Vector& rhs)` under `this != &rhs`
(lines 174-195); `rhs` is not modified. -/
def copy_assign_body {T : Type} (this rhs : Vector T) (w : World) :
    Outcome (Vector T) (Vector T) :=
  if rhs.size_ > this.data_.Capacity then
    match copy_construct rhs w with
    | .ok rhs_copy w1 =>
      let r := Swap this rhs_copy
      match r.2.destroy w1 with
      | .ok _ w2 => .ok r.1 w2
      | _ => .undefined
    | .thrown _ w1 => .thrown this w1
    | .undefined => .undefined
    | .terminated => .terminated
  else if rhs.size_ < this.size_ then
    match copy_assign_loop rhs.data_ this.data_ 0 rhs.size_ w with
    | .ok d w1 =>
      match DestroyN d.buffer_ rhs.size_ (this.size_ - rhs.size_) w1 with
      | .ok b w2 =>
        .ok { data_ := { d with buffer_ := b }, capacity_ := this.capacity_,
              size_ := rhs.size_ } w2
      | _ => .undefined
    | .thrown d w1 => .thrown { this with data_ := d } w1
    | .undefined => .undefined
    | .terminated => .terminated
  else
    match copy_assign_loop rhs.data_ this.data_ 0 this.size_ w with
    | .ok d w1 =>
      match uninitialized_copy_n rhs.data_.buffer_ this.size_ (rhs.size_ - this.size_)
          d.buffer_ this.size_ w1 with
      | .ok b w2 =>
        .ok { data_ := { d with buffer_ := b }, capacity_ := this.capacity_,
              size_ := rhs.size_ } w2
      | .thrown b w2 => .thrown { this with data_ := { d with buffer_ := b } } w2
      | .undefined => .undefined
      | .terminated => .terminated
    | .thrown d w1 => .thrown { this with data_ := d } w1
    | .undefined => .undefined
    | .terminated => .terminated

/-- The body of `Vector& operator=(Vector&& rhs) noexcept` under `this != &rhs`
(lines 204-225); the result is `(*this, rhs)`.  An exception cannot leave the
function: it terminates the program. -/
def move_assign_body {T : Type} [Element T] (this rhs : Vector T) (w : World) :
    Outcome (Vector T × Vector T) Unit :=
  if rhs.size_ > this.data_.Capacity then
    let r := Swap this rhs
    .ok (r.1, { r.2 with size_ := 0, capacity_ := 0 }) w
  else if rhs.size_ < this.size_ then
    match DestroyN this.data_.buffer_ 0 this.size_ w with
    | .ok b w1 =>
      match uninitialized_move_n rhs.data_.buffer_ 0 rhs.size_ b 0 w1 with
      | .ok (rb, b1) w2 =>
        .ok ({ this.withBuffer b1 with size_ := rhs.size_ },
             { rhs.withBuffer rb with size_ := 0, capacity_ := 0 }) w2
      | .thrown _ _ => .terminated
      | .undefined => .undefined
      | .terminated => .terminated
    | _ => .undefined
  else
    match uninitialized_move_n rhs.data_.buffer_ this.size_ (rhs.size_ - this.size_)
        this.data_.buffer_ 0 w with
    | .ok (rb, b1) w1 =>
      .ok ({ this.withBuffer b1 with size_ := rhs.size_, capacity_ := rhs.capacity_ },
           { rhs.withBuffer rb with size_ := 0, capacity_ := 0 }) w1
    | .thrown _ _ => .terminated
    | .undefined => .undefined
    | .terminated => .terminated

end Vector

namespace Vector

/-- The values read by `operator[]` at indices `i, i+1, ..., i+n-1`. -/
def get_range {T : Type} (v : Vector T) : Nat → Nat → Option (List T)
  | _, 0 => some []
  | i, n + 1 =>
    match v.get i, get_range v (i + 1) n with
    | some x, some xs => some (x :: xs)
    | _, _ => none

/-- The contents: the elements read at indices `0 .. Size()-1`, that is the
range `[begin(), end())`. -/
def elements {T : Type} (v : Vector T) : Option (List T) :=
  get_range v 0 v.Size

/-- The storage block really has `data_.Capacity()` cells. -/
def BlockOk {T : Type} (v : Vector T) : Prop :=
  v.data_.buffer_.length = v.data_.capacity_

instance {T : Type} (v : Vector T) : Decidable v.BlockOk :=
  inferInstanceAs (Decidable (v.data_.buffer_.length = v.data_.capacity_))

/-- `Capacity()` equals the capacity of the storage block. -/
def CapacityOk {T : Type} (v : Vector T) : Prop :=
  v.capacity_ = v.data_.capacity_

instance {T : Type} (v : Vector T) : Decidable v.CapacityOk :=
  inferInstanceAs (Decidable (v.capacity_ = v.data_.capacity_))

/-- The vector has contents `xs`, cell by cell. -/
def Rep {T : Type} (v : Vector T) (xs : List T) : Prop :=
  v.data_.buffer_.length = v.data_.capacity_ ∧ v.size_ = xs.length ∧
  xs.length ≤ v.data_.capacity_ ∧
  ∀ i, i < xs.length → v.data_.buffer_[i]? = some (xs[i]?)

end Vector

/-! ## Objects: assignment needs to know whether `this == &rhs` -/

/-- The `Vector<T>` objects of a program, by address. -/
abbrev Store (T : Type) := Nat → Vector T

/-- The store with the object at `a` replaced. -/
def Store.put {T : Type} (σ : Store T) (a : Nat) (v : Vector T) : Store T :=
  fun b => if b = a then v else σ b

/-- `Vector& operator=(const Vector& rhs)` (lines 172-198) on the objects at
addresses `this` and `rhs`. -/
def copy_assign {T : Type} (σ : Store T) (this rhs : Nat) (w : World) :
    Outcome (Store T) (Store T) :=
  if this ≠ rhs then
    match Vector.copy_assign_body (σ this) (σ rhs) w with
    | .ok v w1 => .ok (σ.put this v) w1
    | .thrown v w1 => .thrown (σ.put this v) w1
    | .undefined => .undefined
    | .terminated => .terminated
  else .ok σ w

/-- `Vector& operator=(Vector&& rhs) noexcept` (lines 201-234) on the objects at
addresses `this` and `rhs`. -/
def move_assign {T : Type} [Element T] (σ : Store T) (this rhs : Nat) (w : World) :
    Outcome (Store T) Unit :=
  if this ≠ rhs then
    match Vector.move_assign_body (σ this) (σ rhs) w with
    | .ok (v, r) w1 => .ok ((σ.put this v).put rhs r) w1
    | .thrown _ w1 => .thrown () w1
    | .undefined => .undefined
    | .terminated => .terminated
  else .ok σ w

/-! ## The list operations of the specification -/

/-- An operation of the sequence in the refinement claim. -/
inductive Op (T : Type) where
  | pushBack (v : T)
  | insert (i : Nat) (v : T)
  | erase (i : Nat)
  | popBack
deriving Repr

/-- The operation on a plain list as the specification words it: append,
insert at index (`i <= size`), remove at index (`i < size`), drop the last
element (nothing on the empty list).  `none`: the index is out of range. -/
def Op.onList {T : Type} (xs : List T) : Op T → Option (List T)
  | .pushBack v => some (xs ++ [v])
  | .insert i v => if i ≤ xs.length then some (xs.take i ++ v :: xs.drop i) else none
  | .erase i => if i < xs.length then some (xs.eraseIdx i) else none
  | .popBack => some xs.dropLast

/-- A sequence of operations on a plain list. -/
def runList {T : Type} : List (Op T) → List T → Option (List T)
  | [], xs => some xs
  | op :: ops, xs =>
    match op.onList xs with
    | some ys => runList ops ys
    | none => none

/-- The same operation on a `Vector`. -/
def Op.onVector {T : Type} [Element T] (v : Vector T) (w : World) :
    Op T → Outcome (Vector T) (Vector T)
  | .pushBack x => v.PushBack (.value x) w
  | .insert i x =>
    match v.Insert i (.value x) w with
    | .ok r w1 => .ok r.1 w1
    | .thrown e w1 => .thrown e w1
    | .undefined => .undefined
    | .terminated => .terminated
  | .erase i =>
    match v.Erase i w with
    | .ok r w1 => .ok r.1 w1
    | .thrown e w1 => .thrown e w1
    | .undefined => .undefined
    | .terminated => .terminated
  | .popBack => v.PopBack w

/-- A sequence of operations on a `Vector`, stopping at the first one that does
not return. -/
def runVector {T : Type} [Element T] :
    List (Op T) → Vector T → World → Outcome (Vector T) (Vector T)
  | [], v, w => .ok v w
  | op :: ops, v, w =>
    match op.onVector v w with
    | .ok v1 w1 => runVector ops v1 w1
    | .thrown e w1 => .thrown e w1
    | .undefined => .undefined
    | .terminated => .terminated

/-- `int` as an element type. -/
instance : Element Int where
  value_init := 0
  moved_from := fun x => x
  nothrow_move := true
  copyable := true

/-- A full vector of five `int`s. -/
def sample_full : Vector Int :=
  { data_ := { buffer_ := [some 10, some 20, some 30, some 40, some 50], capacity_ := 5 },
    capacity_ := 5, size_ := 5 }

/-- A vector of three `int`s with two spare cells. -/
def sample_spare : Vector Int :=
  { data_ := { buffer_ := [some 10, some 20, some 30, none, none], capacity_ := 5 },
    capacity_ := 5, size_ := 3 }

/-- The vector `[1, 2]`, full. -/
def sample_dst : Vector Int :=
  { data_ := { buffer_ := [some 1, some 2], capacity_ := 2 }, capacity_ := 2, size_ := 2 }

/-- The vector `[7, 8]`, full. -/
def sample_src : Vector Int :=
  { data_ := { buffer_ := [some 7, some 8], capacity_ := 2 }, capacity_ := 2, size_ := 2 }

/-- Two objects: `sample_dst` at address 0 and `sample_src` everywhere else. -/
def sample_store : Store Int :=
  fun a => if a = 0 then sample_dst else sample_src

/-- An element type that is copyable and whose move constructor may throw: the
container takes the copy branch of every `if constexpr`. -/
structure Fragile where
  val : Int
deriving DecidableEq, Repr

instance : Element Fragile where
  value_init := { val := 0 }
  moved_from := fun _ => { val := 0 }
  nothrow_move := false
  copyable := true

/-- Two objects: `a` at address 0 and `b` everywhere else. -/
def two_objects {T : Type} (a b : Vector T) : Store T :=
  fun i => if i = 0 then a else b

/-- The element overwrite `v[index] = x`: `operator[]` (lines 137-140) followed by the
copy assignment of `T`. -/
def Vector.overwrite {T : Type} (v : Vector T) (index : Nat) (x : T) (w : World) :
    Outcome (Vector T) (Vector T) :=
  if index < v.size_ then
    match v.data_.index index with
    | some i =>
      match live? v.data_.buffer_ i with
      | some _ =>
        match w.charge true with
        | none => .thrown v w.fired
        | some w1 =>
          .ok (v.withBuffer (v.data_.buffer_.set i (some x)))
            { w1 with assignments := w1.assignments + 1 }
      | none => .undefined
    | none => .undefined
  else .undefined

/-- A mutation of one vector: an operation of `Op`, `Resize(k)` or `v[i] = x`. -/
inductive Mutation (T : Type) where
  | op (o : Op T)
  | resize (k : Nat)
  | overwrite (i : Nat) (x : T)
deriving Repr

/-- The mutation on a `Vector`. -/
def Mutation.onVector {T : Type} [Element T] (v : Vector T) (w : World) :
    Mutation T → Outcome (Vector T) (Vector T)
  | .op o => o.onVector v w
  | .resize k => v.Resize k w
  | .overwrite i x => v.overwrite i x w

/-! ## Storage shared between objects

In the definitions above a `Vector` holds the cells of its block, so two vectors
cannot share storage.  To state that a copy is independent of its original, the
blocks are put in a free store and an object holds the address of its block.  The
member functions above are functions of the cells of the vector's own block; here
the pointer `data_.buffer_` is followed: a call runs on the cells the object's
`buffer_` points to, and the cells it leaves are stored where the source leaves them,
in the same block on a path that keeps `data_`, in a newly allocated block on a path
that ends with `data_.Swap(new_data)`. -/

/-- The free store: the storage blocks `operator new` has handed out, by address.  A
block that has been given back has no cells. -/
structure FreeStore (T : Type) where
  blocks : List (Block T)

namespace FreeStore

/-- The cells `p` points to; `none` is `nullptr`.  An address that has not been handed
out has no cells. -/
def read {T : Type} (h : FreeStore T) : Option Nat → Block T
  | none => []
  | some a => (h.blocks[a]?).getD []

/-- The store with the cells `b` in the block at `p`. -/
def write {T : Type} (h : FreeStore T) (p : Option Nat) (b : Block T) : FreeStore T :=
  match p with
  | none => h
  | some a => { blocks := h.blocks.set a b }

/-- `RawMemory::Allocate(n)` (lines 80-82) in the free store: `nullptr` for `n == 0`,
otherwise a new block of `n` cells at an address that no other block has. -/
def Allocate {T : Type} (h : FreeStore T) (n : Nat) : Option Nat × FreeStore T :=
  if n ≠ 0 then
    (some h.blocks.length, { blocks := h.blocks ++ [AdvancedVector.Allocate T n] })
  else (none, h)

/-- `RawMemory::Deallocate(buf)` (lines 85-87) in the free store. -/
def Deallocate {T : Type} (h : FreeStore T) (p : Option Nat) : FreeStore T :=
  h.write p []

end FreeStore

/-- A `Vector<T>` object whose `data_.buffer_` is an address of the free store
(`none`: `nullptr`); `data_capacity_` is `data_.capacity_`. -/
structure Object where
  buffer_ : Option Nat
  data_capacity_ : Nat
  capacity_ : Nat
  size_ : Nat
deriving DecidableEq, Repr

namespace Object

/-- The vector an object is: its counters, and the cells its `buffer_` points to. -/
def deref {T : Type} (o : Object) (h : FreeStore T) : Vector T :=
  { data_ := { buffer_ := h.read o.buffer_, capacity_ := o.data_capacity_ },
    capacity_ := o.capacity_, size_ := o.size_ }

/-- The object has a storage block of the free store. -/
def allocated {T : Type} (o : Object) (h : FreeStore T) : Prop :=
  ∃ a, o.buffer_ = some a ∧ a < h.blocks.length

/-- The object with its block at `p` and the counters of `v`. -/
def of {T : Type} (p : Option Nat) (v : Vector T) : Object :=
  { buffer_ := p, data_capacity_ := v.data_.capacity_, capacity_ := v.capacity_,
    size_ := v.size_ }

/-- A member function `f` on a path that keeps `data_.buffer_`: every cell it reads or
writes is reached through `data_.GetAddress()`, so the cells `f` leaves are those of
the block the object has, whether `f` returns or throws.  (A scratch block that is
allocated and given back within the call leaves nothing in the store.) -/
def in_place {T : Type} (f : Vector T → World → Outcome (Vector T) (Vector T))
    (o : Object) (h : FreeStore T) (w : World) :
    Outcome (Object × FreeStore T) (Object × FreeStore T) :=
  match f (o.deref h) w with
  | .ok v w1 => .ok (of o.buffer_ v, h.write o.buffer_ v.data_.buffer_) w1
  | .thrown v w1 => .thrown (of o.buffer_ v, h.write o.buffer_ v.data_.buffer_) w1
  | .undefined => .undefined
  | .terminated => .terminated

/-- A member function `f` on a path that builds the contents in a local
`RawMemory<T> new_data(n)` and ends with `data_.Swap(new_data)`: when it returns, the
object has the new block and the destructor of `new_data` (lines 20-22) has given the
old one back; when it throws, `new_data` is given back and the object keeps its
block. -/
def reallocating {T : Type} (n : Nat)
    (f : Vector T → World → Outcome (Vector T) (Vector T))
    (o : Object) (h : FreeStore T) (w : World) :
    Outcome (Object × FreeStore T) (Object × FreeStore T) :=
  match f (o.deref h) w with
  | .ok v w1 =>
    let r := h.Allocate n
    .ok (of r.1 v, (r.2.write r.1 v.data_.buffer_).Deallocate o.buffer_) w1
  | .thrown v w1 => .thrown (of o.buffer_ v, h.write o.buffer_ v.data_.buffer_) w1
  | .undefined => .undefined
  | .terminated => .terminated

/-- `Vector(const Vector& other)` (lines 115-123): `data_(other.size_)` is a new block
of the free store, and the elements of `other` are copied into it.  When a copy
throws, the block is given back. -/
def copy_construct {T : Type} (other : Object) (h : FreeStore T) (w : World) :
    Outcome (Object × FreeStore T) (FreeStore T) :=
  match Vector.copy_construct (other.deref h) w with
  | .ok v w1 =>
    let r := h.Allocate other.size_
    .ok (of r.1 v, r.2.write r.1 v.data_.buffer_) w1
  | .thrown _ w1 => .thrown h w1
  | .undefined => .undefined
  | .terminated => .terminated

/-- `Reserve(new_capacity)` (lines 143-160): nothing happens when
`new_capacity <= capacity_`, otherwise the elements go to `new_data`. -/
def Reserve {T : Type} [Element T] (o : Object) (new_capacity : Nat) (h : FreeStore T)
    (w : World) : Outcome (Object × FreeStore T) (Object × FreeStore T) :=
  if new_capacity ≤ o.capacity_ then in_place (fun v w1 => v.Reserve new_capacity w1) o h w
  else reallocating new_capacity (fun v w1 => v.Reserve new_capacity w1) o h w

/-- `Resize(new_size)` (lines 242-253): the shrinking branch destroys cells of the
object's block; the growing branch calls `Reserve(new_size)`, after which
`new_size <= capacity_`, and value-constructs in the block the object then has. -/
def Resize {T : Type} [Element T] (o : Object) (new_size : Nat) (h : FreeStore T)
    (w : World) : Outcome (Object × FreeStore T) (Object × FreeStore T) :=
  if new_size < o.size_ then in_place (fun v w1 => v.Resize new_size w1) o h w
  else
    match o.Reserve new_size h w with
    | .ok r w1 => in_place (fun v w2 => v.Resize new_size w2) r.1 r.2 w1
    | .thrown r w1 => .thrown r w1
    | .undefined => .undefined
    | .terminated => .terminated

/-- `PushBack(const T&)` (lines 254-288): `new_data(size_ == 0 ? 1 : size_ * 2)` when
`size_ == Capacity()`, otherwise the element is constructed at `data_ + size_`. -/
def PushBack {T : Type} [Element T] (o : Object) (x : T) (h : FreeStore T) (w : World) :
    Outcome (Object × FreeStore T) (Object × FreeStore T) :=
  if o.size_ = o.capacity_ then
    reallocating (if o.size_ = 0 then 1 else o.size_ * 2)
      (fun v w1 => v.PushBack (.value x) w1) o h w
  else in_place (fun v w1 => v.PushBack (.value x) w1) o h w

/-- `PopBack()` (lines 323-328). -/
def PopBack {T : Type} (o : Object) (h : FreeStore T) (w : World) :
    Outcome (Object × FreeStore T) (Object × FreeStore T) :=
  in_place (fun v w1 => v.PopBack w1) o h w

/-- `Insert(begin() + i, x)` (lines 526-528, through `Emplace`, lines 403-512):
`new_data(size_ == 0 ? 1 : size_ * 2)` when `size_ == Capacity()` (lines 335 and 416);
otherwise the tail is shifted inside the object's block, and the scratch block
`temp_data` of one cell is given back before the call ends. -/
def Insert {T : Type} [Element T] (o : Object) (i : Nat) (x : T) (h : FreeStore T)
    (w : World) : Outcome (Object × FreeStore T) (Object × FreeStore T) :=
  if o.size_ = o.capacity_ then
    reallocating (if o.size_ = 0 then 1 else o.size_ * 2)
      (fun v w1 => Op.onVector v w1 (.insert i x)) o h w
  else in_place (fun v w1 => Op.onVector v w1 (.insert i x)) o h w

/-- `Erase(begin() + i)` (lines 516-524). -/
def Erase {T : Type} [Element T] (o : Object) (i : Nat) (h : FreeStore T) (w : World) :
    Outcome (Object × FreeStore T) (Object × FreeStore T) :=
  in_place (fun v w1 => Op.onVector v w1 (.erase i)) o h w

/-- The element overwrite `v[index] = x` (lines 137-140). -/
def overwrite {T : Type} (o : Object) (index : Nat) (x : T) (h : FreeStore T)
    (w : World) : Outcome (Object × FreeStore T) (Object × FreeStore T) :=
  in_place (fun v w1 => v.overwrite index x w1) o h w

end Object

/-- The mutation on an object of the free store. -/
def Mutation.onObject {T : Type} [Element T] (o : Object) (h : FreeStore T) (w : World) :
    Mutation T → Outcome (Object × FreeStore T) (Object × FreeStore T)
  | .op (.pushBack x) => o.PushBack x h w
  | .op (.insert i x) => o.Insert i x h w
  | .op (.erase i) => o.Erase i h w
  | .op .popBack => o.PopBack h w
  | .resize k => o.Resize k h w
  | .overwrite i x => o.overwrite i x h w

/-- The mutation applied to the object `o`; the object keeps the state the call leaves
it in, whether the call returns or throws.  `none`: the call has no defined result. -/
def mutate {T : Type} [Element T] (o : Object) (h : FreeStore T) (m : Mutation T)
    (w : World) : Option ((Object × FreeStore T) × World) :=
  match m.onObject o h w with
  | .ok r w1 => some (r, w1)
  | .thrown r w1 => some (r, w1)
  | .undefined => none
  | .terminated => none

/-- A sequence of mutations applied to one object. -/
def mutate_all {T : Type} [Element T] :
    List (Mutation T) → Object → FreeStore T → World →
      Option ((Object × FreeStore T) × World)
  | [], o, h, w => some ((o, h), w)
  | m :: ms, o, h, w =>
    match mutate o h m w with
    | some r => mutate_all ms r.1.1 r.1.2 r.2
    | none => none

/-- A free store with one block, the cells of `sample_spare`. -/
def sample_free_store : FreeStore Int :=
  { blocks := [[some 10, some 20, some 30, none, none]] }

/-- The object of `sample_spare` in `sample_free_store`. -/
def sample_object : Object :=
  { buffer_ := some 0, data_capacity_ := 5, capacity_ := 5, size_ := 3 }

/-- The full vector `[1, 2]` of `Fragile` elements. -/
def sample_fragile : Vector Fragile :=
  { data_ := { buffer_ := [some { val := 1 }, some { val := 2 }], capacity_ := 2 },
    capacity_ := 2, size_ := 2 }

/-- A world in which nothing has happened yet and the fallible element operation
number `k` (counting from 0) throws. -/
def World.failing (k : Nat) : World :=
  { budget := some k, constructions := 0, assignments := 0, destructions := 0,
    clobbered := 0, leaked := 0 }

/-- The liveness invariant of a vector: among the cells at offsets below the
capacity of its storage block, exactly those below `Size()` hold a live object. -/
def Vector.LiveExactly {T : Type} (v : Vector T) : Prop :=
  ∀ i, i < v.data_.capacity_ → ((live? v.data_.buffer_ i).isSome = true ↔ i < v.size_)

instance {T : Type} (v : Vector T) : Decidable v.LiveExactly :=
  inferInstanceAs (Decidable (∀ i, i < v.data_.capacity_ →
    ((live? v.data_.buffer_ i).isSome = true ↔ i < v.size_)))

/-- Successive `PushBack` calls; `(true, x)` is `PushBack(const T&)` and `(false, x)`
is `PushBack(T&&)`.  Stops at the first call that does not return. -/
def push_all {T : Type} [Element T] :
    List (Bool × T) → Vector T → World → Outcome (Vector T) (Vector T)
  | [], v, w => .ok v w
  | p :: ps, v, w =>
    match (if p.1 then v.PushBack (.value p.2) w else v.PushBackMove p.2 w) with
    | .ok v1 w1 => push_all ps v1 w1
    | .thrown e w1 => .thrown e w1
    | .undefined => .undefined
    | .terminated => .terminated

/-- The test `size_ == Capacity()` of lines 255 and 291: a `PushBack` on `v` takes
the reallocating branch. -/
def Vector.reallocates {T : Type} (v : Vector T) : Prop :=
  v.size_ = v.Capacity

/-- The capacity after `n` pushes on an empty vector: `0` for `n == 0`, otherwise a
power of two with `n <= c < 2 * n`. -/
def CapInv (n c : Nat) : Prop :=
  (n = 0 ∧ c = 0) ∨ (∃ k, c = 2 ^ k ∧ n ≤ c ∧ c < 2 * n)

/-! ## Cells -/

theorem live?_eq_some {T : Type} {buf : Block T} {i : Nat} {x : T} :
    live? buf i = some x ↔ buf[i]? = some (some x) := by
  unfold live?
  split <;> simp_all

theorem live?_of_cell {T : Type} {buf : Block T} {i : Nat} {x : T}
    (h : buf[i]? = some (some x)) : live? buf i = some x :=
  live?_eq_some.mpr h

theorem cell_lt_length {T : Type} {buf : Block T} {i : Nat} {c : Option T}
    (h : buf[i]? = some c) : i < buf.length := by
  by_contra hn
  rw [List.getElem?_eq_none (by omega)] at h
  cases h

theorem cell_congr {α : Type} {buf : List α} {a b : Nat} (h : a = b) :
    buf[a]? = buf[b]? := by
  rw [h]

theorem charge_quiet (w : World) (f : Bool) (hb : w.budget = none) :
    w.charge f = some w := by
  cases f <;> simp [World.charge, hb]

theorem construct_at_ok {T : Type} (f : Bool) (buf : Block T) (i : Nat) (x : T)
    (w : World) (hi : i < buf.length) (hb : w.budget = none) :
    ∃ w1, construct_at f buf i x w = .ok (buf.set i (some x)) w1 ∧ w1.budget = none := by
  unfold construct_at
  rw [List.getElem?_eq_getElem hi, charge_quiet w f hb]
  exact ⟨_, rfl, hb⟩

theorem Destroy_ok {T : Type} (buf : Block T) (i : Nat) (x : T) (w : World)
    (hx : buf[i]? = some (some x)) :
    ∃ w1, Destroy buf i w = .ok (buf.set i none) w1 ∧ w1.budget = w.budget := by
  unfold Destroy
  rw [live?_of_cell hx]
  exact ⟨_, rfl, rfl⟩

theorem destroy_loop_ok {T : Type} : ∀ (n : Nat) (buf : Block T) (first : Nat) (w : World),
    (∀ k, k < n → ∃ x, buf[first + k]? = some (some x)) →
    ∃ buf1 w1, destroy_loop buf first n w = .ok buf1 w1 ∧ w1.budget = w.budget ∧
      buf1.length = buf.length ∧
      ∀ i, ¬ (first ≤ i ∧ i < first + n) → buf1[i]? = buf[i]? := by
  intro n
  induction n with
  | zero => intro buf first w _; exact ⟨buf, w, rfl, rfl, rfl, fun _ _ => rfl⟩
  | succ n ih =>
    intro buf first w h
    obtain ⟨x, hx⟩ := h 0 (by omega)
    obtain ⟨w1, hd, hb1⟩ := Destroy_ok buf first x w hx
    have hlive : ∀ k, k < n → ∃ y, (buf.set first none)[first + 1 + k]? = some (some y) := by
      intro k hk
      obtain ⟨y, hy⟩ := h (k + 1) (by omega)
      refine ⟨y, ?_⟩
      rw [List.getElem?_set_ne (by omega)]
      rw [← hy]; congr 1; omega
    obtain ⟨buf2, w2, hl, hb2, hlen, hcells⟩ := ih (buf.set first none) (first + 1) w1 hlive
    refine ⟨buf2, w2, ?_, by rw [hb2, hb1], by simpa using hlen, ?_⟩
    · simp only [destroy_loop, hd, hl]
    · intro i hi
      rw [hcells i (by omega), List.getElem?_set_ne (by omega)]

theorem DestroyN_ok {T : Type} (n : Nat) (buf : Block T) (first : Nat) (w : World)
    (h : ∀ k, k < n → ∃ x, buf[first + k]? = some (some x)) :
    ∃ buf1 w1, DestroyN buf first n w = .ok buf1 w1 ∧ w1.budget = w.budget ∧
      buf1.length = buf.length ∧
      ∀ i, ¬ (first ≤ i ∧ i < first + n) → buf1[i]? = buf[i]? := by
  unfold DestroyN
  split
  · exact ⟨buf, w, rfl, rfl, rfl, fun _ _ => rfl⟩
  · exact destroy_loop_ok n buf first w h

theorem uninitialized_copy_n_ok {T : Type} (src : Block T) :
    ∀ (n first : Nat) (dst : Block T) (d : Nat) (w : World),
    (∀ k, k < n → ∃ x, src[first + k]? = some (some x)) →
    d + n ≤ dst.length → w.budget = none →
    ∃ dst1 w1, uninitialized_copy_n src first n dst d w = .ok dst1 w1 ∧
      w1.budget = none ∧ dst1.length = dst.length ∧
      ∀ i, dst1[i]? = if d ≤ i ∧ i < d + n then src[first + (i - d)]? else dst[i]? := by
  intro n
  induction n with
  | zero =>
    intro first dst d w _ _ hb
    refine ⟨dst, w, rfl, hb, rfl, ?_⟩
    intro i
    rw [if_neg (by omega)]
  | succ n ih =>
    intro first dst d w h hd hb
    obtain ⟨x, hx⟩ := h 0 (by omega)
    have hx0 : src[first]? = some (some x) := by simpa using hx
    obtain ⟨w1, hc, hb1⟩ := construct_at_ok true dst d x w (by omega) hb
    have hlive : ∀ k, k < n → ∃ y, src[first + 1 + k]? = some (some y) := by
      intro k hk
      obtain ⟨y, hy⟩ := h (k + 1) (by omega)
      exact ⟨y, by rw [← hy]; congr 1; omega⟩
    obtain ⟨dst2, w2, hl, hb2, hlen, hcells⟩ :=
      ih (first + 1) (dst.set d (some x)) (d + 1) w1 hlive (by simp; omega) hb1
    refine ⟨dst2, w2, ?_, hb2, by simpa using hlen, ?_⟩
    · simp only [uninitialized_copy_n, live?_of_cell hx0, hc, hl]
    · intro i
      rw [hcells i]
      by_cases h1 : d + 1 ≤ i ∧ i < d + 1 + n
      · rw [if_pos h1, if_pos (by omega)]
        congr 1; omega
      · rw [if_neg h1]
        by_cases h2 : i = d
        · subst h2
          rw [if_pos (by omega), List.getElem?_set, if_pos rfl, if_pos (by omega)]
          simpa using hx.symm
        · rw [if_neg (by omega), List.getElem?_set_ne (by omega)]

theorem uninitialized_move_n_ok {T : Type} [Element T] :
    ∀ (n : Nat) (src : Block T) (first : Nat) (dst : Block T) (d : Nat) (w : World),
    (∀ k, k < n → ∃ x, src[first + k]? = some (some x)) →
    d + n ≤ dst.length → w.budget = none →
    ∃ src1 dst1 w1, uninitialized_move_n src first n dst d w = .ok (src1, dst1) w1 ∧
      w1.budget = none ∧ dst1.length = dst.length ∧ src1.length = src.length ∧
      (∀ i, dst1[i]? = if d ≤ i ∧ i < d + n then src[first + (i - d)]? else dst[i]?) ∧
      (∀ i, ¬ (first ≤ i ∧ i < first + n) → src1[i]? = src[i]?) ∧
      (∀ k, k < n → ∃ y, src1[first + k]? = some (some y)) := by
  intro n
  induction n with
  | zero =>
    intro src first dst d w _ _ hb
    refine ⟨src, dst, w, rfl, hb, rfl, rfl, ?_, fun _ _ => rfl, fun k hk => absurd hk (by omega)⟩
    intro i
    rw [if_neg (by omega)]
  | succ n ih =>
    intro src first dst d w h hd hb
    obtain ⟨x, hx⟩ := h 0 (by omega)
    have hx0 : src[first]? = some (some x) := by simpa using hx
    obtain ⟨w1, hc, hb1⟩ :=
      construct_at_ok (!Element.nothrow_move T) dst d x w (by omega) hb
    have hlive : ∀ k, k < n →
        ∃ y, (src.set first (some (Element.moved_from x)))[first + 1 + k]? = some (some y) := by
      intro k hk
      obtain ⟨y, hy⟩ := h (k + 1) (by omega)
      refine ⟨y, ?_⟩
      rw [List.getElem?_set_ne (by omega), ← hy]; congr 1; omega
    obtain ⟨src2, dst2, w2, hl, hb2, hlen, hslen, hcells, hsrc, hsl⟩ :=
      ih (src.set first (some (Element.moved_from x))) (first + 1) (dst.set d (some x))
        (d + 1) w1 hlive (by simp; omega) hb1
    refine ⟨src2, dst2, w2, ?_, hb2, by simpa using hlen, by simpa using hslen, ?_, ?_, ?_⟩
    · simp only [uninitialized_move_n, live?_of_cell hx0, hc, hl]
    · intro i
      rw [hcells i]
      by_cases h1 : d + 1 ≤ i ∧ i < d + 1 + n
      · rw [if_pos h1, if_pos (by omega), List.getElem?_set_ne (by omega)]
        congr 1; omega
      · rw [if_neg h1]
        by_cases h2 : i = d
        · subst h2
          rw [if_pos (by omega), List.getElem?_set, if_pos rfl, if_pos (by omega)]
          simpa using hx.symm
        · rw [if_neg (by omega), List.getElem?_set_ne (by omega)]
    · intro i hi
      rw [hsrc i (by omega), List.getElem?_set_ne (by omega)]
    · intro k hk
      by_cases hk0 : k = 0
      · subst hk0
        refine ⟨Element.moved_from x, ?_⟩
        rw [Nat.add_zero, hsrc first (by omega), List.getElem?_set, if_pos rfl,
          if_pos (cell_lt_length hx0)]
      · obtain ⟨y, hy⟩ := hsl (k - 1) (by omega)
        exact ⟨y, by rw [← hy]; congr 1; omega⟩

theorem transfer_n_ok {T : Type} [Element T] (n : Nat) (src : Block T) (first : Nat)
    (dst : Block T) (d : Nat) (w : World)
    (h : ∀ k, k < n → ∃ x, src[first + k]? = some (some x))
    (hd : d + n ≤ dst.length) (hb : w.budget = none) :
    ∃ src1 dst1 w1, transfer_n src first n dst d w = .ok (src1, dst1) w1 ∧
      w1.budget = none ∧ dst1.length = dst.length ∧ src1.length = src.length ∧
      (∀ i, dst1[i]? = if d ≤ i ∧ i < d + n then src[first + (i - d)]? else dst[i]?) ∧
      (∀ i, ¬ (first ≤ i ∧ i < first + n) → src1[i]? = src[i]?) ∧
      (∀ k, k < n → ∃ y, src1[first + k]? = some (some y)) := by
  unfold transfer_n
  split
  · exact uninitialized_move_n_ok n src first dst d w h hd hb
  · obtain ⟨dst1, w1, hl, hb1, hlen, hcells⟩ :=
      uninitialized_copy_n_ok src n first dst d w h hd hb
    exact ⟨src, dst1, w1, by rw [hl], hb1, hlen, rfl, hcells, fun _ _ => rfl, h⟩

/-! ## Contents -/

theorem get_range_eq_some {T : Type} (v : Vector T) :
    ∀ (n i : Nat) (xs : List T),
    v.get_range i n = some xs ↔ xs.length = n ∧ ∀ k, k < n → v.get (i + k) = xs[k]? := by
  intro n
  induction n with
  | zero =>
    intro i xs
    simp only [Vector.get_range, Option.some.injEq]
    constructor
    · intro h; subst h; exact ⟨rfl, fun k hk => absurd hk (by omega)⟩
    · intro h; exact (List.length_eq_zero.mp h.1).symm
  | succ n ih =>
    intro i xs
    simp only [Vector.get_range]
    constructor
    · intro h
      split at h
      · rename_i x ys hx hys
        cases h
        obtain ⟨hlen, hk⟩ := (ih (i + 1) ys).mp hys
        refine ⟨by simp [hlen], ?_⟩
        intro k hk1
        cases k with
        | zero => simpa using hx
        | succ k =>
          have := hk k (by omega)
          rw [List.getElem?_cons_succ, ← this]; congr 1; omega
      · cases h
    · intro h
      obtain ⟨hlen, hk⟩ := h
      cases xs with
      | nil => simp at hlen
      | cons x ys =>
        have h0 : v.get i = some x := by simpa using hk 0 (by omega)
        have hys : v.get_range (i + 1) n = some ys := by
          refine (ih (i + 1) ys).mpr ⟨by simpa using hlen, ?_⟩
          intro k hk1
          have := hk (k + 1) (by omega)
          rw [List.getElem?_cons_succ] at this
          rw [← this]; congr 1; omega
        rw [h0, hys]

theorem get_eq_some {T : Type} (v : Vector T) (i : Nat) (x : T) :
    v.get i = some x ↔
      i < v.size_ ∧ i < v.data_.capacity_ ∧ v.data_.buffer_[i]? = some (some x) := by
  unfold Vector.get RawMemory.index
  by_cases h1 : i < v.size_
  · by_cases h2 : i < v.data_.capacity_
    · simp [h1, h2, live?_eq_some]
    · simp [h1, h2]
  · simp [h1]

theorem Rep_of_elements {T : Type} (v : Vector T) (xs : List T)
    (hb : v.BlockOk) (h : v.elements = some xs) : v.Rep xs := by
  obtain ⟨hlen, hk⟩ := (get_range_eq_some v v.Size 0 xs).mp h
  have hsz : v.size_ = xs.length := hlen.symm
  have hcell : ∀ i, i < xs.length →
      i < v.data_.capacity_ ∧ v.data_.buffer_[i]? = some (xs[i]?) := by
    intro i hi
    have h1 := hk i (by rw [Vector.Size]; omega)
    rw [Nat.zero_add, List.getElem?_eq_getElem hi] at h1
    obtain ⟨_, h2, h3⟩ := (get_eq_some v i _).mp h1
    exact ⟨h2, by rw [h3, List.getElem?_eq_getElem hi]⟩
  refine ⟨hb, hsz, ?_, fun i hi => (hcell i hi).2⟩
  by_cases h0 : xs.length = 0
  · omega
  · have := (hcell (xs.length - 1) (by omega)).1
    omega

theorem elements_of_Rep {T : Type} (v : Vector T) (xs : List T) (h : v.Rep xs) :
    v.elements = some xs ∧ v.Size = xs.length ∧ v.BlockOk := by
  obtain ⟨hb, hsz, hcap, hcell⟩ := h
  refine ⟨?_, hsz, hb⟩
  refine (get_range_eq_some v v.Size 0 xs).mpr ⟨hsz.symm, ?_⟩
  intro k hk
  have hk1 : k < xs.length := by rw [Vector.Size] at hk; omega
  rw [Nat.zero_add, List.getElem?_eq_getElem hk1]
  refine (get_eq_some v k _).mpr ⟨by omega, by omega, ?_⟩
  rw [hcell k hk1, List.getElem?_eq_getElem hk1]

theorem Rep_live {T : Type} {v : Vector T} {xs : List T} (h : v.Rep xs) (first n : Nat)
    (hn : first + n ≤ xs.length) :
    ∀ k, k < n → ∃ x, v.data_.buffer_[first + k]? = some (some x) := by
  intro k hk
  have hi : first + k < xs.length := by omega
  exact ⟨xs[first + k], by rw [h.2.2.2 _ hi, List.getElem?_eq_getElem hi]⟩

/-! ## Appending -/

theorem Allocate_length (T : Type) (n : Nat) : (Allocate T n).length = n := by
  unfold Allocate
  split
  · simp
  · simp; omega

theorem getElem?_append_one {T : Type} (xs : List T) (x : T) (i : Nat) :
    (xs ++ [x])[i]? = if i < xs.length then xs[i]? else if i = xs.length then some x else none := by
  rw [List.getElem?_append]
  split
  · rfl
  · split
    · rename_i h1 h2
      subst h2; simp
    · rw [List.getElem?_eq_none (by simp; omega)]

theorem grow_back_ok {T : Type} [Element T] (v : Vector T) (xs : List T) (f : Bool)
    (x : T) (w : World) (h : v.Rep xs) (hb : w.budget = none) :
    ∃ v1 w1, Vector.grow_back v f x w = .ok v1 w1 ∧ w1.budget = none ∧
      v1.Rep (xs ++ [x]) ∧ v1.CapacityOk ∧
      v1.capacity_ = (if v.size_ = 0 then 1 else v.size_ * 2) := by
  obtain ⟨hblk, hsz, hcap, hcell⟩ := h
  have hnc : v.size_ < (if v.size_ = 0 then 1 else v.size_ * 2) := by
    split <;> omega
  unfold Vector.grow_back
  generalize (if v.size_ = 0 then 1 else v.size_ * 2) = nc at hnc ⊢
  have hal := Allocate_length T nc
  obtain ⟨w1, hc, hb1⟩ := construct_at_ok f (Allocate T nc) v.size_ x w (by omega) hb
  obtain ⟨ob, nb1, w2, ht, hb2, hlen, hslen, hcells, _, hsl⟩ :=
    transfer_n_ok v.size_ v.data_.buffer_ 0 ((Allocate T nc).set v.size_ (some x)) 0 w1
      (Rep_live ⟨hblk, hsz, hcap, hcell⟩ 0 v.size_ (by omega)) (by simp; omega) hb1
  obtain ⟨ob1, w3, hd, hb3, _, _⟩ := DestroyN_ok v.size_ ob 0 w2 hsl
  refine ⟨{ data_ := { buffer_ := nb1, capacity_ := nc }, capacity_ := nc,
            size_ := v.size_ + 1 }, Deallocate ob1 w3, ?_, ?_, ?_, ?_, ?_⟩
  · simp only [RawMemory.alloc, RawMemory.plus, RawMemory.Swap,
      if_pos (Nat.le_of_lt hnc), hc, ht, hd]
  · simp only [Deallocate]; rw [hb3, hb2]
  · rw [List.length_set] at hlen
    refine ⟨?_, ?_, ?_, ?_⟩
    · simp only [hlen, hal]
    · simp [hsz]
    · simp only [List.length_append, List.length_singleton]; omega
    · intro i hi
      simp only [List.length_append, List.length_singleton] at hi
      simp only [hcells i, getElem?_append_one]
      by_cases h1 : i < v.size_
      · have e : 0 + (i - 0) = i := by omega
        rw [if_pos (by omega), if_pos (by omega), e, hcell i (by omega)]
      · have h2 : i = v.size_ := by omega
        rw [if_neg (by omega), if_neg (by omega), if_pos (by omega), h2,
          List.getElem?_set, if_pos rfl, if_pos (by omega)]
  · rfl
  · rfl

theorem construct_back_ok {T : Type} (v : Vector T) (xs : List T) (f : Bool)
    (x : T) (w : World) (h : v.Rep xs) (hlt : v.size_ < v.data_.capacity_)
    (hb : w.budget = none) :
    ∃ v1 w1, Vector.construct_back v f x w = .ok v1 w1 ∧ w1.budget = none ∧
      v1.Rep (xs ++ [x]) ∧ v1.capacity_ = v.capacity_ ∧
      v1.data_.capacity_ = v.data_.capacity_ := by
  obtain ⟨hblk, hsz, hcap, hcell⟩ := h
  obtain ⟨w1, hc, hb1⟩ := construct_at_ok f v.data_.buffer_ v.size_ x w (by omega) hb
  refine ⟨{ v.withBuffer (v.data_.buffer_.set v.size_ (some x)) with size_ := v.size_ + 1 },
          w1, ?_, hb1, ?_, rfl, rfl⟩
  · simp only [Vector.construct_back, RawMemory.plus, if_pos (Nat.le_of_lt hlt), hc]
  · refine ⟨?_, ?_, ?_, ?_⟩
    · simpa [Vector.withBuffer] using hblk
    · simp [hsz]
    · simp only [List.length_append, List.length_singleton, Vector.withBuffer]; omega
    · intro i hi
      simp only [List.length_append, List.length_singleton] at hi
      simp only [Vector.withBuffer, getElem?_append_one]
      by_cases h1 : i < v.size_
      · rw [if_pos (by omega), List.getElem?_set_ne (by omega), hcell i (by omega)]
      · have h2 : i = v.size_ := by omega
        rw [if_neg (by omega), if_pos (by omega), h2, List.getElem?_set, if_pos rfl,
          if_pos (by omega)]

/-! ## Shifting inside a block -/

theorem move_assign_within_ok {T : Type} [Element T] (buf : Block T) (d s : Nat)
    (x y : T) (w : World) (hs : buf[s]? = some (some x)) (hd : buf[d]? = some (some y))
    (hb : w.budget = none) :
    ∃ w1, move_assign_within buf d s w =
        .ok ((buf.set d (some x)).set s (some (Element.moved_from x))) w1 ∧
      w1.budget = none := by
  unfold move_assign_within
  rw [live?_of_cell hs, live?_of_cell hd]
  simp only [charge_quiet w _ hb]
  exact ⟨_, rfl, hb⟩

theorem move_loop_ok {T : Type} [Element T] :
    ∀ (n : Nat) (buf : Block T) (d : Nat) (w : World),
    (∀ k, k ≤ n → ∃ x, buf[d + k]? = some (some x)) → w.budget = none →
    ∃ buf1 w1, move_loop buf (d + 1) d n w = .ok buf1 w1 ∧ w1.budget = none ∧
      buf1.length = buf.length ∧
      (∀ i, d ≤ i ∧ i < d + n → buf1[i]? = buf[i + 1]?) ∧
      (∃ y, buf1[d + n]? = some (some y)) ∧
      (∀ i, ¬ (d ≤ i ∧ i ≤ d + n) → buf1[i]? = buf[i]?) := by
  intro n
  induction n with
  | zero =>
    intro buf d w h hb
    obtain ⟨x, hx⟩ := h 0 (by omega)
    exact ⟨buf, w, rfl, hb, rfl, fun i hi => absurd hi.2 (by omega), ⟨x, hx⟩, fun _ _ => rfl⟩
  | succ n ih =>
    intro buf d w h hb
    obtain ⟨y, hy⟩ := h 0 (by omega)
    obtain ⟨x, hx⟩ := h 1 (by omega)
    have hy0 : buf[d]? = some (some y) := by simpa using hy
    have hdl := cell_lt_length hy0
    have hxl := cell_lt_length hx
    obtain ⟨w1, hm, hb1⟩ := move_assign_within_ok buf d (d + 1) x y w hx hy0 hb
    have hlive : ∀ k, k ≤ n → ∃ z,
        ((buf.set d (some x)).set (d + 1) (some (Element.moved_from x)))[d + 1 + k]? =
          some (some z) := by
      intro k hk
      by_cases hk0 : k = 0
      · subst hk0
        refine ⟨Element.moved_from x, ?_⟩
        rw [Nat.add_zero, List.getElem?_set, if_pos rfl, if_pos (by simpa using hxl)]
      · obtain ⟨z, hz⟩ := h (k + 1) (by omega)
        refine ⟨z, ?_⟩
        rw [List.getElem?_set_ne (by omega), List.getElem?_set_ne (by omega), ← hz]
        exact cell_congr (by omega)
    obtain ⟨buf2, w2, hl, hb2, hlen, hsh, hlast, hout⟩ :=
      ih ((buf.set d (some x)).set (d + 1) (some (Element.moved_from x))) (d + 1) w1 hlive hb1
    refine ⟨buf2, w2, ?_, hb2, by simpa using hlen, ?_, ?_, ?_⟩
    · simp only [move_loop, hm, hl]
    · intro i hi
      by_cases h1 : i = d
      · subst h1
        rw [hout i (by omega), List.getElem?_set_ne (by omega), List.getElem?_set,
          if_pos rfl, if_pos hdl, hx]
      · rw [hsh i (by omega), List.getElem?_set_ne (by omega),
          List.getElem?_set_ne (by omega)]
    · obtain ⟨z, hz⟩ := hlast
      exact ⟨z, by rw [← hz]; congr 1; omega⟩
    · intro i hi
      rw [hout i (by omega), List.getElem?_set_ne (by omega),
        List.getElem?_set_ne (by omega)]

theorem move_backward_loop_ok {T : Type} [Element T] :
    ∀ (n : Nat) (buf : Block T) (last : Nat) (w : World),
    n ≤ last → (∀ k, k ≤ n → ∃ x, buf[last - k]? = some (some x)) → w.budget = none →
    ∃ buf1 w1, move_backward_loop buf last (last + 1) n w = .ok buf1 w1 ∧
      w1.budget = none ∧ buf1.length = buf.length ∧
      (∀ i, last - n < i ∧ i ≤ last → buf1[i]? = buf[i - 1]?) ∧
      (∃ y, buf1[last - n]? = some (some y)) ∧
      (∀ i, ¬ (last - n ≤ i ∧ i ≤ last) → buf1[i]? = buf[i]?) := by
  intro n
  induction n with
  | zero =>
    intro buf last w _ h hb
    obtain ⟨x, hx⟩ := h 0 (by omega)
    exact ⟨buf, w, rfl, hb, rfl, fun i hi => absurd hi.1 (by omega), ⟨x, hx⟩, fun _ _ => rfl⟩
  | succ n ih =>
    intro buf last w hn h hb
    obtain ⟨y, hy⟩ := h 0 (by omega)
    obtain ⟨x, hx⟩ := h 1 (by omega)
    have hy0 : buf[last]? = some (some y) := by simpa using hy
    have hdl := cell_lt_length hy0
    have hxl := cell_lt_length hx
    obtain ⟨w1, hm, hb1⟩ := move_assign_within_ok buf last (last - 1) x y w hx hy0 hb
    have hlive : ∀ k, k ≤ n → ∃ z,
        ((buf.set last (some x)).set (last - 1) (some (Element.moved_from x)))[last - 1 - k]? =
          some (some z) := by
      intro k hk
      by_cases hk0 : k = 0
      · subst hk0
        refine ⟨Element.moved_from x, ?_⟩
        rw [Nat.sub_zero, List.getElem?_set, if_pos rfl, if_pos (by simpa using hxl)]
      · obtain ⟨z, hz⟩ := h (k + 1) (by omega)
        refine ⟨z, ?_⟩
        rw [List.getElem?_set_ne (by omega), List.getElem?_set_ne (by omega), ← hz]
        exact cell_congr (by omega)
    obtain ⟨buf2, w2, hl, hb2, hlen, hsh, hlast, hout⟩ :=
      ih ((buf.set last (some x)).set (last - 1) (some (Element.moved_from x))) (last - 1) w1
        (by omega) hlive hb1
    have e1 : last - 1 + 1 = last := by omega
    rw [e1] at hl
    refine ⟨buf2, w2, ?_, hb2, by simpa using hlen, ?_, ?_, ?_⟩
    · simp only [move_backward_loop, Nat.add_sub_cancel]
      rw [if_neg (by omega), hm]
      simp only [hl]
    · intro i hi
      by_cases h1 : i = last
      · subst h1
        rw [hout i (by omega), List.getElem?_set_ne (by omega), List.getElem?_set,
          if_pos rfl, if_pos hdl, hx]
      · rw [hsh i (by omega), List.getElem?_set_ne (by omega),
          List.getElem?_set_ne (by omega)]
    · obtain ⟨z, hz⟩ := hlast
      exact ⟨z, by rw [← hz]; exact cell_congr (by omega)⟩
    · intro i hi
      rw [hout i (by omega), List.getElem?_set_ne (by omega),
        List.getElem?_set_ne (by omega)]

/-! ## Removing -/

theorem PopBack_ok {T : Type} (v : Vector T) (xs : List T) (w : World) (h : v.Rep xs) :
    ∃ v1 w1, Vector.PopBack v w = .ok v1 w1 ∧ w1.budget = w.budget ∧
      v1.Rep xs.dropLast ∧ v1.capacity_ = v.capacity_ ∧
      v1.data_.capacity_ = v.data_.capacity_ := by
  obtain ⟨hblk, hsz, hcap, hcell⟩ := h
  unfold Vector.PopBack
  by_cases h0 : v.size_ = 0
  · have hx : xs = [] := List.length_eq_zero.mp (by omega)
    subst hx
    rw [if_neg (by simpa using h0)]
    exact ⟨v, w, rfl, rfl, ⟨hblk, by simpa using h0, by simp, fun i hi => by simp at hi⟩,
      rfl, rfl⟩
  · have hlast : v.size_ - 1 < xs.length := by omega
    have hx : v.data_.buffer_[v.size_ - 1]? = some (some xs[v.size_ - 1]) := by
      rw [hcell _ hlast, List.getElem?_eq_getElem hlast]
    obtain ⟨w1, hd, hb1⟩ := Destroy_ok v.data_.buffer_ (v.size_ - 1) _ w hx
    rw [if_pos h0, hd]
    refine ⟨_, w1, rfl, hb1, ⟨?_, ?_, ?_, ?_⟩, rfl, rfl⟩
    · simpa [Vector.withBuffer] using hblk
    · simp [hsz]
    · simp only [List.length_dropLast, Vector.withBuffer]; omega
    · intro i hi
      simp only [List.length_dropLast] at hi
      simp only [Vector.withBuffer]
      rw [List.getElem?_set_ne (by omega), hcell i (by omega), List.getElem?_dropLast,
        if_pos hi]

theorem Erase_ok {T : Type} [Element T] (v : Vector T) (xs : List T) (pos : Nat)
    (w : World) (h : v.Rep xs) (hpos : pos < xs.length) (hb : w.budget = none) :
    ∃ v1 w1, Vector.Erase v pos w = .ok (v1, pos) w1 ∧ w1.budget = none ∧
      v1.Rep (xs.eraseIdx pos) ∧ v1.capacity_ = v.capacity_ ∧
      v1.data_.capacity_ = v.data_.capacity_ := by
  obtain ⟨hblk, hsz, hcap, hcell⟩ := h
  have hlive : ∀ k, k ≤ v.size_ - (pos + 1) →
      ∃ x, v.data_.buffer_[pos + k]? = some (some x) := by
    intro k hk
    have hi : pos + k < xs.length := by omega
    exact ⟨xs[pos + k], by rw [hcell _ hi, List.getElem?_eq_getElem hi]⟩
  obtain ⟨b, w1, hm, hb1, hlen, hsh, ⟨y, hy⟩, hout⟩ :=
    move_loop_ok (v.size_ - (pos + 1)) v.data_.buffer_ pos w hlive hb
  have e1 : pos + (v.size_ - (pos + 1)) = v.size_ - 1 := by omega
  rw [e1] at hy
  obtain ⟨w2, hd, hb2⟩ := Destroy_ok b (v.size_ - 1) y w1 hy
  have hrep : Vector.Rep
      { v.withBuffer (b.set (v.size_ - 1) none) with size_ := v.size_ - 1 }
      (xs.eraseIdx pos) := by
    refine ⟨?_, ?_, ?_, ?_⟩
    · simp only [Vector.withBuffer, List.length_set, hlen, hblk]
    · simp only [List.length_eraseIdx, if_pos hpos, hsz]
    · simp only [List.length_eraseIdx, if_pos hpos, Vector.withBuffer]; omega
    · intro i hi
      simp only [List.length_eraseIdx, if_pos hpos] at hi
      simp only [Vector.withBuffer]
      rw [List.getElem?_set_ne (by omega), List.getElem?_eraseIdx]
      by_cases h1 : i < pos
      · rw [if_pos h1, hout i (by omega), hcell i (by omega)]
      · rw [if_neg h1, hsh i (by omega), hcell (i + 1) (by omega)]
  refine ⟨_, w2, ?_, by rw [hb2, hb1], hrep, rfl, rfl⟩
  have hle : v.size_ ≤ v.data_.capacity_ := by omega
  have hlt : pos < v.size_ := by omega
  have h3 : ¬ v.size_ < pos + 1 := by omega
  have h4 : v.size_ ≠ 0 := by omega
  simp only [Vector.Erase, Vector.end_, RawMemory.plus, std_move, Vector.PopBack,
    Vector.withBuffer, hle, hlt, h3, h4, hm, hd, ↓reduceIte, not_true_eq_false,
    not_false_eq_true, ne_eq]
  by_cases h0 : v.size_ - 1 = 0
  · have hp0 : pos = 0 := by omega
    subst hp0
    simp [h0]
  · simp [h0]

/-! ## Inserting -/

theorem getElem?_insert {T : Type} (xs : List T) (p : Nat) (x : T) (i : Nat)
    (hp : p ≤ xs.length) :
    (xs.take p ++ x :: xs.drop p)[i]? =
      if i < p then xs[i]? else if i = p then some x else xs[i - 1]? := by
  have hl : (xs.take p).length = p := by simp; omega
  rw [List.getElem?_append, hl]
  by_cases h1 : i < p
  · rw [if_pos h1, if_pos h1, List.getElem?_take_of_lt h1]
  · rw [if_neg h1, if_neg h1]
    by_cases h2 : i = p
    · subst h2; simp
    · rw [if_neg h2]
      obtain ⟨k, hk⟩ : ∃ k, i - p = k + 1 := ⟨i - p - 1, by omega⟩
      rw [hk, List.getElem?_cons_succ, List.getElem?_drop]
      exact cell_congr (by omega)

theorem length_insert {T : Type} (xs : List T) (p : Nat) (x : T) (hp : p ≤ xs.length) :
    (xs.take p ++ x :: xs.drop p).length = xs.length + 1 := by
  simp only [List.length_append, List.length_take, List.length_cons, List.length_drop]
  omega

theorem emplace_grow_ok {T : Type} [Element T] (v : Vector T) (xs : List T) (pos : Nat)
    (f : Bool) (x : T) (w : World) (h : v.Rep xs) (hpos : pos < xs.length)
    (hb : w.budget = none) :
    ∃ v1 w1, Vector.emplace_grow v pos f x w = .ok v1 w1 ∧ w1.budget = none ∧
      Vector.Rep { v1 with size_ := v1.size_ + 1 } (xs.take pos ++ x :: xs.drop pos) ∧
      v1.capacity_ = v1.data_.capacity_ ∧
      v1.capacity_ = (if v.size_ = 0 then 1 else v.size_ * 2) := by
  obtain ⟨hblk, hsz, hcap, hcell⟩ := h
  have hnc : v.size_ < (if v.size_ = 0 then 1 else v.size_ * 2) := by
    split <;> omega
  unfold Vector.emplace_grow
  generalize (if v.size_ = 0 then 1 else v.size_ * 2) = nc at hnc ⊢
  have hal := Allocate_length T nc
  obtain ⟨w1, hc, hb1⟩ := construct_at_ok f (Allocate T nc) pos x w (by omega) hb
  obtain ⟨ob, nb1, w2, ht1, hb2, hlen1, hslen1, hcells1, hout1, hsl1⟩ :=
    transfer_n_ok pos v.data_.buffer_ 0 ((Allocate T nc).set pos (some x)) 0 w1
      (Rep_live ⟨hblk, hsz, hcap, hcell⟩ 0 pos (by omega)) (by simp; omega) hb1
  rw [List.length_set] at hlen1
  have hlive2 : ∀ k, k < v.size_ - pos → ∃ y, ob[pos + k]? = some (some y) := by
    intro k hk
    have hi : pos + k < xs.length := by omega
    exact ⟨xs[pos + k], by
      rw [hout1 _ (by omega), hcell _ hi, List.getElem?_eq_getElem hi]⟩
  obtain ⟨ob1, nb2, w3, ht2, hb3, hlen2, hslen2, hcells2, hout2, hsl2⟩ :=
    transfer_n_ok (v.size_ - pos) ob pos nb1 (pos + 1) w2 hlive2 (by omega) hb2
  have hlive3 : ∀ k, k < v.size_ → ∃ y, ob1[0 + k]? = some (some y) := by
    intro k hk
    by_cases h1 : k < pos
    · obtain ⟨y, hy⟩ := hsl1 k h1
      exact ⟨y, by rw [hout2 _ (by omega), hy]⟩
    · obtain ⟨y, hy⟩ := hsl2 (k - pos) (by omega)
      exact ⟨y, by rw [← hy]; exact cell_congr (by omega)⟩
  obtain ⟨ob2, w4, hd, hb4, _, _⟩ := DestroyN_ok v.size_ ob1 0 w3 hlive3
  refine ⟨{ data_ := { buffer_ := nb2, capacity_ := nc }, capacity_ := nc,
            size_ := v.size_ }, Deallocate ob2 w4, ?_, ?_, ?_, rfl, rfl⟩
  · simp only [RawMemory.alloc, RawMemory.plus, RawMemory.Swap,
      if_pos (show pos ≤ nc by omega), hc, ht1, ht2, hd]
  · simp only [Deallocate]; rw [hb4, hb3]
  · refine ⟨?_, ?_, ?_, ?_⟩
    · simp only [hlen2, hlen1, hal]
    · rw [length_insert xs pos x (by omega)]; simp [hsz]
    · rw [length_insert xs pos x (by omega)]; simp only []; omega
    · intro i hi
      rw [length_insert xs pos x (by omega)] at hi
      simp only [hcells2 i, getElem?_insert xs pos x i (by omega)]
      by_cases h1 : i < pos
      · have e : 0 + (i - 0) = i := by omega
        rw [if_neg (by omega), if_pos h1, hcells1 i, if_pos (by omega), e,
          hcell i (by omega)]
      · by_cases h2 : i = pos
        · subst h2
          rw [if_neg (by omega), if_neg h1, if_pos rfl, hcells1 i, if_neg (by omega),
            List.getElem?_set, if_pos rfl, if_pos (by omega)]
        · have e : pos + (i - (pos + 1)) = i - 1 := by omega
          rw [if_pos (by omega), if_neg h1, if_neg h2, e, hout1 _ (by omega),
            hcell (i - 1) (by omega)]

theorem move_assign_from_ok {T : Type} [Element T] (dst : Block T) (d : Nat)
    (src : Block T) (s : Nat) (x y : T) (w : World) (hs : src[s]? = some (some x))
    (hd : dst[d]? = some (some y)) (hb : w.budget = none) :
    ∃ w1, move_assign_from dst d src s w =
        .ok (dst.set d (some x), src.set s (some (Element.moved_from x))) w1 ∧
      w1.budget = none := by
  unfold move_assign_from
  rw [live?_of_cell hs, live?_of_cell hd]
  simp only [charge_quiet w _ hb]
  exact ⟨_, rfl, hb⟩

theorem uninitialized_move_one_within_ok {T : Type} [Element T] (buf : Block T)
    (first d : Nat) (x : T) (w : World) (hx : buf[first]? = some (some x))
    (hd : d < buf.length) (hb : w.budget = none) :
    ∃ w1, Vector.uninitialized_move_n_within buf first 1 d w =
        .ok ((buf.set d (some x)).set first (some (Element.moved_from x))) w1 ∧
      w1.budget = none := by
  obtain ⟨w1, hc, hb1⟩ := construct_at_ok (!Element.nothrow_move T) buf d x w hd hb
  refine ⟨w1, ?_, hb1⟩
  simp only [Vector.uninitialized_move_n_within, live?_of_cell hx, hc]

theorem emplace_shift_ok {T : Type} [Element T] (v : Vector T) (xs : List T) (pos : Nat)
    (f : Bool) (x : T) (w : World) (h : v.Rep xs) (hpos : pos < xs.length)
    (hroom : v.size_ < v.data_.capacity_) (hb : w.budget = none) :
    ∃ v1 w1, Vector.emplace_shift v pos f x w = .ok v1 w1 ∧ w1.budget = none ∧
      Vector.Rep { v1 with size_ := v1.size_ + 1 } (xs.take pos ++ x :: xs.drop pos) ∧
      v1.capacity_ = v.capacity_ ∧ v1.data_.capacity_ = v.data_.capacity_ := by
  obtain ⟨hblk, hsz, hcap, hcell⟩ := h
  have hal := Allocate_length T 1
  -- the scratch element
  obtain ⟨w1, hc, hb1⟩ := construct_at_ok f (Allocate T 1) 0 x w (by omega) hb
  -- the last element goes one cell up
  have hlast : v.size_ - 1 < xs.length := by omega
  have hxl : v.data_.buffer_[v.size_ - 1]? = some (some xs[v.size_ - 1]) := by
    rw [hcell _ hlast, List.getElem?_eq_getElem hlast]
  obtain ⟨w2, hu, hb2⟩ := uninitialized_move_one_within_ok v.data_.buffer_ (v.size_ - 1)
    v.size_ xs[v.size_ - 1] w1 hxl (by omega) hb1
  -- the rest of the tail is shifted
  have hlive : ∀ k, k ≤ v.size_ - 1 - pos → ∃ y,
      ((v.data_.buffer_.set v.size_ (some xs[v.size_ - 1])).set (v.size_ - 1)
        (some (Element.moved_from xs[v.size_ - 1])))[v.size_ - 1 - k]? = some (some y) := by
    intro k hk
    by_cases hk0 : k = 0
    · subst hk0
      refine ⟨Element.moved_from xs[v.size_ - 1], ?_⟩
      rw [Nat.sub_zero, List.getElem?_set, if_pos rfl, if_pos (by simp; omega)]
    · have hi : v.size_ - 1 - k < xs.length := by omega
      refine ⟨xs[v.size_ - 1 - k], ?_⟩
      rw [List.getElem?_set_ne (by omega), List.getElem?_set_ne (by omega), hcell _ hi,
        List.getElem?_eq_getElem hi]
  obtain ⟨b1, w3, hm, hb3, hlen, hsh, ⟨y, hy⟩, hout⟩ :=
    move_backward_loop_ok (v.size_ - 1 - pos) _ (v.size_ - 1) w2 (by omega) hlive hb2
  have e1 : v.size_ - 1 + 1 = v.size_ := by omega
  have e2 : v.size_ - 1 - (v.size_ - 1 - pos) = pos := by omega
  rw [e1] at hm
  rw [e2] at hy hsh hout
  simp only [List.length_set] at hlen
  -- the scratch element is moved into the hole
  have htb : ((Allocate T 1).set 0 (some x))[0]? = some (some x) := by
    rw [List.getElem?_set, if_pos rfl, if_pos (by omega)]
  obtain ⟨w4, ha, hb4⟩ :=
    move_assign_from_ok b1 pos ((Allocate T 1).set 0 (some x)) 0 x y w3 htb hy hb3
  have htb1 : (((Allocate T 1).set 0 (some x)).set 0 (some (Element.moved_from x)))[0]? =
      some (some (Element.moved_from x)) := by
    rw [List.getElem?_set, if_pos rfl, if_pos (by simp; omega)]
  obtain ⟨w5, hd, hb5⟩ := Destroy_ok _ 0 _ w4 htb1
  refine ⟨v.withBuffer (b1.set pos (some x)),
    Deallocate ((((Allocate T 1).set 0 (some x)).set 0
      (some (Element.moved_from x))).set 0 none) w5, ?_, ?_, ?_, rfl, rfl⟩
  · have h1 : pos ≤ v.data_.capacity_ := by omega
    have h2 : v.size_ ≤ v.data_.capacity_ := by omega
    have h3 : ¬ v.size_ - 1 < pos := by omega
    have h4 : pos < v.data_.capacity_ := by omega
    simp only [Vector.emplace_shift, RawMemory.alloc, RawMemory.plus, RawMemory.index,
      std_move_backward, hc, hu, h1, h2, h3, h4, hm, ha, hd, ↓reduceIte, Nat.lt_one_iff,
      Nat.zero_lt_one]
  · simp only [Deallocate]; rw [hb5, hb4]
  · refine ⟨?_, ?_, ?_, ?_⟩
    · simp only [Vector.withBuffer, List.length_set, hlen, hblk]
    · rw [length_insert xs pos x (by omega)]; simp [Vector.withBuffer, hsz]
    · rw [length_insert xs pos x (by omega)]; simp only [Vector.withBuffer]; omega
    · intro i hi
      rw [length_insert xs pos x (by omega)] at hi
      simp only [Vector.withBuffer, getElem?_insert xs pos x i (by omega)]
      by_cases h1 : i < pos
      · rw [if_pos h1, List.getElem?_set_ne (by omega), hout i (by omega),
          List.getElem?_set_ne (by omega), List.getElem?_set_ne (by omega),
          hcell i (by omega)]
      · by_cases h2 : i = pos
        · subst h2
          rw [if_neg h1, if_pos rfl, List.getElem?_set, if_pos rfl, if_pos (by omega)]
        · rw [if_neg h1, if_neg h2, List.getElem?_set_ne (by omega)]
          by_cases h3 : i = v.size_
          · rw [hout i (by omega), List.getElem?_set_ne (by omega), List.getElem?_set,
              if_pos h3.symm, if_pos (by omega), h3, List.getElem?_eq_getElem hlast]
          · rw [hsh i (by omega), List.getElem?_set_ne (by omega),
              List.getElem?_set_ne (by omega), hcell (i - 1) (by omega)]

/-! ## The public operations on a vector that holds `xs` -/

theorem room_of_CapacityOk {T : Type} {v : Vector T} {xs : List T} (h : v.Rep xs)
    (hc : v.CapacityOk) : v.size_ ≠ v.capacity_ → v.size_ < v.data_.capacity_ := by
  intro hne
  have h1 := h.2.1
  have h2 := h.2.2.1
  have h3 : v.capacity_ = v.data_.capacity_ := hc
  omega

theorem back_ok {T : Type} [Element T] (v : Vector T) (xs : List T) (f : Bool) (x : T)
    (w : World) (h : v.Rep xs)
    (hroom : v.size_ ≠ v.capacity_ → v.size_ < v.data_.capacity_) (hb : w.budget = none) :
    ∃ v1 w1, (if v.size_ = v.Capacity then Vector.grow_back v f x w
              else Vector.construct_back v f x w) = .ok v1 w1 ∧
      w1.budget = none ∧ v1.Rep (xs ++ [x]) ∧ (v.CapacityOk → v1.CapacityOk) ∧
      v1.capacity_ = (if v.size_ = v.capacity_ then (if v.size_ = 0 then 1 else v.size_ * 2)
                      else v.capacity_) := by
  unfold Vector.Capacity
  by_cases hfull : v.size_ = v.capacity_
  · rw [if_pos hfull, if_pos hfull]
    obtain ⟨v1, w1, he, hb1, hrep, hc1, hcap⟩ := grow_back_ok v xs f x w h hb
    exact ⟨v1, w1, he, hb1, hrep, fun _ => hc1, hcap⟩
  · rw [if_neg hfull, if_neg hfull]
    obtain ⟨v1, w1, he, hb1, hrep, hcap, hdcap⟩ :=
      construct_back_ok v xs f x w h (hroom hfull) hb
    refine ⟨v1, w1, he, hb1, hrep, ?_, hcap⟩
    intro hc
    have h3 : v.capacity_ = v.data_.capacity_ := hc
    show v1.capacity_ = v1.data_.capacity_
    rw [hcap, hdcap, h3]

theorem PushBack_ok {T : Type} [Element T] (v : Vector T) (xs : List T) (arg : Arg T)
    (x : T) (w : World) (h : v.Rep xs)
    (hroom : v.size_ ≠ v.capacity_ → v.size_ < v.data_.capacity_)
    (ha : arg.read v.data_ = some x) (hb : w.budget = none) :
    ∃ v1 w1, Vector.PushBack v arg w = .ok v1 w1 ∧ w1.budget = none ∧
      v1.Rep (xs ++ [x]) ∧ (v.CapacityOk → v1.CapacityOk) ∧
      v1.capacity_ = (if v.size_ = v.capacity_ then (if v.size_ = 0 then 1 else v.size_ * 2)
                      else v.capacity_) := by
  unfold Vector.PushBack
  rw [ha]
  exact back_ok v xs true x w h hroom hb

theorem PushBackMove_ok {T : Type} [Element T] (v : Vector T) (xs : List T)
    (x : T) (w : World) (h : v.Rep xs)
    (hroom : v.size_ ≠ v.capacity_ → v.size_ < v.data_.capacity_)
    (hb : w.budget = none) :
    ∃ v1 w1, Vector.PushBackMove v x w = .ok v1 w1 ∧ w1.budget = none ∧
      v1.Rep (xs ++ [x]) ∧ (v.CapacityOk → v1.CapacityOk) ∧
      v1.capacity_ = (if v.size_ = v.capacity_ then (if v.size_ = 0 then 1 else v.size_ * 2)
                      else v.capacity_) := by
  unfold Vector.PushBackMove
  exact back_ok v xs _ x w h hroom hb

theorem EmplaceBack_ok {T : Type} [Element T] (v : Vector T) (xs : List T) (f : Bool)
    (arg : Arg T) (x : T) (w : World) (h : v.Rep xs)
    (hroom : v.size_ ≠ v.capacity_ → v.size_ < v.data_.capacity_)
    (ha : arg.read v.data_ = some x) (hb : w.budget = none) :
    ∃ v1 w1, Vector.EmplaceBack v f arg w = .ok (v1, xs.length) w1 ∧ w1.budget = none ∧
      v1.Rep (xs ++ [x]) ∧ (v.CapacityOk → v1.CapacityOk) ∧
      v1.capacity_ = (if v.size_ = v.capacity_ then (if v.size_ = 0 then 1 else v.size_ * 2)
                      else v.capacity_) := by
  obtain ⟨v1, w1, he, hb1, hrep, hc1, hcap⟩ := back_ok v xs f x w h hroom hb
  refine ⟨v1, w1, ?_, hb1, hrep, hc1, hcap⟩
  have hs : v1.size_ = xs.length + 1 := by simpa using hrep.2.1
  have hl : xs.length + 1 ≤ v1.data_.capacity_ := by simpa using hrep.2.2.1
  unfold Vector.EmplaceBack
  rw [ha]
  simp only [he, RawMemory.index, hs, Nat.add_sub_cancel]
  rw [if_pos (by omega)]

theorem Emplace_ok {T : Type} [Element T] (v : Vector T) (xs : List T) (pos : Nat)
    (f : Bool) (arg : Arg T) (x : T) (w : World) (h : v.Rep xs) (hc : v.CapacityOk)
    (hpos : pos ≤ xs.length) (ha : arg.read v.data_ = some x) (hb : w.budget = none) :
    ∃ v1 w1, Vector.Emplace v pos f arg w = .ok (v1, pos) w1 ∧ w1.budget = none ∧
      v1.Rep (xs.take pos ++ x :: xs.drop pos) ∧ v1.CapacityOk ∧
      v1.capacity_ = (if v.size_ = v.capacity_ then (if v.size_ = 0 then 1 else v.size_ * 2)
                      else v.capacity_) := by
  have hsz := h.2.1
  have hcap := h.2.2.1
  have hcd : v.capacity_ = v.data_.capacity_ := hc
  have hend : v.end_ = some v.size_ := by
    simp only [Vector.end_, RawMemory.plus]; rw [if_pos (by omega)]
  have hidx : (if v.size_ = 0 then some 0
      else (v.data_.index 0).map (fun b => pos - b)) = some pos := by
    by_cases h0 : v.size_ = 0
    · rw [if_pos h0]; congr 1; omega
    · rw [if_neg h0]
      simp only [RawMemory.index]
      rw [if_pos (by omega)]; rfl
  unfold Vector.Emplace
  simp only [hend, hidx]
  rw [if_neg (by omega)]
  by_cases hlast : v.size_ = pos
  · rw [if_pos hlast]
    obtain ⟨v1, w1, he, hb1, hrep, hc1, hcap1⟩ :=
      EmplaceBack_ok v xs f arg x w h (room_of_CapacityOk h hc) ha hb
    have hl : xs.length + 1 ≤ v1.data_.capacity_ := by simpa using hrep.2.2.1
    have hp : pos = xs.length := by omega
    subst hp
    refine ⟨v1, w1, ?_, hb1, by simpa using hrep, hc1 hc, hcap1⟩
    simp only [he, RawMemory.index]
    rw [if_pos (by omega)]
  · rw [if_neg hlast, ha]
    simp only []
    unfold Vector.Capacity
    by_cases hfull : v.size_ = v.capacity_
    · rw [if_pos hfull, if_pos hfull]
      obtain ⟨v1, w1, he, hb1, hrep, hc1, hcap1⟩ :=
        emplace_grow_ok v xs pos f x w h (by omega) hb
      have hl : xs.length + 1 ≤ v1.data_.capacity_ := by
        have := hrep.2.2.1
        rw [length_insert xs pos x hpos] at this
        exact this
      refine ⟨{ v1 with size_ := v1.size_ + 1 }, w1, ?_, hb1, hrep, hc1, hcap1⟩
      simp only [he, RawMemory.index]
      rw [if_pos (by omega)]
    · rw [if_neg hfull, if_neg hfull]
      obtain ⟨v1, w1, he, hb1, hrep, hcap1, hdcap1⟩ :=
        emplace_shift_ok v xs pos f x w h (by omega) (by omega) hb
      have hl : xs.length + 1 ≤ v1.data_.capacity_ := by
        have := hrep.2.2.1
        rw [length_insert xs pos x hpos] at this
        exact this
      refine ⟨{ v1 with size_ := v1.size_ + 1 }, w1, ?_, hb1, hrep, ?_, hcap1⟩
      · simp only [he, RawMemory.index]
        rw [if_pos (by omega)]
      · show v1.capacity_ = v1.data_.capacity_
        rw [hcap1, hdcap1, hcd]

theorem Reserve_ok {T : Type} [Element T] (v : Vector T) (xs : List T) (n : Nat)
    (w : World) (h : v.Rep xs) (hle : v.size_ ≤ v.capacity_) (hb : w.budget = none) :
    ∃ v1 w1, Vector.Reserve v n w = .ok v1 w1 ∧ w1.budget = none ∧ v1.Rep xs ∧
      v1.capacity_ = max v.capacity_ n ∧ (n ≤ v.capacity_ → v1 = v ∧ w1 = w) ∧
      (v.capacity_ < n → v1.data_.capacity_ = n) := by
  obtain ⟨hblk, hsz, hcap, hcell⟩ := h
  unfold Vector.Reserve
  by_cases hn : n ≤ v.capacity_
  · rw [if_pos hn]
    exact ⟨v, w, rfl, hb, ⟨hblk, hsz, hcap, hcell⟩, by omega, fun _ => ⟨rfl, rfl⟩,
      fun h => absurd h (by omega)⟩
  · rw [if_neg hn]
    have hal := Allocate_length T n
    obtain ⟨ob, nb, w1, ht, hb1, hlen, _, hcells, _, hsl⟩ :=
      transfer_n_ok v.size_ v.data_.buffer_ 0 (Allocate T n) 0 w
        (Rep_live ⟨hblk, hsz, hcap, hcell⟩ 0 v.size_ (by omega)) (by omega) hb
    obtain ⟨ob1, w2, hd, hb2, _, _⟩ := destroy_loop_ok v.size_ ob 0 w1 hsl
    refine ⟨{ data_ := { buffer_ := nb, capacity_ := n }, capacity_ := n, size_ := v.size_ },
      Deallocate ob1 w2, ?_, ?_, ⟨?_, hsz, by simp only []; omega, ?_⟩, ?_,
      fun h => absurd h hn, fun _ => rfl⟩
    · simp only [RawMemory.alloc, RawMemory.Swap, RawMemory.destroy, ht, hd]
    · simp only [Deallocate]; rw [hb2, hb1]
    · simp only [hlen, hal]
    · intro i hi
      have e : 0 + (i - 0) = i := by omega
      simp only [hcells i]
      rw [if_pos (by omega), e, hcell i hi]
    · simp only []; omega

/-! ## The refinement of the list operations -/

theorem Op_onVector_ok {T : Type} [Element T] (op : Op T) (v : Vector T) (xs ys : List T)
    (w : World) (h : v.Rep xs) (hc : v.CapacityOk) (hb : w.budget = none)
    (hop : op.onList xs = some ys) :
    ∃ v1 w1, op.onVector v w = .ok v1 w1 ∧ w1.budget = none ∧ v1.Rep ys ∧ v1.CapacityOk := by
  cases op with
  | pushBack x =>
    simp only [Op.onList, Option.some.injEq] at hop
    subst hop
    obtain ⟨v1, w1, he, hb1, hrep, hc1, _⟩ :=
      PushBack_ok v xs (.value x) x w h (room_of_CapacityOk h hc) rfl hb
    exact ⟨v1, w1, he, hb1, hrep, hc1 hc⟩
  | insert i x =>
    simp only [Op.onList] at hop
    split at hop
    · rename_i hi
      cases hop
      obtain ⟨v1, w1, he, hb1, hrep, hc1, _⟩ :=
        Emplace_ok v xs i true (.value x) x w h hc hi rfl hb
      refine ⟨v1, w1, ?_, hb1, hrep, hc1⟩
      simp only [Op.onVector, Vector.Insert, he]
    · cases hop
  | erase i =>
    simp only [Op.onList] at hop
    split at hop
    · rename_i hi
      cases hop
      obtain ⟨v1, w1, he, hb1, hrep, hcap, hdcap⟩ := Erase_ok v xs i w h hi hb
      refine ⟨v1, w1, ?_, hb1, hrep, ?_⟩
      · simp only [Op.onVector, he]
      · show v1.capacity_ = v1.data_.capacity_
        rw [hcap, hdcap]; exact hc
    · cases hop
  | popBack =>
    simp only [Op.onList, Option.some.injEq] at hop
    subst hop
    obtain ⟨v1, w1, he, hb1, hrep, hcap, hdcap⟩ := PopBack_ok v xs w h
    refine ⟨v1, w1, he, by rw [hb1, hb], hrep, ?_⟩
    show v1.capacity_ = v1.data_.capacity_
    rw [hcap, hdcap]; exact hc

theorem runVector_ok {T : Type} [Element T] :
    ∀ (ops : List (Op T)) (v : Vector T) (xs l : List T) (w : World),
    v.Rep xs → v.CapacityOk → w.budget = none → runList ops xs = some l →
    ∃ v1 w1, runVector ops v w = .ok v1 w1 ∧ v1.Rep l := by
  intro ops
  induction ops with
  | nil =>
    intro v xs l w h _ _ hl
    simp only [runList, Option.some.injEq] at hl
    subst hl
    exact ⟨v, w, rfl, h⟩
  | cons op ops ih =>
    intro v xs l w h hc hb hl
    simp only [runList] at hl
    split at hl
    · rename_i ys hys
      obtain ⟨v1, w1, he, hb1, hrep, hc1⟩ := Op_onVector_ok op v xs ys w h hc hb hys
      obtain ⟨v2, w2, he2, hrep2⟩ := ih v1 ys l w1 hrep hc1 hb1 hl
      exact ⟨v2, w2, by simp only [runVector, he, he2], hrep2⟩
    · cases hl

theorem default_Rep (T : Type) : (Vector.default T).Rep [] :=
  ⟨rfl, rfl, Nat.le_refl _, fun i hi => absurd hi (by simp)⟩

theorem get_of_Rep {T : Type} {v : Vector T} {xs : List T} (h : v.Rep xs) (i : Nat)
    (hi : i < xs.length) : v.get i = xs[i]? := by
  obtain ⟨_, hsz, hcap, hcell⟩ := h
  rw [List.getElem?_eq_getElem hi]
  refine (get_eq_some v i _).mpr ⟨by omega, by omega, ?_⟩
  rw [hcell i hi, List.getElem?_eq_getElem hi]

/-! ## The claims -/

/-- C1: any sequence of `PushBack(v)`, `Insert(begin()+i, v)` with `i <= size`,
`Erase(begin()+i)` with `i < size` and `PopBack()` applied to a default-constructed
`Vector` returns, and then `Size()` is the length of the list obtained by the same
operations on the empty list and the elements read at `0 .. Size()-1` are that list. -/
theorem C1_operations_refine_list {T : Type} [Element T] (ops : List (Op T)) (l : List T)
    (w : World) (hw : w.budget = none) (hvalid : runList ops [] = some l) :
    ∃ v w1, runVector ops (Vector.default T) w = .ok v w1 ∧ v.Size = l.length ∧
      v.elements = some l := by
  obtain ⟨v, w1, he, hrep⟩ :=
    runVector_ok ops (Vector.default T) [] l w (default_Rep T) rfl hw hvalid
  obtain ⟨hel, hsz, _⟩ := elements_of_Rep v l hrep
  exact ⟨v, w1, he, hsz, hel⟩

/-- C1, on `push 4, insert(0, 5), pop, push 6, push 7, erase(1), pop, pop, pop`. -/
theorem C1_operations_refine_list_witness :
    World.quiet.budget = none ∧
    runList [Op.pushBack (4 : Int), .insert 0 5, .popBack, .pushBack 6, .pushBack 7,
      .erase 1, .popBack, .popBack, .popBack] [] = some [] ∧
    ∃ v w1, runVector [Op.pushBack (4 : Int), .insert 0 5, .popBack, .pushBack 6,
        .pushBack 7, .erase 1, .popBack, .popBack, .popBack] (Vector.default Int)
        World.quiet = .ok v w1 ∧
      v.Size = ([] : List Int).length ∧ v.elements = some [] :=
  ⟨rfl, by decide, C1_operations_refine_list _ _ World.quiet rfl (by decide)⟩

/-- C2: on a vector with contents `xs` whose `Capacity()` is the capacity of its
storage block, `Emplace(begin()+i, v)` and both `Insert(begin()+i, v)` overloads with
`i <= Size()` leave the contents `take i xs ++ [v] ++ drop i xs` and `Size() == n+1`,
and return the iterator `begin()+i` of the new storage, which designates `v`; with
and without reallocation. -/
theorem C2_insert_at_position {T : Type} [Element T] (v : Vector T) (xs : List T)
    (i : Nat) (x : T) (f : Bool) (w : World) (hblk : v.BlockOk) (hcap : v.CapacityOk)
    (hxs : v.elements = some xs) (hi : i ≤ xs.length) (hw : w.budget = none) :
    (∃ v1 w1, v.Emplace i f (.value x) w = .ok (v1, i) w1 ∧
      v1.elements = some (xs.take i ++ [x] ++ xs.drop i) ∧ v1.Size = xs.length + 1 ∧
      v1.get i = some x) ∧
    (∃ v1 w1, v.Insert i (.value x) w = .ok (v1, i) w1 ∧
      v1.elements = some (xs.take i ++ [x] ++ xs.drop i) ∧ v1.Size = xs.length + 1 ∧
      v1.get i = some x) ∧
    (∃ v1 w1, v.InsertMove i x w = .ok (v1, i) w1 ∧
      v1.elements = some (xs.take i ++ [x] ++ xs.drop i) ∧ v1.Size = xs.length + 1 ∧
      v1.get i = some x) := by
  have hrep := Rep_of_elements v xs hblk hxs
  have key : ∀ g : Bool, ∃ v1 w1, v.Emplace i g (.value x) w = .ok (v1, i) w1 ∧
      v1.elements = some (xs.take i ++ [x] ++ xs.drop i) ∧ v1.Size = xs.length + 1 ∧
      v1.get i = some x := by
    intro g
    obtain ⟨v1, w1, he, _, hrep1, _, _⟩ :=
      Emplace_ok v xs i g (.value x) x w hrep hcap hi rfl hw
    obtain ⟨hel, hsz, _⟩ := elements_of_Rep v1 _ hrep1
    have hlen := length_insert xs i x hi
    refine ⟨v1, w1, he, by simpa using hel, by rw [hsz, hlen], ?_⟩
    rw [get_of_Rep hrep1 i (by omega), getElem?_insert xs i x i hi, if_neg (by omega),
      if_pos rfl]
  exact ⟨key f, key true, key _⟩

/-- C2 on the full five-element vector `[10, 20, 30, 40, 50]`, inserting in the
middle. -/
theorem C2_insert_at_position_witness :
    sample_full.BlockOk ∧ sample_full.CapacityOk ∧
    sample_full.elements = some [10, 20, 30, 40, 50] ∧
    ((∃ v1 w1, sample_full.Emplace 2 true (.value 7) World.quiet = .ok (v1, 2) w1 ∧
      v1.elements = some ([10, 20, 30, 40, 50].take 2 ++ [7] ++ [10, 20, 30, 40, 50].drop 2) ∧
      v1.Size = [10, 20, 30, 40, (50 : Int)].length + 1 ∧ v1.get 2 = some 7) ∧
    (∃ v1 w1, sample_full.Insert 2 (.value 7) World.quiet = .ok (v1, 2) w1 ∧
      v1.elements = some ([10, 20, 30, 40, 50].take 2 ++ [7] ++ [10, 20, 30, 40, 50].drop 2) ∧
      v1.Size = [10, 20, 30, 40, (50 : Int)].length + 1 ∧ v1.get 2 = some 7) ∧
    (∃ v1 w1, sample_full.InsertMove 2 7 World.quiet = .ok (v1, 2) w1 ∧
      v1.elements = some ([10, 20, 30, 40, 50].take 2 ++ [7] ++ [10, 20, 30, 40, 50].drop 2) ∧
      v1.Size = [10, 20, 30, 40, (50 : Int)].length + 1 ∧ v1.get 2 = some 7)) :=
  ⟨by decide, by decide, by decide,
    C2_insert_at_position sample_full [10, 20, 30, 40, 50] 2 7 true World.quiet (by decide)
      (by decide) (by decide) (by decide) rfl⟩

/-- C3: on a vector with contents `xs`, `Erase(begin()+i)` with `i < Size()` leaves
the contents `xs` without its element `i` (the later ones one cell down), `Size() ==
n-1` and `Capacity()` as it was, and returns `begin()+i`, which is `end()` when `i`
was the last index and otherwise designates the old element `i+1`. -/
theorem C3_erase_at_position {T : Type} [Element T] (v : Vector T) (xs : List T)
    (i : Nat) (w : World) (hblk : v.BlockOk) (hxs : v.elements = some xs)
    (hi : i < xs.length) (hw : w.budget = none) :
    ∃ v1 w1, v.Erase i w = .ok (v1, i) w1 ∧ v1.elements = some (xs.eraseIdx i) ∧
      v1.Size = xs.length - 1 ∧ v1.Capacity = v.Capacity ∧
      (∀ j, j < xs.length - 1 → v1.get j = if j < i then xs[j]? else xs[j + 1]?) ∧
      (i = xs.length - 1 → v1.end_ = some i) ∧
      (i < xs.length - 1 → v1.get i = xs[i + 1]?) := by
  have hrep := Rep_of_elements v xs hblk hxs
  obtain ⟨v1, w1, he, _, hrep1, hcap, _⟩ := Erase_ok v xs i w hrep hi hw
  obtain ⟨hel, hsz, _⟩ := elements_of_Rep v1 _ hrep1
  have hlen : (xs.eraseIdx i).length = xs.length - 1 := List.length_eraseIdx_of_lt hi
  have hget : ∀ j, j < xs.length - 1 → v1.get j = if j < i then xs[j]? else xs[j + 1]? := by
    intro j hj
    rw [get_of_Rep hrep1 j (by omega), List.getElem?_eraseIdx]
  refine ⟨v1, w1, he, hel, by rw [hsz, hlen], hcap, hget, ?_, ?_⟩
  · intro hlast
    have h1 := hrep1.2.1
    have h2 := hrep1.2.2.1
    simp only [Vector.end_, RawMemory.plus]
    rw [if_pos (by omega)]
    congr 1; omega
  · intro hmid
    rw [hget i hmid, if_neg (by omega)]

/-- C3 on `[10, 20, 30]` with two spare cells, erasing the middle element. -/
theorem C3_erase_at_position_witness :
    sample_spare.BlockOk ∧ sample_spare.elements = some [10, 20, 30] ∧
    ∃ v1 w1, sample_spare.Erase 1 World.quiet = .ok (v1, 1) w1 ∧
      v1.elements = some ([10, 20, (30 : Int)].eraseIdx 1) ∧
      v1.Size = [10, 20, (30 : Int)].length - 1 ∧ v1.Capacity = sample_spare.Capacity ∧
      (∀ j, j < [10, 20, (30 : Int)].length - 1 →
        v1.get j = if j < 1 then [10, 20, (30 : Int)][j]? else [10, 20, (30 : Int)][j + 1]?) ∧
      (1 = [10, 20, (30 : Int)].length - 1 → v1.end_ = some 1) ∧
      (1 < [10, 20, (30 : Int)].length - 1 → v1.get 1 = [10, 20, (30 : Int)][1 + 1]?) :=
  ⟨by decide, by decide,
    C3_erase_at_position sample_spare [10, 20, 30] 1 World.quiet (by decide) (by decide)
      (by decide) rfl⟩

/-- Appending to a vector whose cell `n` is a cell of its storage block: on a vector
with contents `xs`, both `PushBack(v)` overloads and `EmplaceBack(v)` leave the
contents `xs ++ [v]` and `Size() == n+1`: when `n == Capacity()` by reallocation, and
otherwise by construction in place at cell `n`, which is assumed to be a cell of the
storage block (it is one whenever `Capacity()` is the capacity of that block).
`EmplaceBack` returns a reference to element `n`, whose value is `v`. -/
theorem append_in_block {T : Type} [Element T] (v : Vector T) (xs : List T) (x : T)
    (f : Bool) (w : World) (hblk : v.BlockOk) (hxs : v.elements = some xs)
    (hslot : v.Size ≠ v.Capacity → v.Size < v.data_.Capacity) (hw : w.budget = none) :
    (∃ v1 w1, v.PushBack (.value x) w = .ok v1 w1 ∧ v1.elements = some (xs ++ [x]) ∧
      v1.Size = xs.length + 1) ∧
    (∃ v1 w1, v.PushBackMove x w = .ok v1 w1 ∧ v1.elements = some (xs ++ [x]) ∧
      v1.Size = xs.length + 1) ∧
    (∃ v1 w1, v.EmplaceBack f (.value x) w = .ok (v1, xs.length) w1 ∧
      v1.elements = some (xs ++ [x]) ∧ v1.Size = xs.length + 1 ∧
      v1.get xs.length = some x) := by
  have hrep := Rep_of_elements v xs hblk hxs
  refine ⟨?_, ?_, ?_⟩
  · obtain ⟨v1, w1, he, _, hrep1, _, _⟩ := PushBack_ok v xs (.value x) x w hrep hslot rfl hw
    obtain ⟨hel, hsz, _⟩ := elements_of_Rep v1 _ hrep1
    exact ⟨v1, w1, he, hel, by simpa using hsz⟩
  · obtain ⟨v1, w1, he, _, hrep1, _, _⟩ := PushBackMove_ok v xs x w hrep hslot hw
    obtain ⟨hel, hsz, _⟩ := elements_of_Rep v1 _ hrep1
    exact ⟨v1, w1, he, hel, by simpa using hsz⟩
  · obtain ⟨v1, w1, he, _, hrep1, _, _⟩ :=
      EmplaceBack_ok v xs f (.value x) x w hrep hslot rfl hw
    obtain ⟨hel, hsz, _⟩ := elements_of_Rep v1 _ hrep1
    refine ⟨v1, w1, he, hel, by simpa using hsz, ?_⟩
    rw [get_of_Rep hrep1 xs.length (by simp)]
    simp

/-- The lemma `append_in_block` on the full vector `[10, 20, 30, 40, 50]`: the call
reallocates. -/
theorem append_in_block_example :
    sample_full.BlockOk ∧ sample_full.elements = some [10, 20, 30, 40, 50] ∧
    (sample_full.Size ≠ sample_full.Capacity →
      sample_full.Size < sample_full.data_.Capacity) ∧
    World.quiet.budget = none ∧
    ((∃ v1 w1, sample_full.PushBack (.value 60) World.quiet = .ok v1 w1 ∧
      v1.elements = some ([10, 20, 30, 40, 50] ++ [60]) ∧
      v1.Size = [10, 20, 30, 40, (50 : Int)].length + 1) ∧
    (∃ v1 w1, sample_full.PushBackMove 60 World.quiet = .ok v1 w1 ∧
      v1.elements = some ([10, 20, 30, 40, 50] ++ [60]) ∧
      v1.Size = [10, 20, 30, 40, (50 : Int)].length + 1) ∧
    (∃ v1 w1, sample_full.EmplaceBack true (.value 60) World.quiet =
        .ok (v1, [10, 20, 30, 40, (50 : Int)].length) w1 ∧
      v1.elements = some ([10, 20, 30, 40, 50] ++ [60]) ∧
      v1.Size = [10, 20, 30, 40, (50 : Int)].length + 1 ∧
      v1.get [10, 20, 30, 40, (50 : Int)].length = some 60)) :=
  ⟨by decide, by decide, by decide, rfl,
    append_in_block sample_full [10, 20, 30, 40, 50] 60 true World.quiet (by decide)
      (by decide) (by decide) rfl⟩

/-- Reserving on a vector whose size does not exceed its capacity: on a vector with
contents `xs` and capacity `c` (at least its size), `Reserve(n)`, the allocation of
`n` cells being taken to succeed, leaves `Size()` and the contents as they were and does not decrease the
capacity: nothing at all changes when `n <= c`, and the capacity is exactly `n` when
`n > c`; in both cases it is `max c n`. -/
theorem reserve_within_capacity {T : Type} [Element T] (v : Vector T) (xs : List T)
    (n : Nat) (w : World) (hblk : v.BlockOk) (hxs : v.elements = some xs)
    (hle : v.Size ≤ v.Capacity) (hw : w.budget = none) :
    ∃ v1 w1, v.Reserve n w = .ok v1 w1 ∧ v1.elements = some xs ∧ v1.Size = v.Size ∧
      v.Capacity ≤ v1.Capacity ∧ v1.Capacity = max v.Capacity n ∧
      (n ≤ v.Capacity → v1 = v ∧ w1 = w) ∧ (v.Capacity < n → v1.Capacity = n) := by
  have hrep := Rep_of_elements v xs hblk hxs
  obtain ⟨v1, w1, he, _, hrep1, hcap, hnoop, _⟩ := Reserve_ok v xs n w hrep hle hw
  obtain ⟨hel, hsz, _⟩ := elements_of_Rep v1 _ hrep1
  have hsz0 : v.Size = xs.length := hrep.2.1
  refine ⟨v1, w1, he, hel, by rw [hsz, hsz0], ?_, hcap, hnoop, ?_⟩
  · show v.capacity_ ≤ v1.capacity_
    rw [hcap]; exact Nat.le_max_left _ _
  · intro hlt
    show v1.capacity_ = n
    rw [hcap]
    exact Nat.max_eq_right (Nat.le_of_lt hlt)

/-- The lemma `reserve_within_capacity` on `[10, 20, 30]` with capacity 5, reserving 8. -/
theorem reserve_within_capacity_example :
    sample_spare.BlockOk ∧ sample_spare.elements = some [10, 20, 30] ∧
    sample_spare.Size ≤ sample_spare.Capacity ∧
    ∃ v1 w1, sample_spare.Reserve 8 World.quiet = .ok v1 w1 ∧
      v1.elements = some [10, 20, 30] ∧ v1.Size = sample_spare.Size ∧
      sample_spare.Capacity ≤ v1.Capacity ∧ v1.Capacity = max sample_spare.Capacity 8 ∧
      (8 ≤ sample_spare.Capacity → v1 = sample_spare ∧ w1 = World.quiet) ∧
      (sample_spare.Capacity < 8 → v1.Capacity = 8) :=
  ⟨by decide, by decide, by decide,
    reserve_within_capacity sample_spare [10, 20, 30] 8 World.quiet (by decide)
      (by decide) (by decide) rfl⟩

theorem grow_back_capacity {T : Type} [Element T] (v v1 : Vector T) (f : Bool) (x : T)
    (w w1 : World) (h : Vector.grow_back v f x w = .ok v1 w1) :
    v1.capacity_ = (if v.size_ = 0 then 1 else v.size_ * 2) := by
  unfold Vector.grow_back at h
  generalize (if v.size_ = 0 then 1 else v.size_ * 2) = nc at h ⊢
  dsimp only at h
  repeat' split at h
  all_goals first
    | (cases h; rfl)
    | cases h

theorem construct_back_capacity {T : Type} (v v1 : Vector T) (f : Bool) (x : T)
    (w w1 : World) (h : Vector.construct_back v f x w = .ok v1 w1) :
    v1.capacity_ = v.capacity_ := by
  unfold Vector.construct_back at h
  repeat' split at h
  all_goals first
    | (cases h; rfl)
    | cases h

theorem emplace_grow_capacity {T : Type} [Element T] (v v1 : Vector T) (p : Nat) (f : Bool)
    (x : T) (w w1 : World) (h : Vector.emplace_grow v p f x w = .ok v1 w1) :
    v1.capacity_ = (if v.size_ = 0 then 1 else v.size_ * 2) := by
  unfold Vector.emplace_grow at h
  generalize (if v.size_ = 0 then 1 else v.size_ * 2) = nc at h ⊢
  dsimp only at h
  repeat' split at h
  all_goals first
    | (cases h; rfl)
    | cases h

theorem emplace_shift_capacity {T : Type} [Element T] (v v1 : Vector T) (p : Nat) (f : Bool)
    (x : T) (w w1 : World) (h : Vector.emplace_shift v p f x w = .ok v1 w1) :
    v1.capacity_ = v.capacity_ := by
  unfold Vector.emplace_shift at h
  dsimp only at h
  repeat' split at h
  all_goals first
    | (cases h; rfl)
    | cases h

theorem back_capacity {T : Type} [Element T] (v v1 : Vector T) (f : Bool) (x : T)
    (w w1 : World)
    (h : (if v.size_ = v.Capacity then Vector.grow_back v f x w
          else Vector.construct_back v f x w) = .ok v1 w1) :
    v1.capacity_ = (if v.size_ = v.capacity_ then (if v.size_ = 0 then 1 else v.size_ * 2)
                    else v.capacity_) := by
  unfold Vector.Capacity at h
  by_cases hfull : v.size_ = v.capacity_
  · rw [if_pos hfull] at h ⊢
    exact grow_back_capacity v v1 f x w w1 h
  · rw [if_neg hfull] at h ⊢
    exact construct_back_capacity v v1 f x w w1 h

theorem EmplaceBack_capacity {T : Type} [Element T] (v v1 : Vector T) (f : Bool)
    (arg : Arg T) (it : Nat) (w w1 : World)
    (h : Vector.EmplaceBack v f arg w = .ok (v1, it) w1) :
    v1.capacity_ = (if v.size_ = v.capacity_ then (if v.size_ = 0 then 1 else v.size_ * 2)
                    else v.capacity_) := by
  unfold Vector.EmplaceBack at h
  split at h
  · cases h
  · split at h
    · rename_i heq
      split at h
      · cases h
        exact back_capacity v _ f _ w _ heq
      · cases h
    · cases h
    · cases h
    · cases h

theorem Emplace_capacity {T : Type} [Element T] (v v1 : Vector T) (pos : Nat) (f : Bool)
    (arg : Arg T) (it : Nat) (w w1 : World)
    (h : Vector.Emplace v pos f arg w = .ok (v1, it) w1) :
    v1.capacity_ = (if v.size_ = v.capacity_ then (if v.size_ = 0 then 1 else v.size_ * 2)
                    else v.capacity_) := by
  unfold Vector.Emplace at h
  split at h
  · cases h
  · split at h
    · cases h
    · split at h
      · cases h
      · split at h
        · split at h
          · rename_i heq
            split at h
            · cases h
              exact EmplaceBack_capacity v _ f arg _ w _ heq
            · cases h
          · cases h
          · cases h
          · cases h
        · split at h
          · cases h
          · split at h
            · rename_i heq
              dsimp only at h
              split at h
              · cases h
                unfold Vector.Capacity at heq
                by_cases hfull : v.size_ = v.capacity_
                · rw [if_pos hfull] at heq ⊢
                  exact (emplace_grow_capacity _ _ _ _ _ _ _ heq :)
                · rw [if_neg hfull] at heq ⊢
                  exact (emplace_shift_capacity _ _ _ _ _ _ _ heq :)
              · cases h
            · cases h
            · cases h
            · cases h

/-- C6: a `PushBack`, `EmplaceBack`, `Emplace` or `Insert` that returns leaves
`Capacity()` at `1` when `Size() == Capacity() == 0`, at `2*c` when `Size() ==
Capacity() == c > 0`, and unchanged when `Size() < Capacity()`; and on a vector that
holds contents, with `Capacity()` the capacity of its block, these calls do return
(at every position up to `Size()`). -/
theorem C6_implicit_growth_doubles {T : Type} [Element T] (v : Vector T) (w : World)
    (x : T) (arg : Arg T) (f : Bool) (pos : Nat) :
    (∀ (v1 : Vector T) (w1 : World) (it : Nat),
      (v.PushBack arg w = .ok v1 w1 ∨ v.PushBackMove x w = .ok v1 w1 ∨
        v.EmplaceBack f arg w = .ok (v1, it) w1 ∨ v.Emplace pos f arg w = .ok (v1, it) w1 ∨
        v.Insert pos arg w = .ok (v1, it) w1 ∨ v.InsertMove pos x w = .ok (v1, it) w1) →
      (v.Size = v.Capacity → v1.Capacity = if v.Capacity = 0 then 1 else 2 * v.Capacity) ∧
      (v.Size < v.Capacity → v1.Capacity = v.Capacity)) ∧
    (∀ xs : List T, v.BlockOk → v.CapacityOk → v.elements = some xs → pos ≤ xs.length →
      w.budget = none →
      (∃ v1 w1, v.PushBack (.value x) w = .ok v1 w1) ∧
      (∃ v1 w1, v.PushBackMove x w = .ok v1 w1) ∧
      (∃ v1 w1 it, v.EmplaceBack f (.value x) w = .ok (v1, it) w1) ∧
      (∃ v1 w1 it, v.Emplace pos f (.value x) w = .ok (v1, it) w1) ∧
      (∃ v1 w1 it, v.Insert pos (.value x) w = .ok (v1, it) w1) ∧
      (∃ v1 w1 it, v.InsertMove pos x w = .ok (v1, it) w1)) := by
  constructor
  · intro v1 w1 it hop
    have key : v1.capacity_ =
        (if v.size_ = v.capacity_ then (if v.size_ = 0 then 1 else v.size_ * 2)
         else v.capacity_) := by
      rcases hop with h | h | h | h | h | h
      · unfold Vector.PushBack at h
        split at h
        · cases h
        · exact back_capacity v v1 true _ w w1 h
      · exact back_capacity v v1 _ x w w1 h
      · exact EmplaceBack_capacity v v1 f arg it w w1 h
      · exact Emplace_capacity v v1 pos f arg it w w1 h
      · exact Emplace_capacity v v1 pos true arg it w w1 h
      · exact Emplace_capacity v v1 pos _ (.value x) it w w1 h
    unfold Vector.Size Vector.Capacity
    constructor
    · intro hfull
      rw [key, if_pos hfull, hfull]
      split <;> omega
    · intro hlt
      rw [key, if_neg (by omega)]
  · intro xs hblk hcap hxs hpos hw
    have hrep := Rep_of_elements v xs hblk hxs
    have hroom := room_of_CapacityOk hrep hcap
    obtain ⟨a1, b1, h1, _⟩ := PushBack_ok v xs (.value x) x w hrep hroom rfl hw
    obtain ⟨a2, b2, h2, _⟩ := PushBackMove_ok v xs x w hrep hroom hw
    obtain ⟨a3, b3, h3, _⟩ := EmplaceBack_ok v xs f (.value x) x w hrep hroom rfl hw
    obtain ⟨a4, b4, h4, _⟩ := Emplace_ok v xs pos f (.value x) x w hrep hcap hpos rfl hw
    obtain ⟨a5, b5, h5, _⟩ := Emplace_ok v xs pos true (.value x) x w hrep hcap hpos rfl hw
    obtain ⟨a6, b6, h6, _⟩ :=
      Emplace_ok v xs pos (!Element.nothrow_move T) (.value x) x w hrep hcap hpos rfl hw
    exact ⟨⟨a1, b1, h1⟩, ⟨a2, b2, h2⟩, ⟨a3, _, _, h3⟩, ⟨a4, _, _, h4⟩, ⟨a5, _, _, h5⟩,
      ⟨a6, _, _, h6⟩⟩

/-- C6 on the full vector `[10, 20, 30, 40, 50]`: inserting at the front returns and
doubles the capacity to 10. -/
theorem C6_implicit_growth_doubles_witness :
    sample_full.Emplace 0 true (.value 7) World.quiet =
      .ok (Vector.mk (RawMemory.mk [some 7, some 10, some 20, some 30, some 40, some 50,
        none, none, none, none] 10) 10 6, 0)
        { budget := none, constructions := 6, assignments := 0, destructions := 5,
          clobbered := 0, leaked := 0 } ∧
    ((sample_full.Size = sample_full.Capacity →
      (Vector.mk (RawMemory.mk [some 7, some 10, some 20, some 30, some 40, some (50 : Int),
        none, none, none, none] 10) 10 6).Capacity =
        if sample_full.Capacity = 0 then 1 else 2 * sample_full.Capacity) ∧
    (sample_full.Size < sample_full.Capacity →
      (Vector.mk (RawMemory.mk [some 7, some 10, some 20, some 30, some 40, some (50 : Int),
        none, none, none, none] 10) 10 6).Capacity = sample_full.Capacity)) ∧
    ((∃ v1 w1, sample_full.PushBack (.value 7) World.quiet = .ok v1 w1) ∧
      (∃ v1 w1, sample_full.PushBackMove 7 World.quiet = .ok v1 w1) ∧
      (∃ v1 w1 it, sample_full.EmplaceBack true (.value 7) World.quiet = .ok (v1, it) w1) ∧
      (∃ v1 w1 it, sample_full.Emplace 0 true (.value 7) World.quiet = .ok (v1, it) w1) ∧
      (∃ v1 w1 it, sample_full.Insert 0 (.value 7) World.quiet = .ok (v1, it) w1) ∧
      (∃ v1 w1 it, sample_full.InsertMove 0 7 World.quiet = .ok (v1, it) w1)) :=
  ⟨by decide,
    (C6_implicit_growth_doubles sample_full World.quiet 7 (.value 7) true 0).1 _
      { budget := none, constructions := 6, assignments := 0, destructions := 5,
        clobbered := 0, leaked := 0 } 0
      (Or.inr (Or.inr (Or.inr (Or.inl (by decide))))),
    (C6_implicit_growth_doubles sample_full World.quiet 7 (.value 7) true 0).2
      [10, 20, 30, 40, 50] (by decide) (by decide) (by decide) (by decide) rfl⟩

/-! ## Assignment -/

theorem copy_assign_from_ok {T : Type} (dst : Block T) (d : Nat) (src : Block T) (s : Nat)
    (x y : T) (w : World) (hs : src[s]? = some (some x)) (hd : dst[d]? = some (some y))
    (hb : w.budget = none) :
    ∃ w1, copy_assign_from dst d src s w = .ok (dst.set d (some x)) w1 ∧
      w1.budget = none := by
  unfold copy_assign_from
  rw [live?_of_cell hs, live?_of_cell hd]
  simp only [charge_quiet w _ hb]
  exact ⟨_, rfl, hb⟩

theorem copy_assign_loop_ok {T : Type} (src : RawMemory T) :
    ∀ (n : Nat) (dst : RawMemory T) (i : Nat) (w : World),
    (∀ k, k < n → ∃ x, src.buffer_[i + k]? = some (some x)) →
    (∀ k, k < n → ∃ y, dst.buffer_[i + k]? = some (some y)) →
    i + n ≤ dst.capacity_ → i + n ≤ src.capacity_ → w.budget = none →
    ∃ d1 w1, Vector.copy_assign_loop src dst i n w = .ok d1 w1 ∧ w1.budget = none ∧
      d1.capacity_ = dst.capacity_ ∧ d1.buffer_.length = dst.buffer_.length ∧
      ∀ j, d1.buffer_[j]? = if i ≤ j ∧ j < i + n then src.buffer_[j]? else dst.buffer_[j]? := by
  intro n
  induction n with
  | zero =>
    intro dst i w _ _ _ _ hb
    refine ⟨dst, w, rfl, hb, rfl, rfl, ?_⟩
    intro j
    rw [if_neg (by omega)]
  | succ n ih =>
    intro dst i w hs hd hcd hcs hb
    obtain ⟨x, hx⟩ := hs 0 (by omega)
    obtain ⟨y, hy⟩ := hd 0 (by omega)
    have hx0 : src.buffer_[i]? = some (some x) := by simpa using hx
    have hy0 : dst.buffer_[i]? = some (some y) := by simpa using hy
    obtain ⟨w1, hc, hb1⟩ := copy_assign_from_ok dst.buffer_ i src.buffer_ i x y w hx0 hy0 hb
    have hs1 : ∀ k, k < n → ∃ z, src.buffer_[i + 1 + k]? = some (some z) := by
      intro k hk
      obtain ⟨z, hz⟩ := hs (k + 1) (by omega)
      exact ⟨z, by rw [← hz]; exact cell_congr (by omega)⟩
    have hd1 : ∀ k, k < n → ∃ z,
        (dst.buffer_.set i (some x))[i + 1 + k]? = some (some z) := by
      intro k hk
      obtain ⟨z, hz⟩ := hd (k + 1) (by omega)
      refine ⟨z, ?_⟩
      rw [List.getElem?_set_ne (by omega), ← hz]
      exact cell_congr (by omega)
    obtain ⟨d2, w2, hl, hb2, hcap, hlen, hcells⟩ :=
      ih { dst with buffer_ := dst.buffer_.set i (some x) } (i + 1) w1 hs1 hd1
        (by simp only []; omega) (by omega) hb1
    refine ⟨d2, w2, ?_, hb2, hcap, by simpa using hlen, ?_⟩
    · simp only [Vector.copy_assign_loop, RawMemory.index]
      rw [if_pos (by omega), if_pos (by omega)]
      simp only [hc, hl]
    · intro j
      rw [hcells j]
      by_cases h1 : i + 1 ≤ j ∧ j < i + 1 + n
      · rw [if_pos h1, if_pos (by omega)]
      · rw [if_neg h1]
        by_cases h2 : j = i
        · subst h2
          rw [if_pos (by omega), List.getElem?_set, if_pos rfl,
            if_pos (cell_lt_length hy0), hx0]
        · rw [if_neg (by omega), List.getElem?_set_ne (by omega)]

theorem copy_construct_ok {T : Type} (other : Vector T) (ys : List T) (w : World)
    (h : other.Rep ys) (hb : w.budget = none) :
    ∃ v1 w1, Vector.copy_construct other w = .ok v1 w1 ∧ w1.budget = none ∧ v1.Rep ys ∧
      v1.capacity_ = ys.length ∧ v1.data_.capacity_ = ys.length := by
  obtain ⟨hblk, hsz, hcap, hcell⟩ := h
  have hal := Allocate_length T other.size_
  obtain ⟨b, w1, hc, hb1, hlen, hcells⟩ :=
    uninitialized_copy_n_ok other.data_.buffer_ other.size_ 0 (Allocate T other.size_) 0 w
      (Rep_live ⟨hblk, hsz, hcap, hcell⟩ 0 other.size_ (by omega)) (by omega) hb
  refine ⟨{ data_ := { buffer_ := b, capacity_ := other.size_ }, capacity_ := other.size_,
            size_ := other.size_ }, w1, ?_, hb1, ⟨?_, hsz, ?_, ?_⟩, hsz, hsz⟩
  · simp only [Vector.copy_construct, RawMemory.alloc, hc]
  · simp only [hlen, hal]
  · simp only []; omega
  · intro i hi
    have e : 0 + (i - 0) = i := by omega
    simp only [hcells i]
    rw [if_pos (by omega), e, hcell i hi]

theorem destroy_ok {T : Type} (v : Vector T) (xs : List T) (w : World) (h : v.Rep xs) :
    ∃ w1, Vector.destroy v w = .ok () w1 ∧ w1.budget = w.budget := by
  obtain ⟨b, w1, hd, hb1, _, _⟩ := DestroyN_ok v.size_ v.data_.buffer_ 0 w
    (Rep_live h 0 v.size_ (by have := h.2.1; omega))
  refine ⟨Deallocate b w1, ?_, ?_⟩
  · simp only [Vector.destroy, hd]
  · simp only [Deallocate]; exact hb1

theorem copy_assign_body_ok {T : Type} (this rhs : Vector T) (xs ys : List T) (w : World)
    (h1 : this.Rep xs) (h2 : rhs.Rep ys) (hb : w.budget = none) :
    ∃ v1 w1, Vector.copy_assign_body this rhs w = .ok v1 w1 ∧ w1.budget = none ∧
      v1.Rep ys ∧
      v1.capacity_ = (if this.data_.capacity_ < ys.length then ys.length
                      else this.capacity_) := by
  have hsz1 := h1.2.1
  have hsz2 := h2.2.1
  have hc1 := h1.2.2.1
  have hc2 := h2.2.2.1
  unfold Vector.copy_assign_body RawMemory.Capacity
  by_cases hbig : rhs.size_ > this.data_.capacity_
  · have hif : (if this.data_.capacity_ < ys.length then ys.length else this.capacity_) =
        ys.length := if_pos (by omega)
    rw [if_pos hbig, hif]
    obtain ⟨c, w1, hc, hb1, hrep, hcap, hdcap⟩ := copy_construct_ok rhs ys w h2 hb
    obtain ⟨w2, hd, hb2⟩ := destroy_ok (Vector.Swap this c).2 xs w1 h1
    refine ⟨(Vector.Swap this c).1, w2, ?_, by rw [hb2, hb1], hrep, hcap⟩
    simp only [hc, hd]
  · have hif : (if this.data_.capacity_ < ys.length then ys.length else this.capacity_) =
        this.capacity_ := if_neg (by omega)
    rw [if_neg hbig, hif]
    by_cases hshort : rhs.size_ < this.size_
    · rw [if_pos hshort]
      obtain ⟨d, w1, hl, hb1, hdcap, hdlen, hcells⟩ :=
        copy_assign_loop_ok rhs.data_ rhs.size_ this.data_ 0 w
          (Rep_live h2 0 rhs.size_ (by omega)) (Rep_live h1 0 rhs.size_ (by omega))
          (by omega) (by omega) hb
      have hlive : ∀ k, k < this.size_ - rhs.size_ →
          ∃ x, d.buffer_[rhs.size_ + k]? = some (some x) := by
        intro k hk
        obtain ⟨x, hx⟩ := Rep_live h1 rhs.size_ (this.size_ - rhs.size_) (by omega) k hk
        exact ⟨x, by rw [hcells, if_neg (by omega), hx]⟩
      obtain ⟨b, w2, hd, hb2, hblen, hbcells⟩ :=
        DestroyN_ok (this.size_ - rhs.size_) d.buffer_ rhs.size_ w1 hlive
      refine ⟨{ data_ := { d with buffer_ := b }, capacity_ := this.capacity_,
                size_ := rhs.size_ }, w2, ?_, by rw [hb2, hb1], ⟨?_, hsz2, ?_, ?_⟩, rfl⟩
      · simp only [hl, hd]
      · simp only [hblen, hdlen, hdcap]; exact h1.1
      · simp only [hdcap]; omega
      · intro i hi
        simp only []
        rw [hbcells i (by omega), hcells, if_pos (by omega), h2.2.2.2 i hi]
    · rw [if_neg hshort]
      obtain ⟨d, w1, hl, hb1, hdcap, hdlen, hcells⟩ :=
        copy_assign_loop_ok rhs.data_ this.size_ this.data_ 0 w
          (Rep_live h2 0 this.size_ (by omega)) (Rep_live h1 0 this.size_ (by omega))
          (by omega) (by omega) hb
      have hlive : ∀ k, k < rhs.size_ - this.size_ →
          ∃ x, rhs.data_.buffer_[this.size_ + k]? = some (some x) :=
        Rep_live h2 this.size_ (rhs.size_ - this.size_) (by omega)
      obtain ⟨b, w2, hu, hb2, hblen, hbcells⟩ :=
        uninitialized_copy_n_ok rhs.data_.buffer_ (rhs.size_ - this.size_) this.size_
          d.buffer_ this.size_ w1 hlive (by rw [hdlen, h1.1]; omega) hb1
      refine ⟨{ data_ := { d with buffer_ := b }, capacity_ := this.capacity_,
                size_ := rhs.size_ }, w2, ?_, hb2, ⟨?_, hsz2, ?_, ?_⟩, rfl⟩
      · simp only [hl, hu]
      · simp only [hblen, hdlen, hdcap]; exact h1.1
      · simp only [hdcap]; omega
      · intro i hi
        simp only []
        rw [hbcells i]
        by_cases hlow : i < this.size_
        · rw [if_neg (by omega), hcells, if_pos (by omega), h2.2.2.2 i hi]
        · rw [if_pos (by omega), ← h2.2.2.2 i hi]
          exact cell_congr (by omega)

theorem move_assign_body_ok {T : Type} [Element T] (this rhs : Vector T) (xs ys : List T)
    (w : World) (h1 : this.Rep xs) (h2 : rhs.Rep ys) (hb : w.budget = none) :
    ∃ v1 r1 w1, Vector.move_assign_body this rhs w = .ok (v1, r1) w1 ∧
      r1.size_ = 0 ∧ r1.capacity_ = 0 ∧
      (this.data_.capacity_ < ys.length ∨ ys.length < xs.length ∨ xs = [] → v1.Rep ys) := by
  have hsz1 := h1.2.1
  have hsz2 := h2.2.1
  have hc1 := h1.2.2.1
  have hc2 := h2.2.2.1
  unfold Vector.move_assign_body RawMemory.Capacity
  by_cases hbig : rhs.size_ > this.data_.capacity_
  · rw [if_pos hbig]
    exact ⟨_, _, _, rfl, rfl, rfl, fun _ => h2⟩
  · rw [if_neg hbig]
    by_cases hshort : rhs.size_ < this.size_
    · rw [if_pos hshort]
      obtain ⟨b, w1, hd, hb1, hblen, _⟩ := DestroyN_ok this.size_ this.data_.buffer_ 0 w
        (Rep_live h1 0 this.size_ (by omega))
      obtain ⟨rb, b1, w2, hu, _, hlen, _, hcells, _, _⟩ :=
        uninitialized_move_n_ok rhs.size_ rhs.data_.buffer_ 0 b 0 w1
          (Rep_live h2 0 rhs.size_ (by omega)) (by rw [hblen, h1.1]; omega)
          (by rw [hb1, hb])
      refine ⟨{ this.withBuffer b1 with size_ := rhs.size_ },
        { rhs.withBuffer rb with size_ := 0, capacity_ := 0 }, w2, ?_, rfl, rfl, ?_⟩
      · simp only [hd, hu]
      · intro _
        refine ⟨?_, hsz2, ?_, ?_⟩
        · simp only [Vector.withBuffer, hlen, hblen]; exact h1.1
        · simp only [Vector.withBuffer]; omega
        · intro i hi
          have e : 0 + (i - 0) = i := by omega
          simp only [Vector.withBuffer, hcells i]
          rw [if_pos (by omega), e, h2.2.2.2 i hi]
    · rw [if_neg hshort]
      obtain ⟨rb, b1, w1, hu, _, hlen, _, hcells, _, _⟩ :=
        uninitialized_move_n_ok (rhs.size_ - this.size_) rhs.data_.buffer_ this.size_
          this.data_.buffer_ 0 w (Rep_live h2 this.size_ (rhs.size_ - this.size_) (by omega))
          (by rw [h1.1]; omega) hb
      refine ⟨{ this.withBuffer b1 with size_ := rhs.size_, capacity_ := rhs.capacity_ },
        { rhs.withBuffer rb with size_ := 0, capacity_ := 0 }, w1, ?_, rfl, rfl, ?_⟩
      · simp only [hu]
      · intro hcase
        have hx : xs = [] := by
          rcases hcase with h | h | h
          · omega
          · omega
          · exact h
        subst hx
        have hn : this.size_ = 0 := by simpa using hsz1
        refine ⟨?_, hsz2, ?_, ?_⟩
        · simp only [Vector.withBuffer, hlen]; exact h1.1
        · simp only [Vector.withBuffer]; omega
        · intro i hi
          simp only [Vector.withBuffer, hcells i]
          rw [if_pos (by omega), ← h2.2.2.2 i hi]
          exact cell_congr (by omega)

theorem put_same {T : Type} (σ : Store T) (a : Nat) (v : Vector T) : (σ.put a v) a = v := by
  simp [Store.put]

theorem put_other {T : Type} (σ : Store T) (a b : Nat) (v : Vector T) (h : b ≠ a) :
    (σ.put a v) b = σ b := by
  simp [Store.put, h]

/-- C7 (what the code does): `dst = std::move(src)` with `dst == [1, 2]` and
`src == [7, 8]`, both of capacity 2, returns with `dst` still holding `[1, 2]`,
not `[7, 8]`: in the branch `dst size <= src size <= dst storage capacity` only the
elements of `src` from index `dst.Size()` on are moved, and they are written from
cell 0 of `dst`. -/
theorem C7_move_assign_keeps_old_elements :
    ∃ σ1 w1, move_assign sample_store 0 1 World.quiet = .ok σ1 w1 ∧
      (σ1 0).Size = 2 ∧ (σ1 0).elements = some [1, 2] ∧
      (sample_store 1).elements = some [7, 8] ∧ (σ1 0).elements ≠ some [7, 8] :=
  ⟨_, _, rfl, by decide, by decide, by decide, by decide⟩

theorem move_assign_body_source {T : Type} [Element T] (this rhs v r : Vector T)
    (w w1 : World) (h : Vector.move_assign_body this rhs w = .ok (v, r) w1) :
    r.size_ = 0 ∧ r.capacity_ = 0 := by
  unfold Vector.move_assign_body at h
  repeat' split at h
  all_goals first
    | (cases h; exact ⟨rfl, rfl⟩)
    | cases h

/-- C8: after `dst = std::move(src)` on two distinct vectors the source reports
`Size() == 0` and `Capacity() == 0`, whichever branch the assignment takes: every
return of the assignment leaves the source so, and the assignment does return on any
two distinct vectors that hold contents. -/
theorem C8_move_assign_empties_source {T : Type} [Element T] (σ : Store T)
    (this rhs : Nat) (w : World) (hne : this ≠ rhs) :
    (∀ σ1 w1, move_assign σ this rhs w = .ok σ1 w1 →
      (σ1 rhs).Size = 0 ∧ (σ1 rhs).Capacity = 0) ∧
    (∀ xs ys : List T, (σ this).BlockOk → (σ this).elements = some xs →
      (σ rhs).BlockOk → (σ rhs).elements = some ys → w.budget = none →
      ∃ σ1 w1, move_assign σ this rhs w = .ok σ1 w1 ∧ (σ1 rhs).Size = 0 ∧
        (σ1 rhs).Capacity = 0) := by
  constructor
  · intro σ1 w1 h
    simp only [move_assign, if_pos hne] at h
    split at h
    · rename_i v r w2 heq
      cases h
      obtain ⟨hs, hc⟩ := move_assign_body_source _ _ v r w _ heq
      exact ⟨by rw [put_same]; exact hs, by rw [put_same]; exact hc⟩
    · cases h
    · cases h
    · cases h
  · intro xs ys hblk1 hxs hblk2 hys hw
    have h1 := Rep_of_elements _ xs hblk1 hxs
    have h2 := Rep_of_elements _ ys hblk2 hys
    obtain ⟨v1, r1, w1, he, hs, hc, _⟩ :=
      move_assign_body_ok (σ this) (σ rhs) xs ys w h1 h2 hw
    refine ⟨(σ.put this v1).put rhs r1, w1, ?_, ?_, ?_⟩
    · simp only [move_assign, if_pos hne, he]
    · rw [put_same]; exact hs
    · rw [put_same]; exact hc

/-- C8 on `dst == [1, 2]`, `src == [7, 8]`. -/
theorem C8_move_assign_empties_source_witness :
    (0 : Nat) ≠ 1 ∧ (sample_store 0).BlockOk ∧ (sample_store 0).elements = some [1, 2] ∧
    (sample_store 1).BlockOk ∧ (sample_store 1).elements = some [7, 8] ∧
    World.quiet.budget = none ∧
    ∃ σ1 w1, move_assign sample_store 0 1 World.quiet = .ok σ1 w1 ∧ (σ1 1).Size = 0 ∧
      (σ1 1).Capacity = 0 :=
  ⟨by decide, by decide, by decide, by decide, by decide, rfl,
    (C8_move_assign_empties_source sample_store 0 1 World.quiet (by decide)).2
      [1, 2] [7, 8] (by decide) (by decide) (by decide) (by decide) rfl⟩

/-- C9: move-constructing `dst` from `src` gives `dst` the storage block, the size and
the capacity of `src`, hence its contents, leaves `src` with `Size() == 0`,
`Capacity() == 0` and the null block of capacity 0, and runs no constructor,
assignment or destructor of an element. -/
theorem C9_move_construct_transfers {T : Type} (src : Vector T) (w : World) :
    (Vector.move_construct src w).1.1.elements = src.elements ∧
    (Vector.move_construct src w).1.1.Size = src.Size ∧
    (Vector.move_construct src w).1.1.Capacity = src.Capacity ∧
    (Vector.move_construct src w).1.1.data_ = src.data_ ∧
    (Vector.move_construct src w).1.2.Size = 0 ∧
    (Vector.move_construct src w).1.2.Capacity = 0 ∧
    (Vector.move_construct src w).1.2.data_ = RawMemory.empty T ∧
    (Vector.move_construct src w).2 = w := by
  have hdst : (Vector.move_construct src w).1.1 = src := rfl
  refine ⟨by rw [hdst], by rw [hdst], by rw [hdst], by rw [hdst], rfl, rfl, rfl, ?_⟩
  simp [Vector.move_construct, RawMemory.move_assign, RawMemory.empty, liveCount]

/-- C10: after `dst = src` on two distinct vectors, `dst` has the contents and the size
of `src`, `src` is as it was, and `dst.Capacity()` is what it was when `src.Size()`
fits in it (the storage is reused) and `src.Size()` otherwise (a fresh copy is swapped
in); `dst.Capacity()` was the capacity of its storage block. -/
theorem C10_copy_assign {T : Type} (σ : Store T) (this rhs : Nat) (xs ys : List T)
    (w : World) (hne : this ≠ rhs) (hblk1 : (σ this).BlockOk)
    (hcap1 : (σ this).CapacityOk) (hxs : (σ this).elements = some xs)
    (hblk2 : (σ rhs).BlockOk) (hys : (σ rhs).elements = some ys)
    (hw : w.budget = none) :
    ∃ σ1 w1, copy_assign σ this rhs w = .ok σ1 w1 ∧ (σ1 this).elements = some ys ∧
      (σ1 this).Size = ys.length ∧ σ1 rhs = σ rhs ∧
      (ys.length ≤ (σ this).Capacity → (σ1 this).Capacity = (σ this).Capacity) ∧
      ((σ this).Capacity < ys.length → (σ1 this).Capacity = ys.length) := by
  have h1 := Rep_of_elements _ xs hblk1 hxs
  have h2 := Rep_of_elements _ ys hblk2 hys
  have hcd : (σ this).capacity_ = (σ this).data_.capacity_ := hcap1
  obtain ⟨v1, w1, he, _, hrep, hcap⟩ := copy_assign_body_ok (σ this) (σ rhs) xs ys w h1 h2 hw
  obtain ⟨hel, hsz, _⟩ := elements_of_Rep v1 ys hrep
  refine ⟨σ.put this v1, w1, ?_, ?_, ?_, ?_, ?_, ?_⟩
  · simp only [copy_assign, if_pos hne, he]
  · rw [put_same]; exact hel
  · rw [put_same]; exact hsz
  · exact put_other σ this rhs v1 (Ne.symm hne)
  · intro hfit
    rw [put_same]
    show v1.capacity_ = (σ this).capacity_
    have hfit1 : ys.length ≤ (σ this).capacity_ := hfit
    rw [hcap, if_neg (by omega)]
  · intro hbig
    rw [put_same]
    show v1.capacity_ = ys.length
    have hbig1 : (σ this).capacity_ < ys.length := hbig
    rw [hcap, if_pos (by omega)]

/-- C10 on `dst == [10, 20, 30, 40, 50]`, `src == [7, 8]`. -/
theorem C10_copy_assign_witness :
    (0 : Nat) ≠ 1 ∧
    ((sample_store.put 0 sample_full) 0).BlockOk ∧
    ((sample_store.put 0 sample_full) 0).CapacityOk ∧
    ((sample_store.put 0 sample_full) 0).elements = some [10, 20, 30, 40, 50] ∧
    ((sample_store.put 0 sample_full) 1).BlockOk ∧
    ((sample_store.put 0 sample_full) 1).elements = some [7, 8] ∧
    ∃ σ1 w1, copy_assign (sample_store.put 0 sample_full) 0 1 World.quiet = .ok σ1 w1 ∧
      (σ1 0).elements = some [7, 8] ∧ (σ1 0).Size = [7, (8 : Int)].length ∧
      σ1 1 = (sample_store.put 0 sample_full) 1 ∧
      ([7, (8 : Int)].length ≤ ((sample_store.put 0 sample_full) 0).Capacity →
        (σ1 0).Capacity = ((sample_store.put 0 sample_full) 0).Capacity) ∧
      (((sample_store.put 0 sample_full) 0).Capacity < [7, (8 : Int)].length →
        (σ1 0).Capacity = [7, (8 : Int)].length) :=
  ⟨by decide, by decide, by decide, by decide, by decide, by decide,
    C10_copy_assign (sample_store.put 0 sample_full) 0 1 [10, 20, 30, 40, 50] [7, 8]
      World.quiet (by decide) (by decide) (by decide) (by decide) (by decide) (by decide)
      rfl⟩

/-! ## Scenarios, self-assignment and self-insertion -/

/-- C15: on a default-constructed `Vector<int>`, `PushBack(1)`, `PushBack(2)`,
`PushBack(3)` give size 3, capacity at least 3 and contents `[1,2,3]`; then
`Insert(begin()+1, 9)` gives `[1,9,2,3]`, `Erase(begin())` gives `[9,2,3]` and
`PopBack()` gives `[9,2]`. -/
theorem C15_concrete_scenario :
    ∃ v1 w1 v2 w2 v3 w3 v4 w4 v5 w5 v6 w6,
      (Vector.default Int).PushBack (.value 1) World.quiet = .ok v1 w1 ∧
      v1.PushBack (.value 2) w1 = .ok v2 w2 ∧
      v2.PushBack (.value 3) w2 = .ok v3 w3 ∧
      v3.Size = 3 ∧ 3 ≤ v3.Capacity ∧ v3.elements = some [1, 2, 3] ∧
      v3.Insert 1 (.value 9) w3 = .ok (v4, 1) w4 ∧ v4.elements = some [1, 9, 2, 3] ∧
      v4.Erase 0 w4 = .ok (v5, 0) w5 ∧ v5.elements = some [9, 2, 3] ∧
      v5.PopBack w5 = .ok v6 w6 ∧ v6.elements = some [9, 2] :=
  ⟨_, _, _, _, _, _, _, _, _, _, _, _, rfl, rfl, rfl, by decide, by decide, by decide,
    rfl, by decide, rfl, by decide, rfl, by decide⟩

/-- C16: the copy-assignment `v = v` and the move-assignment `v = std::move(v)` return
and leave every object, hence `v` with its `Size()`, `Capacity()` and contents, and
the counters of element operations (no destructor runs) exactly as they were. -/
theorem C16_self_assignment_identity {T : Type} [Element T] (σ : Store T) (a : Nat)
    (w : World) :
    copy_assign σ a a w = .ok σ w ∧ move_assign σ a a w = .ok σ w := by
  constructor
  · simp [copy_assign]
  · simp [move_assign]

/-- Inserting an element of the vector itself, on a vector with contents `xs` whose
`Capacity()` is the capacity of its block: `PushBack(v[j])` leaves `xs ++ [xs[j]]` and `Insert(begin()+i, v[j])` leaves
`take i xs ++ [xs[j]] ++ drop i xs`, where `xs[j]` is the value before the call; with
and without reallocation. -/
theorem own_element_in_block {T : Type} [Element T] (v : Vector T) (xs : List T)
    (i j : Nat) (w : World) (hblk : v.BlockOk) (hcap : v.CapacityOk)
    (hxs : v.elements = some xs) (hj : j < xs.length) (hi : i ≤ xs.length)
    (hw : w.budget = none) :
    (∃ v1 w1, v.PushBack (.element j) w = .ok v1 w1 ∧
      v1.elements = some (xs ++ [xs[j]]) ∧ v1.Size = xs.length + 1) ∧
    (∃ v1 w1, v.Insert i (.element j) w = .ok (v1, i) w1 ∧
      v1.elements = some (xs.take i ++ [xs[j]] ++ xs.drop i) ∧
      v1.Size = xs.length + 1 ∧ v1.get i = some xs[j]) := by
  have hrep := Rep_of_elements v xs hblk hxs
  have hread : (Arg.element j : Arg T).read v.data_ = some xs[j] := by
    simp only [Arg.read]
    apply live?_of_cell
    rw [hrep.2.2.2 j hj, List.getElem?_eq_getElem hj]
  constructor
  · obtain ⟨v1, w1, he, _, hrep1, _, _⟩ :=
      PushBack_ok v xs (.element j) xs[j] w hrep (room_of_CapacityOk hrep hcap) hread hw
    obtain ⟨hel, hsz, _⟩ := elements_of_Rep v1 _ hrep1
    exact ⟨v1, w1, he, hel, by simpa using hsz⟩
  · obtain ⟨v1, w1, he, _, hrep1, _, _⟩ :=
      Emplace_ok v xs i true (.element j) xs[j] w hrep hcap hi hread hw
    obtain ⟨hel, hsz, _⟩ := elements_of_Rep v1 _ hrep1
    have hlen := length_insert xs i xs[j] hi
    refine ⟨v1, w1, he, by simpa using hel, by rw [hsz, hlen], ?_⟩
    rw [get_of_Rep hrep1 i (by omega), getElem?_insert xs i xs[j] i hi, if_neg (by omega),
      if_pos rfl]

/-- The lemma `own_element_in_block` on `[10, 20, 30]` with two spare cells: pushing and inserting a copy of its
own element 2 at position 0, without reallocation. -/
theorem own_element_in_block_example :
    sample_spare.BlockOk ∧ sample_spare.CapacityOk ∧
    sample_spare.elements = some [10, 20, 30] ∧ World.quiet.budget = none ∧
    (∃ v1 w1, sample_spare.PushBack (.element 2) World.quiet = .ok v1 w1 ∧
      v1.elements = some ([10, 20, (30 : Int)] ++ [[10, 20, (30 : Int)][2]]) ∧
      v1.Size = [10, 20, (30 : Int)].length + 1) ∧
    (∃ v1 w1, sample_spare.Insert 0 (.element 2) World.quiet = .ok (v1, 0) w1 ∧
      v1.elements = some ([10, 20, (30 : Int)].take 0 ++ [[10, 20, (30 : Int)][2]] ++
        [10, 20, (30 : Int)].drop 0) ∧
      v1.Size = [10, 20, (30 : Int)].length + 1 ∧
      v1.get 0 = some [10, 20, (30 : Int)][2]) :=
  ⟨by decide, by decide, by decide, rfl,
    own_element_in_block sample_spare [10, 20, 30] 0 2 World.quiet (by decide)
      (by decide) (by decide) (by decide) (by decide) rfl⟩

/-! ## Resizing -/

theorem uninitialized_value_construct_n_ok {T : Type} [Element T] :
    ∀ (n : Nat) (buf : Block T) (first : Nat) (w : World),
    first + n ≤ buf.length → w.budget = none →
    ∃ buf1 w1, uninitialized_value_construct_n buf first n w = .ok buf1 w1 ∧
      w1.budget = none ∧ buf1.length = buf.length ∧
      ∀ i, buf1[i]? = if first ≤ i ∧ i < first + n then some (some Element.value_init)
                      else buf[i]? := by
  intro n
  induction n with
  | zero =>
    intro buf first w _ hb
    refine ⟨buf, w, rfl, hb, rfl, ?_⟩
    intro i
    rw [if_neg (by omega)]
  | succ n ih =>
    intro buf first w hlen hb
    obtain ⟨w1, hc, hb1⟩ :=
      construct_at_ok true buf first (Element.value_init : T) w (by omega) hb
    obtain ⟨buf2, w2, hl, hb2, hlen2, hcells⟩ :=
      ih (buf.set first (some Element.value_init)) (first + 1) w1 (by simp; omega) hb1
    refine ⟨buf2, w2, ?_, hb2, by simpa using hlen2, ?_⟩
    · simp only [uninitialized_value_construct_n, hc, hl]
    · intro i
      rw [hcells i]
      by_cases h1 : first + 1 ≤ i ∧ i < first + 1 + n
      · rw [if_pos h1, if_pos (by omega)]
      · rw [if_neg h1]
        by_cases h2 : i = first
        · subst h2
          rw [if_pos (by omega), List.getElem?_set, if_pos rfl, if_pos (by omega)]
        · rw [if_neg (by omega), List.getElem?_set_ne (by omega)]

theorem getElem?_append_replicate {T : Type} (xs : List T) (m : Nat) (d : T) (i : Nat) :
    (xs ++ List.replicate m d)[i]? =
      if i < xs.length then xs[i]? else if i < xs.length + m then some d else none := by
  rw [List.getElem?_append]
  split
  · rfl
  · rw [List.getElem?_replicate]
    split
    · rw [if_pos (by omega)]
    · rw [if_neg (by omega)]

theorem Resize_ok {T : Type} [Element T] (v : Vector T) (xs : List T) (k : Nat)
    (w : World) (h : v.Rep xs) (hc : v.CapacityOk) (hb : w.budget = none) :
    ∃ v1 w1, Vector.Resize v k w = .ok v1 w1 ∧ w1.budget = none ∧ v1.CapacityOk ∧
      v1.Rep (if k < xs.length then xs.take k
              else xs ++ List.replicate (k - xs.length) Element.value_init) ∧
      v1.capacity_ = (if k < xs.length then v.capacity_ else max v.capacity_ k) := by
  have hblk := h.1
  have hsz := h.2.1
  have hcap := h.2.2.1
  have hcell := h.2.2.2
  have hcd : v.capacity_ = v.data_.capacity_ := hc
  unfold Vector.Resize
  by_cases hk : k < xs.length
  · rw [if_pos (by omega), if_pos hk, if_pos hk]
    obtain ⟨b, w1, hd, hb1, hlen, hcells⟩ :=
      DestroyN_ok (v.size_ - k) v.data_.buffer_ k w (Rep_live h k (v.size_ - k) (by omega))
    refine ⟨{ v.withBuffer b with size_ := k }, w1, ?_, by rw [hb1, hb], hc, ?_, rfl⟩
    · simp only [hd]
    · refine ⟨?_, ?_, ?_, ?_⟩
      · simp only [Vector.withBuffer, hlen]; exact hblk
      · simp only [List.length_take]; omega
      · simp only [List.length_take, Vector.withBuffer]; omega
      · intro i hi
        simp only [List.length_take] at hi
        simp only [Vector.withBuffer]
        rw [hcells i (by omega), hcell i (by omega), List.getElem?_take_of_lt (by omega)]
  · rw [if_neg (by omega), if_neg hk, if_neg hk]
    obtain ⟨v1, w1, hr, hb1, hrep1, hcap1, hnoop, hgrow⟩ :=
      Reserve_ok v xs k w h (by omega) hb
    have hsz1 := hrep1.2.1
    have hdc1 : v1.capacity_ = v1.data_.capacity_ := by
      by_cases hle : k ≤ v.capacity_
      · rw [(hnoop hle).1]; exact hcd
      · rw [hgrow (by omega), hcap1]; omega
    have hroom : k ≤ v1.data_.capacity_ := by
      rw [← hdc1, hcap1]; exact Nat.le_max_right _ _
    obtain ⟨b, w2, hu, hb2, hlen, hcells⟩ :=
      uninitialized_value_construct_n_ok (k - v1.size_) v1.data_.buffer_ v1.size_ w1
        (by rw [hrep1.1]; omega) hb1
    refine ⟨{ v1.withBuffer b with size_ := k }, w2, ?_, hb2, hdc1, ?_, hcap1⟩
    · simp only [hr, hu]
    · refine ⟨?_, ?_, ?_, ?_⟩
      · simp only [Vector.withBuffer, hlen]; exact hrep1.1
      · simp only [List.length_append, List.length_replicate]; omega
      · simp only [List.length_append, List.length_replicate, Vector.withBuffer]; omega
      · intro i hi
        simp only [List.length_append, List.length_replicate] at hi
        simp only [Vector.withBuffer]
        rw [hcells i, getElem?_append_replicate]
        by_cases hlow : i < xs.length
        · rw [if_neg (by omega), if_pos hlow, hrep1.2.2.2 i hlow]
        · rw [if_pos (by omega), if_neg hlow, if_pos (by omega)]


/-- Resizing a vector whose `Capacity()` is the capacity of its block: on a vector
with contents `xs`, size `n` and capacity `c`, the allocation of `k` cells being
taken to succeed, `Resize(k)` with `k < n` leaves the first `k` elements, `Size() == k` and
`Capacity() == c`; with `k >= n` it leaves `xs` followed by `k-n` value-initialised
elements, `Size() == k` and `Capacity() == max(c, k)`.  So `Resize(0)` on a non-empty
vector gives size 0 and the same capacity, and `Resize(3)` after it gives exactly
three value-initialised elements. -/
theorem resize_in_block {T : Type} [Element T] (v : Vector T) (xs : List T) (k : Nat)
    (w : World) (hblk : v.BlockOk) (hcap : v.CapacityOk) (hxs : v.elements = some xs)
    (hw : w.budget = none) :
    (∃ v1 w1, v.Resize k w = .ok v1 w1 ∧
      (k < xs.length →
        v1.elements = some (xs.take k) ∧ v1.Size = k ∧ v1.Capacity = v.Capacity) ∧
      (xs.length ≤ k →
        v1.elements = some (xs ++ List.replicate (k - xs.length) Element.value_init) ∧
        v1.Size = k ∧ v1.Capacity = max v.Capacity k)) ∧
    (xs ≠ [] → ∃ v1 w1 v2 w2, v.Resize 0 w = .ok v1 w1 ∧ v1.Size = 0 ∧
      v1.Capacity = v.Capacity ∧ v1.Resize 3 w1 = .ok v2 w2 ∧ v2.Size = 3 ∧
      v2.elements = some [Element.value_init, Element.value_init, Element.value_init]) := by
  have hrep := Rep_of_elements v xs hblk hxs
  constructor
  · obtain ⟨v1, w1, he, _, _, hrep1, hcap1⟩ := Resize_ok v xs k w hrep hcap hw
    refine ⟨v1, w1, he, ?_, ?_⟩
    · intro hk
      rw [if_pos hk] at hrep1 hcap1
      obtain ⟨hel, hsz, _⟩ := elements_of_Rep v1 _ hrep1
      refine ⟨hel, ?_, hcap1⟩
      rw [hsz, List.length_take]; omega
    · intro hk
      rw [if_neg (by omega)] at hrep1 hcap1
      obtain ⟨hel, hsz, _⟩ := elements_of_Rep v1 _ hrep1
      refine ⟨hel, ?_, hcap1⟩
      rw [hsz, List.length_append, List.length_replicate]; omega
  · intro hne
    have hpos : 0 < xs.length := List.length_pos.mpr hne
    obtain ⟨v1, w1, he1, hb1, hc1, hrep1, hcap1⟩ := Resize_ok v xs 0 w hrep hcap hw
    rw [if_pos hpos] at hrep1 hcap1
    rw [List.take_zero] at hrep1
    obtain ⟨v2, w2, he2, _, _, hrep2, _⟩ := Resize_ok v1 [] 3 w1 hrep1 hc1 hb1
    rw [if_neg (by simp)] at hrep2
    obtain ⟨hel2, hsz2, _⟩ := elements_of_Rep v2 _ hrep2
    refine ⟨v1, w1, v2, w2, he1, hrep1.2.1, hcap1, he2, ?_, ?_⟩
    · rw [hsz2]; simp
    · rw [hel2]; simp [List.replicate]

/-- The lemma `resize_in_block` on `[10, 20, 30]` with capacity 5, resized to 7. -/
theorem resize_in_block_example :
    sample_spare.BlockOk ∧ sample_spare.CapacityOk ∧
    sample_spare.elements = some [10, 20, 30] ∧ World.quiet.budget = none ∧
    ((∃ v1 w1, sample_spare.Resize 7 World.quiet = .ok v1 w1 ∧
      (7 < [10, 20, (30 : Int)].length →
        v1.elements = some ([10, 20, (30 : Int)].take 7) ∧ v1.Size = 7 ∧
        v1.Capacity = sample_spare.Capacity) ∧
      ([10, 20, (30 : Int)].length ≤ 7 →
        v1.elements = some ([10, 20, (30 : Int)] ++
          List.replicate (7 - [10, 20, (30 : Int)].length) Element.value_init) ∧
        v1.Size = 7 ∧ v1.Capacity = max sample_spare.Capacity 7)) ∧
    ([10, 20, (30 : Int)] ≠ [] → ∃ v1 w1 v2 w2, sample_spare.Resize 0 World.quiet = .ok v1 w1 ∧
      v1.Size = 0 ∧ v1.Capacity = sample_spare.Capacity ∧ v1.Resize 3 w1 = .ok v2 w2 ∧
      v2.Size = 3 ∧
      v2.elements = some [Element.value_init, Element.value_init, Element.value_init])) :=
  ⟨by decide, by decide, by decide, rfl,
    resize_in_block sample_spare [10, 20, 30] 7 World.quiet (by decide) (by decide) (by decide)
      rfl⟩

/-! ## Copy construction -/

theorem read_write_ne {T : Type} (h : FreeStore T) (p : Option Nat) (b : Block T) (a : Nat)
    (hne : p ≠ some a) : (h.write p b).read (some a) = h.read (some a) := by
  cases p with
  | none => rfl
  | some c =>
    have hca : c ≠ a := fun e => hne (by rw [e])
    simp only [FreeStore.write, FreeStore.read, List.getElem?_set_ne hca]

theorem read_write_self {T : Type} (h : FreeStore T) (a : Nat) (b : Block T)
    (ha : a < h.blocks.length) : (h.write (some a) b).read (some a) = b := by
  simp only [FreeStore.write, FreeStore.read, List.getElem?_set_self ha, Option.getD_some]

theorem length_write {T : Type} (h : FreeStore T) (p : Option Nat) (b : Block T) :
    (h.write p b).blocks.length = h.blocks.length := by
  cases p with
  | none => rfl
  | some c => simp only [FreeStore.write, List.length_set]

theorem deref_of_write {T : Type} (h : FreeStore T) (p : Option Nat) (v : Vector T)
    (hp : ∀ a, p = some a → a < h.blocks.length) (hnull : p = none → v.data_.buffer_ = []) :
    (Object.of p v).deref (h.write p v.data_.buffer_) = v := by
  obtain ⟨⟨b, c⟩, c1, s⟩ := v
  cases p with
  | none =>
    have hb : b = [] := hnull rfl
    simp only [Object.deref, Object.of, FreeStore.read, hb]
  | some a =>
    simp only [Object.deref, Object.of, read_write_self h a b (hp a rfl)]

theorem in_place_deref {T : Type} (f : Vector T → World → Outcome (Vector T) (Vector T))
    (o : Object) (h : FreeStore T) (w : World) (r : Object × FreeStore T) (w1 : World)
    (ho : o.allocated h) :
    (Object.in_place f o h w = .ok r w1 →
      f (o.deref h) w = .ok (r.1.deref r.2) w1 ∧ r.1.allocated r.2) ∧
    (Object.in_place f o h w = .thrown r w1 →
      f (o.deref h) w = .thrown (r.1.deref r.2) w1 ∧ r.1.allocated r.2) := by
  obtain ⟨a, ha, hlt⟩ := ho
  have hd : ∀ v : Vector T,
      (Object.of o.buffer_ v).deref (h.write o.buffer_ v.data_.buffer_) = v := by
    intro v
    apply deref_of_write
    · intro c hc
      rw [ha] at hc
      cases hc
      exact hlt
    · intro hc
      rw [ha] at hc
      cases hc
  have hv : ∀ v : Vector T,
      (Object.of o.buffer_ v).allocated (h.write o.buffer_ v.data_.buffer_) := by
    intro v
    exact ⟨a, ha, by rw [length_write]; exact hlt⟩
  unfold Object.in_place
  constructor
  · intro hr
    split at hr
    · rename_i v w2 heq
      cases hr
      exact ⟨by rw [hd v]; exact heq, hv v⟩
    · cases hr
    · cases hr
    · cases hr
  · intro hr
    split at hr
    · cases hr
    · rename_i v w2 heq
      cases hr
      exact ⟨by rw [hd v]; exact heq, hv v⟩
    · cases hr
    · cases hr

theorem reallocating_deref {T : Type} (n : Nat)
    (f : Vector T → World → Outcome (Vector T) (Vector T))
    (o : Object) (h : FreeStore T) (w : World) (r : Object × FreeStore T) (w1 : World)
    (hn : n ≠ 0) (ho : o.allocated h) :
    (Object.reallocating n f o h w = .ok r w1 →
      f (o.deref h) w = .ok (r.1.deref r.2) w1 ∧ r.1.allocated r.2 ∧
      r.2.read o.buffer_ = []) ∧
    (Object.reallocating n f o h w = .thrown r w1 →
      f (o.deref h) w = .thrown (r.1.deref r.2) w1 ∧ r.1.allocated r.2) := by
  obtain ⟨a, ha, hlt⟩ := ho
  unfold Object.reallocating
  constructor
  · intro hr
    split at hr
    · rename_i v w2 heq
      cases hr
      have hal : h.Allocate n =
          (some h.blocks.length, { blocks := h.blocks ++ [Allocate T n] }) := by
        simp only [FreeStore.Allocate, if_pos hn]
      have hne : o.buffer_ ≠ some h.blocks.length := by
        rw [ha]
        intro e
        cases e
        omega
      obtain ⟨⟨b, c⟩, c1, s⟩ := v
      refine ⟨?_, ?_, ?_⟩
      · rw [heq]
        simp only [hal, Object.deref, Object.of, FreeStore.Deallocate]
        rw [read_write_ne _ _ _ _ hne, read_write_self _ _ _ (by simp)]
      · refine ⟨h.blocks.length, ?_, ?_⟩
        · simp only [hal, Object.of]
        · simp only [hal, FreeStore.Deallocate, length_write, List.length_append,
            List.length_cons, List.length_nil]
          omega
      · simp only [hal, FreeStore.Deallocate, ha]
        apply read_write_self
        rw [length_write]
        simp only [List.length_append, List.length_cons, List.length_nil]
        omega
    · cases hr
    · cases hr
    · cases hr
  · intro hr
    split at hr
    · cases hr
    · rename_i v w2 heq
      cases hr
      refine ⟨?_, ⟨a, ha, by rw [length_write]; exact hlt⟩⟩
      rw [heq]
      congr 1
      symm
      apply deref_of_write
      · intro c hc
        rw [ha] at hc
        cases hc
        exact hlt
      · intro hc
        rw [ha] at hc
        cases hc
    · cases hr
    · cases hr

theorem Reserve_deref {T : Type} [Element T] (o : Object) (k : Nat) (h : FreeStore T)
    (w : World) (r : Object × FreeStore T) (w1 : World) (ho : o.allocated h) :
    (o.Reserve k h w = .ok r w1 →
      (o.deref h).Reserve k w = .ok (r.1.deref r.2) w1 ∧ r.1.allocated r.2) ∧
    (o.Reserve k h w = .thrown r w1 →
      (o.deref h).Reserve k w = .thrown (r.1.deref r.2) w1 ∧ r.1.allocated r.2) := by
  unfold Object.Reserve
  by_cases hk : k ≤ o.capacity_
  · simp only [if_pos hk]
    exact in_place_deref _ o h w r w1 ho
  · simp only [if_neg hk]
    have hn : k ≠ 0 := by omega
    obtain ⟨h1, h2⟩ := reallocating_deref k (fun v w1 => v.Reserve k w1) o h w r w1 hn ho
    exact ⟨fun hr => ⟨(h1 hr).1, (h1 hr).2.1⟩, h2⟩

theorem Reserve_counters {T : Type} [Element T] (v v1 : Vector T) (k : Nat) (w w1 : World)
    (h : v.Reserve k w = .ok v1 w1) : v1.size_ = v.size_ ∧ k ≤ v1.capacity_ := by
  unfold Vector.Reserve at h
  split at h
  · cases h
    rename_i hk
    exact ⟨rfl, hk⟩
  · dsimp only at h
    split at h
    · split at h
      · cases h
        exact ⟨rfl, Nat.le_refl _⟩
      · cases h
    · cases h
    · cases h
    · cases h

/-- The growing branch of `Resize(k)` calls `Reserve(k)` (line 249); running the rest
of `Resize(k)` on the vector `Reserve(k)` returns is running `Resize(k)`. -/
theorem Resize_after_Reserve {T : Type} [Element T] (v : Vector T) (k : Nat) (w : World)
    (hk : ¬ k < v.size_) :
    v.Resize k w =
      match v.Reserve k w with
      | .ok v1 w1 => v1.Resize k w1
      | .thrown v1 w1 => .thrown v1 w1
      | .undefined => .undefined
      | .terminated => .terminated := by
  cases hres : v.Reserve k w with
  | ok v1 w1 =>
    obtain ⟨hs, hc⟩ := Reserve_counters v v1 k w w1 hres
    have h1 : v1.Reserve k w1 = .ok v1 w1 := by
      simp only [Vector.Reserve, if_pos hc]
    have hk1 : ¬ k < v1.size_ := by rw [hs]; exact hk
    simp only [Vector.Resize, if_neg hk, if_neg hk1, hres, h1]
  | thrown v1 w1 => simp only [Vector.Resize, if_neg hk, hres]
  | undefined => simp only [Vector.Resize, if_neg hk, hres]
  | terminated => simp only [Vector.Resize, if_neg hk, hres]

/-- A mutation of an object that has a block does to the vector the object is what
the member function does to a `Vector`: the object after the call is the vector that
`Mutation.onVector` returns, or leaves when it throws. -/
theorem onObject_deref {T : Type} [Element T] (m : Mutation T) (o : Object)
    (h : FreeStore T) (w : World) (r : Object × FreeStore T) (w1 : World)
    (ho : o.allocated h) :
    (m.onObject o h w = .ok r w1 →
      m.onVector (o.deref h) w = .ok (r.1.deref r.2) w1 ∧ r.1.allocated r.2) ∧
    (m.onObject o h w = .thrown r w1 →
      m.onVector (o.deref h) w = .thrown (r.1.deref r.2) w1 ∧ r.1.allocated r.2) := by
  have hgrow : (if o.size_ = 0 then 1 else o.size_ * 2) ≠ 0 := by
    split <;> omega
  cases m with
  | op p =>
    cases p with
    | pushBack x =>
      simp only [Mutation.onObject, Object.PushBack, Mutation.onVector, Op.onVector]
      by_cases hfull : o.size_ = o.capacity_
      · simp only [if_pos hfull]
        obtain ⟨h1, h2⟩ := reallocating_deref _ (fun v w1 => v.PushBack (.value x) w1)
          o h w r w1 hgrow ho
        exact ⟨fun hr => ⟨(h1 hr).1, (h1 hr).2.1⟩, h2⟩
      · simp only [if_neg hfull]
        exact in_place_deref (fun v w1 => v.PushBack (.value x) w1) o h w r w1 ho
    | insert i x =>
      simp only [Mutation.onObject, Object.Insert, Mutation.onVector]
      by_cases hfull : o.size_ = o.capacity_
      · simp only [if_pos hfull]
        obtain ⟨h1, h2⟩ := reallocating_deref _
          (fun v w1 => Op.onVector v w1 (.insert i x)) o h w r w1 hgrow ho
        exact ⟨fun hr => ⟨(h1 hr).1, (h1 hr).2.1⟩, h2⟩
      · simp only [if_neg hfull]
        exact in_place_deref (fun v w1 => Op.onVector v w1 (.insert i x)) o h w r w1 ho
    | erase i =>
      simp only [Mutation.onObject, Object.Erase, Mutation.onVector]
      exact in_place_deref (fun v w1 => Op.onVector v w1 (.erase i)) o h w r w1 ho
    | popBack =>
      simp only [Mutation.onObject, Object.PopBack, Mutation.onVector, Op.onVector]
      exact in_place_deref (fun v w1 => v.PopBack w1) o h w r w1 ho
  | resize k =>
    simp only [Mutation.onObject, Object.Resize, Mutation.onVector]
    by_cases hk : k < o.size_
    · simp only [if_pos hk]
      exact in_place_deref (fun v w1 => v.Resize k w1) o h w r w1 ho
    · simp only [if_neg hk]
      have hra := Resize_after_Reserve (o.deref h) k w hk
      cases hres : o.Reserve k h w with
      | ok r1 w2 =>
        obtain ⟨hv, ho1⟩ := (Reserve_deref o k h w r1 w2 ho).1 hres
        rw [hv] at hra
        simp only at hra
        rw [hra]
        exact in_place_deref (fun v w1 => v.Resize k w1) r1.1 r1.2 w2 r w1 ho1
      | thrown r1 w2 =>
        obtain ⟨hv, ho1⟩ := (Reserve_deref o k h w r1 w2 ho).2 hres
        rw [hv] at hra
        simp only at hra
        rw [hra]
        constructor
        · intro hr; cases hr
        · intro hr
          cases hr
          exact ⟨rfl, ho1⟩
      | undefined =>
        constructor <;> (intro hr; cases hr)
      | terminated =>
        constructor <;> (intro hr; cases hr)
  | overwrite i x =>
    simp only [Mutation.onObject, Object.overwrite, Mutation.onVector]
    exact in_place_deref (fun v w1 => v.overwrite i x w1) o h w r w1 ho

/-- Two objects that have the same block are not independent: with a second object
that has the address of the block of `sample_object` (what a member-wise copy would
give), `PopBack()` and `v[0] = 99` on that object change the contents of
`sample_object`, and a `Resize(6)` gives its block back. -/
theorem shared_block_is_not_independent :
    (∃ r w1, mutate_all [.op .popBack, .overwrite 0 99] sample_object sample_free_store
        World.quiet = some (r, w1) ∧
      (sample_object.deref sample_free_store).elements = some [10, 20, 30] ∧
      (sample_object.deref r.2).elements = none ∧
      (sample_object.deref r.2).get 0 = some 99) ∧
    (∃ r w1, mutate_all [.resize 6] sample_object sample_free_store World.quiet =
        some (r, w1) ∧
      (r.1.deref r.2).elements = some [10, 20, 30, 0, 0, 0] ∧
      (sample_object.deref r.2).elements = none ∧
      (sample_object.deref r.2).data_.buffer_ = []) :=
  ⟨⟨_, _, rfl, by decide, by decide, by decide⟩, ⟨_, _, rfl, by decide, by decide, by decide⟩⟩

/-! ## A throwing copy during reallocation -/

theorem construct_at_budget {T : Type} (f : Bool) (buf : Block T) (i : Nat) (x : T)
    (w : World) (j : Nat) (hi : i < buf.length)
    (hb : w.budget = some (j + (if f then 1 else 0))) :
    ∃ w1, construct_at f buf i x w = .ok (buf.set i (some x)) w1 ∧ w1.budget = some j := by
  unfold construct_at
  rw [List.getElem?_eq_getElem hi]
  cases f with
  | false =>
    simp only [World.charge, Bool.false_eq_true, if_false]
    exact ⟨_, rfl, by simpa using hb⟩
  | true =>
    simp only [World.charge, if_true, hb]
    exact ⟨_, rfl, rfl⟩

theorem construct_at_throws {T : Type} (buf : Block T) (i : Nat) (x : T) (w : World)
    (hi : i < buf.length) (hb : w.budget = some 0) :
    construct_at true buf i x w = .thrown buf w.fired := by
  unfold construct_at
  rw [List.getElem?_eq_getElem hi]
  simp only [World.charge, if_true, hb]

theorem uninitialized_copy_n_throws {T : Type} (src : Block T) :
    ∀ (n first : Nat) (dst : Block T) (d : Nat) (w : World) (j : Nat),
    (∀ k, k < n → ∃ x, src[first + k]? = some (some x)) →
    d + n ≤ dst.length → w.budget = some j → j < n →
    ∃ dst1 w1, uninitialized_copy_n src first n dst d w = .thrown dst1 w1 ∧
      dst1.length = dst.length ∧ ∀ i, i < d → dst1[i]? = dst[i]? := by
  intro n
  induction n with
  | zero => intro first dst d w j _ _ _ hj; omega
  | succ n ih =>
    intro first dst d w j h hd hb hj
    obtain ⟨x, hx⟩ := h 0 (by omega)
    have hx0 : src[first]? = some (some x) := by simpa using hx
    cases j with
    | zero =>
      refine ⟨dst, w.fired, ?_, rfl, fun _ _ => rfl⟩
      simp only [uninitialized_copy_n, live?_of_cell hx0,
        construct_at_throws dst d x w (by omega) hb]
    | succ j =>
      obtain ⟨w1, hc, hb1⟩ := construct_at_budget true dst d x w j (by omega)
        (by simpa using hb)
      have hlive : ∀ k, k < n → ∃ y, src[first + 1 + k]? = some (some y) := by
        intro k hk
        obtain ⟨y, hy⟩ := h (k + 1) (by omega)
        exact ⟨y, by rw [← hy]; exact cell_congr (by omega)⟩
      obtain ⟨dst2, w2, hl, hlen, hlow⟩ :=
        ih (first + 1) (dst.set d (some x)) (d + 1) w1 j hlive (by simp; omega) hb1
          (by omega)
      have hcell : dst2[d]? = some (some x) := by
        rw [hlow d (by omega), List.getElem?_set, if_pos rfl, if_pos (by omega)]
      obtain ⟨w3, hdes, _⟩ := Destroy_ok dst2 d x w2 hcell
      refine ⟨dst2.set d none, w3, ?_, by simpa using hlen, ?_⟩
      · simp only [uninitialized_copy_n, live?_of_cell hx0, hc, hl, unwind_destroy, hdes]
      · intro i hi
        rw [List.getElem?_set_ne (by omega), hlow i (by omega),
          List.getElem?_set_ne (by omega)]

theorem transfer_n_throws {T : Type} [Element T] (n : Nat) (src : Block T) (first : Nat)
    (dst : Block T) (d : Nat) (w : World) (j : Nat) (hmb : move_branch T = false)
    (h : ∀ k, k < n → ∃ x, src[first + k]? = some (some x))
    (hd : d + n ≤ dst.length) (hb : w.budget = some j) (hj : j < n) :
    ∃ dst1 w1, transfer_n src first n dst d w = .thrown (src, dst1) w1 := by
  obtain ⟨dst1, w1, hl, _, _⟩ := uninitialized_copy_n_throws src n first dst d w j h hd hb hj
  refine ⟨dst1, w1, ?_⟩
  simp only [transfer_n, hmb, Bool.false_eq_true, if_false, hl]

theorem withBuffer_self {T : Type} (v : Vector T) : v.withBuffer v.data_.buffer_ = v := rfl

theorem grow_back_throws {T : Type} [Element T] (v : Vector T) (xs : List T) (f : Bool)
    (x : T) (w : World) (j : Nat) (hmb : move_branch T = false) (h : v.Rep xs)
    (hj : j < xs.length) (hb : w.budget = some (j + (if f then 1 else 0))) :
    ∃ w1, Vector.grow_back v f x w = .thrown v w1 := by
  obtain ⟨hblk, hsz, hcap, hcell⟩ := h
  have hnc : v.size_ < (if v.size_ = 0 then 1 else v.size_ * 2) := by
    split <;> omega
  unfold Vector.grow_back
  generalize (if v.size_ = 0 then 1 else v.size_ * 2) = nc at hnc ⊢
  have hal := Allocate_length T nc
  obtain ⟨w1, hc, hb1⟩ := construct_at_budget f (Allocate T nc) v.size_ x w j (by omega) hb
  obtain ⟨nb1, w2, ht⟩ :=
    transfer_n_throws v.size_ v.data_.buffer_ 0 ((Allocate T nc).set v.size_ (some x)) 0 w1 j
      hmb (Rep_live ⟨hblk, hsz, hcap, hcell⟩ 0 v.size_ (by omega)) (by simp; omega) hb1
      (by omega)
  refine ⟨Deallocate nb1 w2, ?_⟩
  simp only [RawMemory.alloc, RawMemory.plus, if_pos (Nat.le_of_lt hnc), hc, ht,
    withBuffer_self]

/-- A failing copy during reallocation, on a vector whose size does not exceed its
capacity: for an element type in the copy branch (copyable, move constructor may
throw), on a vector with contents `xs`: if the copy of the existing element `j`
fails, `Reserve(n)` with `n > Capacity()` (on a vector with `Size() <= Capacity()`,
the allocation of `n` cells being taken to succeed) and, on a full vector, both `PushBack`
overloads and `EmplaceBack` propagate the failure and leave the vector with the
`Size()`, `Capacity()` and cells it had.  (For the appending calls the new element is
built first, so its constructor and `j` copies succeed before the failure.)  The
transfer is `std::uninitialized_copy_n`: when it returns, the source cells are as they
were. -/
theorem copy_failure_keeps_vector {T : Type} [Element T] (v : Vector T)
    (xs : List T) (n j : Nat) (x : T) (wr wp : World) (hmb : move_branch T = false)
    (hblk : v.BlockOk) (hxs : v.elements = some xs) (hj : j < xs.length) :
    (v.Size ≤ v.Capacity → v.Capacity < n → wr.budget = some j →
      ∃ w1, v.Reserve n wr = .thrown v w1) ∧
    (v.Size = v.Capacity → wp.budget = some (j + 1) →
      (∃ w1, v.PushBack (.value x) wp = .thrown v w1) ∧
      (∃ w1, v.PushBackMove x wp = .thrown v w1) ∧
      (∃ w1, v.EmplaceBack true (.value x) wp = .thrown v w1)) ∧
    (∀ (src dst : Block T) (first m d : Nat) (w0 w1 : World) (r : Block T × Block T),
      transfer_n src first m dst d w0 = .ok r w1 →
      r.1 = src ∧ uninitialized_copy_n src first m dst d w0 = .ok r.2 w1) := by
  have hrep := Rep_of_elements v xs hblk hxs
  have hsz := hrep.2.1
  have hnm : Element.nothrow_move T = false := by
    have := hmb
    simp only [move_branch, Bool.or_eq_false_iff] at this
    exact this.1
  constructor
  · intro hle hn hb
    have hle1 : v.size_ ≤ v.capacity_ := hle
    have hn1 : v.capacity_ < n := hn
    have hal := Allocate_length T n
    obtain ⟨nb, w1, ht⟩ :=
      transfer_n_throws v.size_ v.data_.buffer_ 0 (Allocate T n) 0 wr j hmb
        (Rep_live hrep 0 v.size_ (by omega)) (by omega) hb (by omega)
    refine ⟨Deallocate nb w1, ?_⟩
    simp only [Vector.Reserve, if_neg (show ¬ n ≤ v.capacity_ by omega), RawMemory.alloc, ht,
      withBuffer_self]
  constructor
  · intro hfull hb
    have hfull1 : v.size_ = v.Capacity := hfull
    obtain ⟨w1, h1⟩ := grow_back_throws v xs true x wp j hmb hrep hj (by simpa using hb)
    refine ⟨⟨w1, ?_⟩, ⟨w1, ?_⟩, ⟨w1, ?_⟩⟩
    · simp only [Vector.PushBack, Arg.read, if_pos hfull1, h1]
    · simp only [Vector.PushBackMove, if_pos hfull1, hnm, Bool.not_false, h1]
    · simp only [Vector.EmplaceBack, Arg.read, if_pos hfull1, h1]
  · intro src dst first m d w0 w1 r ht
    simp only [transfer_n, hmb, Bool.false_eq_true, if_false] at ht
    split at ht
    · rename_i dst1 w2 heq
      cases ht
      exact ⟨rfl, heq⟩
    · cases ht
    · cases ht
    · cases ht


/-- The lemma `copy_failure_keeps_vector` on the full `Fragile` vector `[1, 2]`: the copy
of element 1 fails. -/
theorem copy_failure_keeps_vector_example :
    move_branch Fragile = false ∧ sample_fragile.BlockOk ∧
    sample_fragile.elements = some [{ val := 1 }, { val := 2 }] ∧
    sample_fragile.Size ≤ sample_fragile.Capacity ∧ sample_fragile.Capacity < 5 ∧
    (World.failing 1).budget = some 1 ∧ sample_fragile.Size = sample_fragile.Capacity ∧
    (World.failing 2).budget = some (1 + 1) ∧
    (∃ w1, sample_fragile.Reserve 5 (World.failing 1) = .thrown sample_fragile w1) ∧
    (∃ w1, sample_fragile.PushBack (.value { val := 3 }) (World.failing 2) =
      .thrown sample_fragile w1) ∧
    (∃ w1, sample_fragile.PushBackMove { val := 3 } (World.failing 2) =
      .thrown sample_fragile w1) ∧
    (∃ w1, sample_fragile.EmplaceBack true (.value { val := 3 }) (World.failing 2) =
      .thrown sample_fragile w1) :=
  ⟨by decide, by decide, by decide, by decide, by decide, rfl, by decide, rfl,
    (copy_failure_keeps_vector sample_fragile [{ val := 1 }, { val := 2 }] 5 1
      { val := 3 } (World.failing 1) (World.failing 2) (by decide) (by decide) (by decide)
      (by decide)).1 (by decide) (by decide) rfl,
    (copy_failure_keeps_vector sample_fragile [{ val := 1 }, { val := 2 }] 5 1
      { val := 3 } (World.failing 1) (World.failing 2) (by decide) (by decide) (by decide)
      (by decide)).2.1 (by decide) rfl⟩

/-- C13 (what the code does): on the full `Fragile` vector `[1, 2]`,
`Insert(begin()+1, 3)` reallocates.  When the copy of the left range fails, the
exception propagates with element 1 of the vector destroyed (`Size()` is still 2) and
the new element lost alive in the deallocated block; when the copy of the right range
fails, element 0 of the vector is destroyed and two live objects are lost in the new
block.  The handlers (lines 452-455 and 461-464) destroy cells of `data_`, not of
`new_data`. -/
theorem C13_emplace_failure_destroys_old_elements :
    sample_fragile.Size = sample_fragile.Capacity ∧
    sample_fragile.elements = some [{ val := 1 }, { val := 2 }] ∧
    (∃ v1 w1, sample_fragile.Insert 1 (.value { val := 3 }) (World.failing 1) =
        .thrown v1 w1 ∧
      v1.Size = 2 ∧ v1.data_.buffer_ = [some { val := 1 }, none] ∧ v1.get 1 = none ∧
      v1.elements = none ∧ w1.destructions = 1 ∧ w1.leaked = 1) ∧
    (∃ v1 w1, sample_fragile.Insert 1 (.value { val := 3 }) (World.failing 2) =
        .thrown v1 w1 ∧
      v1.Size = 2 ∧ v1.data_.buffer_ = [none, some { val := 2 }] ∧ v1.get 0 = none ∧
      v1.elements = none ∧ w1.leaked = 2) :=
  ⟨by decide, by decide, ⟨_, _, rfl, by decide, by decide, by decide, by decide, by decide,
    by decide⟩, ⟨_, _, rfl, by decide, by decide, by decide, by decide, by decide⟩⟩

/-! ## Reachable states after a move assignment -/

/-- C17 (what the code does): `dst.Reserve(2)`; `src.Reserve(8)`, `src.PushBack(7)`,
`src.PushBack(8)`; `dst = std::move(src)` takes the branch of lines 217-221 and leaves
`dst` with contents `[7, 8]`, `Capacity() == 8` and its own block of 2 cells.  The
next `dst.PushBack(9)` does not reallocate (`Size() != Capacity()`): its placement
`new (data_ + size_)` passes the `assert` of `operator+` and addresses cell 2 of the
2-cell block, which the embedding reports as undefined behaviour. -/
theorem C17_push_back_outside_block_after_move_assign :
    ∃ dst w1 s1 w2 s2 w3 src w4 σ1 w5,
      (Vector.default Int).Reserve 2 World.quiet = .ok dst w1 ∧
      (Vector.default Int).Reserve 8 w1 = .ok s1 w2 ∧
      s1.PushBack (.value 7) w2 = .ok s2 w3 ∧ s2.PushBack (.value 8) w3 = .ok src w4 ∧
      move_assign (two_objects dst src) 0 1 w4 = .ok σ1 w5 ∧
      (σ1 0).elements = some [7, 8] ∧ (σ1 0).Size = 2 ∧ (σ1 0).Capacity = 8 ∧
      (σ1 0).data_.Capacity = 2 ∧ (σ1 0).data_.buffer_.length = 2 ∧
      (σ1 0).Size ≠ (σ1 0).Capacity ∧ (σ1 0).data_.plus (σ1 0).Size = some 2 ∧
      (σ1 0).PushBack (.value 9) w5 = .undefined ∧
      (σ1 0).Resize 3 w5 = .undefined :=
  ⟨_, _, _, _, _, _, _, _, _, _, rfl, rfl, rfl, rfl, rfl, by decide, by decide, by decide,
    by decide, by decide, by decide, by decide, by decide, by decide⟩

/-- C18 (what the code does): with `dst == [1, 2]` (capacity 2) and `src == [7, 8, 9]`
built by `PushBack`, both satisfying the liveness invariant, `dst = std::move(src)`
swaps the blocks and sets `src.size_ = 0`: `src` then owns the block whose cells 0 and
1 still hold the live `1` and `2` while `Size() == 0`, and no destructor has run.
With `dst == [1, 2]` in a block of 4 cells the branch of lines 217-221 constructs
`9` over the live cell 0 and leaves `Size() == 3` with cell 2 holding no object. -/
theorem C18_move_assign_breaks_liveness :
    (∃ d1 w1 dst w2 s1 w3 s2 w4 src w5 σ1 w6,
      (Vector.default Int).PushBack (.value 1) World.quiet = .ok d1 w1 ∧
      d1.PushBack (.value 2) w1 = .ok dst w2 ∧
      (Vector.default Int).PushBack (.value 7) w2 = .ok s1 w3 ∧
      s1.PushBack (.value 8) w3 = .ok s2 w4 ∧ s2.PushBack (.value 9) w4 = .ok src w5 ∧
      dst.LiveExactly ∧ src.LiveExactly ∧
      move_assign (two_objects dst src) 0 1 w5 = .ok σ1 w6 ∧
      (σ1 1).Size = 0 ∧ (σ1 1).data_.buffer_ = [some 1, some 2] ∧
      w6.destructions = w5.destructions ∧ ¬ (σ1 1).LiveExactly) ∧
    (∃ d0 w0 d1 w1 dst w2 s1 w3 s2 w4 src w5 σ1 w6,
      (Vector.default Int).Reserve 4 World.quiet = .ok d0 w0 ∧
      d0.PushBack (.value 1) w0 = .ok d1 w1 ∧ d1.PushBack (.value 2) w1 = .ok dst w2 ∧
      (Vector.default Int).PushBack (.value 7) w2 = .ok s1 w3 ∧
      s1.PushBack (.value 8) w3 = .ok s2 w4 ∧ s2.PushBack (.value 9) w4 = .ok src w5 ∧
      dst.LiveExactly ∧ src.LiveExactly ∧
      move_assign (two_objects dst src) 0 1 w5 = .ok σ1 w6 ∧
      (σ1 0).Size = 3 ∧ (σ1 0).data_.buffer_ = [some 9, some 2, none, none] ∧
      w6.clobbered = w5.clobbered + 1 ∧ ¬ (σ1 0).LiveExactly) :=
  ⟨⟨_, _, _, _, _, _, _, _, _, _, _, _, rfl, rfl, rfl, rfl, rfl, by decide, by decide, rfl,
      by decide, by decide, by decide, by decide⟩,
    ⟨_, _, _, _, _, _, _, _, _, _, _, _, _, _, rfl, rfl, rfl, rfl, rfl, rfl, by decide,
      by decide, rfl, by decide, by decide, by decide, by decide⟩⟩

/-! ## Growth under repeated `PushBack` -/

theorem CapInv_step (n c : Nat) (h : CapInv n c) :
    CapInv (n + 1) (if n = c then (if n = 0 then 1 else n * 2) else c) := by
  rcases h with ⟨hn, hc⟩ | ⟨k, hc, hle, hlt⟩
  · subst hn; subst hc
    right
    exact ⟨0, by simp, by simp, by simp⟩
  · right
    by_cases hfull : n = c
    · have hpos : 1 ≤ c := by rw [hc]; exact Nat.one_le_two_pow
      rw [if_pos hfull, if_neg (by omega)]
      exact ⟨k + 1, by rw [Nat.pow_succ, ← hc, hfull], by omega, by omega⟩
    · rw [if_neg hfull]
      exact ⟨k, hc, by omega, by omega⟩

theorem CapInv_least (n c : Nat) (h : CapInv n c) (hn : 1 ≤ n) :
    (∃ k, c = 2 ^ k) ∧ n ≤ c ∧ c < 2 * n ∧ ∀ j, n ≤ 2 ^ j → c ≤ 2 ^ j := by
  rcases h with ⟨h0, _⟩ | ⟨k, hc, hle, hlt⟩
  · omega
  · refine ⟨⟨k, hc⟩, hle, hlt, ?_⟩
    intro j hj
    have h1 : 2 ^ k < 2 ^ (j + 1) := by rw [Nat.pow_succ]; omega
    have h2 := (Nat.pow_lt_pow_iff_right (by norm_num : 1 < 2)).mp h1
    rw [hc]
    exact Nat.pow_le_pow_right (by norm_num) (by omega)

theorem CapInv_full_iff (n c : Nat) (h : CapInv n c) :
    n = c ↔ (n = 0 ∨ ∃ k, n = 2 ^ k) := by
  rcases h with ⟨h0, hc0⟩ | ⟨k, hc, hle, hlt⟩
  · constructor
    · intro _; exact Or.inl h0
    · intro _; omega
  · constructor
    · intro hfull; exact Or.inr ⟨k, by omega⟩
    · intro hcase
      rcases hcase with h0 | ⟨j, hj⟩
      · have : 1 ≤ c := by rw [hc]; exact Nat.one_le_two_pow
        omega
      · have h1 : 2 ^ k < 2 ^ (j + 1) := by rw [Nat.pow_succ]; omega
        have h2 := (Nat.pow_lt_pow_iff_right (by norm_num : 1 < 2)).mp h1
        have h3 : 2 ^ j ≤ 2 ^ k := by omega
        have h4 := (Nat.pow_le_pow_iff_right (by norm_num : 1 < 2)).mp h3
        have h5 : j = k := by omega
        rw [hj, hc, h5]

theorem pred_power_iff (m : Nat) (hm : 1 ≤ m) :
    (m - 1 = 0 ∨ ∃ k, m - 1 = 2 ^ k) ↔ (m = 1 ∨ ∃ k, m = 2 ^ k + 1) := by
  constructor
  · intro h
    rcases h with h0 | ⟨k, hk⟩
    · exact Or.inl (by omega)
    · exact Or.inr ⟨k, by omega⟩
  · intro h
    rcases h with h1 | ⟨k, hk⟩
    · exact Or.inl (by omega)
    · exact Or.inr ⟨k, by omega⟩

theorem push_all_ok {T : Type} [Element T] :
    ∀ (ps : List (Bool × T)) (v : Vector T) (xs : List T) (w : World),
    v.Rep xs → v.CapacityOk → w.budget = none → CapInv xs.length v.capacity_ →
    ∃ v1 w1, push_all ps v w = .ok v1 w1 ∧ v1.Rep (xs ++ ps.map Prod.snd) ∧
      CapInv (xs.length + ps.length) v1.capacity_ := by
  intro ps
  induction ps with
  | nil =>
    intro v xs w h _ _ hinv
    exact ⟨v, w, rfl, by simpa using h, by simpa using hinv⟩
  | cons p ps ih =>
    intro v xs w h hc hb hinv
    have hroom := room_of_CapacityOk h hc
    have hsz := h.2.1
    have hstep : ∃ v1 w1,
        (if p.1 then v.PushBack (.value p.2) w else v.PushBackMove p.2 w) = .ok v1 w1 ∧
        w1.budget = none ∧ v1.Rep (xs ++ [p.2]) ∧ v1.CapacityOk ∧
        v1.capacity_ = (if v.size_ = v.capacity_ then (if v.size_ = 0 then 1 else v.size_ * 2)
                        else v.capacity_) := by
      by_cases hp : p.1 = true
      · rw [if_pos hp]
        obtain ⟨v1, w1, he, hb1, hrep, hc1, hcap⟩ :=
          PushBack_ok v xs (.value p.2) p.2 w h hroom rfl hb
        exact ⟨v1, w1, he, hb1, hrep, hc1 hc, hcap⟩
      · rw [if_neg hp]
        obtain ⟨v1, w1, he, hb1, hrep, hc1, hcap⟩ := PushBackMove_ok v xs p.2 w h hroom hb
        exact ⟨v1, w1, he, hb1, hrep, hc1 hc, hcap⟩
    obtain ⟨v1, w1, he, hb1, hrep, hc1, hcap⟩ := hstep
    have hinv1 : CapInv (xs ++ [p.2]).length v1.capacity_ := by
      have := CapInv_step xs.length v.capacity_ hinv
      rw [hcap, hsz]
      simpa using this
    obtain ⟨v2, w2, he2, hrep2, hinv2⟩ := ih v1 (xs ++ [p.2]) w1 hrep hc1 hb1 hinv1
    refine ⟨v2, w2, ?_, ?_, ?_⟩
    · simp only [push_all, he, he2]
    · simpa using hrep2
    · have e : (xs ++ [p.2]).length + ps.length = xs.length + (p :: ps).length := by
        simp only [List.length_append, List.length_cons, List.length_nil]; omega
      rw [← e]; exact hinv2

theorem push_all_default {T : Type} [Element T] (ps : List (Bool × T)) (w : World)
    (hw : w.budget = none) :
    ∃ v w1, push_all ps (Vector.default T) w = .ok v w1 ∧ v.size_ = ps.length ∧
      CapInv ps.length v.capacity_ := by
  obtain ⟨v, w1, he, hrep, hinv⟩ :=
    push_all_ok ps (Vector.default T) [] w (default_Rep T) rfl hw (Or.inl ⟨rfl, rfl⟩)
  refine ⟨v, w1, he, ?_, by simpa using hinv⟩
  have := hrep.2.1
  simpa using this

/-- C20: `n >= 1` successive `PushBack` calls (either overload) on a default-constructed
vector return, and then `Capacity()` is a power of two, at least `n` and at most every
power of two that is at least `n`, so `Size() <= Capacity() < 2 * Size()`; and the push
number `m` takes the reallocating branch exactly when `m = 1` or `m = 2^k + 1`. -/
theorem C20_capacity_is_least_power_of_two {T : Type} [Element T] (ps : List (Bool × T))
    (w : World) (hw : w.budget = none) (hn : 1 ≤ ps.length) :
    ∃ v w1, push_all ps (Vector.default T) w = .ok v w1 ∧ v.Size = ps.length ∧
      (∃ k, v.Capacity = 2 ^ k) ∧ ps.length ≤ v.Capacity ∧
      (∀ j, ps.length ≤ 2 ^ j → v.Capacity ≤ 2 ^ j) ∧
      v.Size ≤ v.Capacity ∧ v.Capacity < 2 * v.Size ∧
      ∀ m, 1 ≤ m → m ≤ ps.length →
        ∃ u wu, push_all (ps.take (m - 1)) (Vector.default T) w = .ok u wu ∧
          u.Size = m - 1 ∧ (u.reallocates ↔ (m = 1 ∨ ∃ k, m = 2 ^ k + 1)) := by
  obtain ⟨v, w1, he, hsz, hinv⟩ := push_all_default ps w hw
  obtain ⟨hpow, hle, hlt, hleast⟩ := CapInv_least ps.length v.capacity_ hinv hn
  refine ⟨v, w1, he, hsz, hpow, hle, hleast, ?_, ?_, ?_⟩
  · show v.size_ ≤ v.capacity_
    omega
  · show v.capacity_ < 2 * v.size_
    omega
  · intro m hm1 hm2
    obtain ⟨u, wu, heu, hszu, hinvu⟩ := push_all_default (ps.take (m - 1)) w hw
    have hlen : (ps.take (m - 1)).length = m - 1 := by
      rw [List.length_take]; omega
    rw [hlen] at hszu hinvu
    refine ⟨u, wu, heu, hszu, ?_⟩
    have hiff := CapInv_full_iff (m - 1) u.capacity_ hinvu
    unfold Vector.reallocates Vector.Capacity
    rw [hszu, hiff]
    exact pred_power_iff m hm1

/-- C20 on five pushes `1, 2, 3, 4, 5`, the third and the fifth by move. -/
theorem C20_capacity_is_least_power_of_two_witness :
    World.quiet.budget = none ∧
    1 ≤ [(true, (1 : Int)), (true, 2), (false, 3), (true, 4), (false, 5)].length ∧
    ∃ v w1, push_all [(true, (1 : Int)), (true, 2), (false, 3), (true, 4), (false, 5)]
        (Vector.default Int) World.quiet = .ok v w1 ∧
      v.Size = [(true, (1 : Int)), (true, 2), (false, 3), (true, 4), (false, 5)].length ∧
      (∃ k, v.Capacity = 2 ^ k) ∧
      [(true, (1 : Int)), (true, 2), (false, 3), (true, 4), (false, 5)].length ≤ v.Capacity ∧
      (∀ j, [(true, (1 : Int)), (true, 2), (false, 3), (true, 4), (false, 5)].length ≤ 2 ^ j →
        v.Capacity ≤ 2 ^ j) ∧
      v.Size ≤ v.Capacity ∧ v.Capacity < 2 * v.Size ∧
      ∀ m, 1 ≤ m →
        m ≤ [(true, (1 : Int)), (true, 2), (false, 3), (true, 4), (false, 5)].length →
        ∃ u wu, push_all
            ([(true, (1 : Int)), (true, 2), (false, 3), (true, 4), (false, 5)].take (m - 1))
            (Vector.default Int) World.quiet = .ok u wu ∧
          u.Size = m - 1 ∧ (u.reallocates ↔ (m = 1 ∨ ∃ k, m = 2 ^ k + 1)) :=
  ⟨rfl, by decide,
    C20_capacity_is_least_power_of_two _ World.quiet rfl (by decide)⟩

/-! ## Operations on the states a move assignment leaves

The branch of lines 217-221 of `operator=(Vector&&)` keeps the destination's block and
takes `capacity_` from the source; the branch of lines 207-209 hands the destination's
block to the source with `capacity_ = 0`.  Both states are reached below from
default-constructed vectors by public operations, and the operations of the container
are then evaluated on them. -/

/-- C4 (what the code does): after `dst.Reserve(2)`; `src.Reserve(8)`, `src.PushBack(7)`,
`src.PushBack(8)`; `dst = std::move(src)` the vector `dst` has contents `[7, 8]`,
`Size() == 2`, `Capacity() == 8` and its own storage block of 2 cells.  `PushBack(9)`
in either overload and `EmplaceBack(9)` then take the in-place branch
(`Size() != Capacity()`) and construct at `data_ + 2`, outside the block: the contents
do not become `[7, 8, 9]`, the calls are undefined behaviour. -/
theorem C4_append_after_move_assign_outside_block :
    ∃ dst w1 s1 w2 s2 w3 src w4 σ1 w5,
      (Vector.default Int).Reserve 2 World.quiet = .ok dst w1 ∧
      (Vector.default Int).Reserve 8 w1 = .ok s1 w2 ∧
      s1.PushBack (.value 7) w2 = .ok s2 w3 ∧ s2.PushBack (.value 8) w3 = .ok src w4 ∧
      move_assign (two_objects dst src) 0 1 w4 = .ok σ1 w5 ∧
      (σ1 0).BlockOk ∧ (σ1 0).elements = some [7, 8] ∧ (σ1 0).Size = 2 ∧
      (σ1 0).Capacity = 8 ∧ (σ1 0).data_.Capacity = 2 ∧ w5.budget = none ∧
      (σ1 0).PushBack (.value 9) w5 = .undefined ∧
      (σ1 0).PushBackMove 9 w5 = .undefined ∧
      (σ1 0).EmplaceBack true (.value 9) w5 = .undefined ∧
      (σ1 0).EmplaceBack false (.value 9) w5 = .undefined :=
  ⟨_, _, _, _, _, _, _, _, _, _, rfl, rfl, rfl, rfl, rfl, by decide, by decide, by decide,
    by decide, by decide, by decide, by decide, by decide, by decide, by decide⟩

/-- C12 (what the code does): on the vector `dst` with contents `[7, 8]`, `Size() == 2`,
`Capacity() == 8` and a storage block of 2 cells that `dst.Reserve(2)`;
`src.Reserve(8)`, `src.PushBack(7)`, `src.PushBack(8)`; `dst = std::move(src)` leave,
`Resize(3)` and `Resize(8)` find `new_size <= capacity_`, so `Reserve` does nothing, and
value-construct from `data_ + 2` on, outside the block: the contents do not become
`[7, 8, 0]`, the calls are undefined behaviour.  `Resize(0)` returns with `Size() == 0`
and `Capacity() == 8`, and the `Resize(3)` after it value-constructs cell 2 of the
2-cell block. -/
theorem C12_resize_after_move_assign_outside_block :
    ∃ dst w1 s1 w2 s2 w3 src w4 σ1 w5,
      (Vector.default Int).Reserve 2 World.quiet = .ok dst w1 ∧
      (Vector.default Int).Reserve 8 w1 = .ok s1 w2 ∧
      s1.PushBack (.value 7) w2 = .ok s2 w3 ∧ s2.PushBack (.value 8) w3 = .ok src w4 ∧
      move_assign (two_objects dst src) 0 1 w4 = .ok σ1 w5 ∧
      (σ1 0).BlockOk ∧ (σ1 0).elements = some [7, 8] ∧ (σ1 0).Size = 2 ∧
      (σ1 0).Capacity = 8 ∧ (σ1 0).data_.Capacity = 2 ∧ w5.budget = none ∧
      (σ1 0).Resize 3 w5 = .undefined ∧ (σ1 0).Resize 8 w5 = .undefined ∧
      ∃ v0 w6, (σ1 0).Resize 0 w5 = .ok v0 w6 ∧ v0.Size = 0 ∧ v0.Capacity = 8 ∧
        v0.Resize 3 w6 = .undefined :=
  ⟨_, _, _, _, _, _, _, _, _, _, rfl, rfl, rfl, rfl, rfl, by decide, by decide, by decide,
    by decide, by decide, by decide, by decide, by decide, _, _, rfl, by decide, by decide,
    by decide⟩

/-- C19 (what the code does): on the vector `dst` with contents `[7, 8]`, `Size() == 2`,
`Capacity() == 8` and a storage block of 2 cells that `dst.Reserve(2)`;
`src.Reserve(8)`, `src.PushBack(7)`, `src.PushBack(8)`; `dst = std::move(src)` leave,
`PushBack(dst[0])` constructs at `data_ + 2` and `Insert(begin()+1, dst[0])` and
`Insert(begin(), dst[1])` move-construct the last element to `data_ + 2`
(line 480), outside the block: the calls are undefined behaviour. -/
theorem C19_insert_own_element_after_move_assign_outside_block :
    ∃ dst w1 s1 w2 s2 w3 src w4 σ1 w5,
      (Vector.default Int).Reserve 2 World.quiet = .ok dst w1 ∧
      (Vector.default Int).Reserve 8 w1 = .ok s1 w2 ∧
      s1.PushBack (.value 7) w2 = .ok s2 w3 ∧ s2.PushBack (.value 8) w3 = .ok src w4 ∧
      move_assign (two_objects dst src) 0 1 w4 = .ok σ1 w5 ∧
      (σ1 0).BlockOk ∧ (σ1 0).elements = some [7, 8] ∧ (σ1 0).Size = 2 ∧
      (σ1 0).Capacity = 8 ∧ (σ1 0).data_.Capacity = 2 ∧ w5.budget = none ∧
      (σ1 0).PushBack (.element 0) w5 = .undefined ∧
      (σ1 0).Insert 1 (.element 0) w5 = .undefined ∧
      (σ1 0).Insert 0 (.element 1) w5 = .undefined :=
  ⟨_, _, _, _, _, _, _, _, _, _, rfl, rfl, rfl, rfl, rfl, by decide, by decide, by decide,
    by decide, by decide, by decide, by decide, by decide, by decide⟩

/-- C5 (what the code does): `a.PushBack(1)`, `a.PushBack(2)`; `b.PushBack(7)`,
`b.PushBack(8)`, `b.PushBack(9)`; `a = std::move(b)` swaps the blocks (lines 207-209)
and leaves `b` with the 2-cell block of `a`, `Size() == 0` and `Capacity() == 0`;
`c.PushBack(5)`, `c.PushBack(6)`; `b = c` then copies into that block (lines 188-194)
and leaves `b` with contents `[5, 6]`, `Size() == 2` and `Capacity() == 0`.
`b.Reserve(1)` allocates one cell and transfers two elements into it: the second is
constructed outside the new block, the call is undefined behaviour and does not leave
the contents `[5, 6]` with `Capacity() == 1`. -/
theorem C5_reserve_after_assignments_outside_block :
    ∃ a1 w1 a w2 b1 w3 b2 w4 b w5 σ1 w6 c1 w7 c w8 σ2 w9,
      (Vector.default Int).PushBack (.value 1) World.quiet = .ok a1 w1 ∧
      a1.PushBack (.value 2) w1 = .ok a w2 ∧
      (Vector.default Int).PushBack (.value 7) w2 = .ok b1 w3 ∧
      b1.PushBack (.value 8) w3 = .ok b2 w4 ∧ b2.PushBack (.value 9) w4 = .ok b w5 ∧
      move_assign (two_objects a b) 0 1 w5 = .ok σ1 w6 ∧
      (Vector.default Int).PushBack (.value 5) w6 = .ok c1 w7 ∧
      c1.PushBack (.value 6) w7 = .ok c w8 ∧
      copy_assign (two_objects (σ1 1) c) 0 1 w8 = .ok σ2 w9 ∧
      (σ2 0).BlockOk ∧ (σ2 0).elements = some [5, 6] ∧ (σ2 0).Size = 2 ∧
      (σ2 0).Capacity = 0 ∧ (σ2 0).data_.Capacity = 2 ∧ w9.budget = none ∧
      (σ2 0).Reserve 1 w9 = .undefined :=
  ⟨_, _, _, _, _, _, _, _, _, _, _, _, _, _, _, _, _, _, rfl, rfl, rfl, rfl, rfl, rfl, rfl,
    rfl, rfl, by decide, by decide, by decide, by decide, by decide, by decide, by decide⟩

/-- C14 (what the code does), for the element type `Fragile` of the copy branch: three
`PushBack` calls on `a`, five on `b`, `a = std::move(b)` (the swap of lines 207-209
leaves `b` with the 4-cell block of `a` and `Capacity() == 0`), three `PushBack` calls
on `c` and `b = c` leave `b` with contents `[1, 2, 3]`, `Size() == 3` and
`Capacity() == 0`.  In `b.Reserve(1)` with the copy of element 2 failing, the copy of
element 1 comes first and is constructed outside the 1-cell new block: the call is
undefined behaviour instead of a propagated failure with `b` unchanged.  With the
copy of element 0 failing the failure is propagated and `b` is unchanged. -/
theorem C14_reserve_copy_failure_after_assignments_outside_block :
    ∃ a1 w1 a2 w2 a w3 b1 w4 b2 w5 b3 w6 b4 w7 b w8 σ1 w9 c1 w10 c2 w11 c w12 σ2 w13,
      (Vector.default Fragile).PushBack (.value { val := 4 }) World.quiet = .ok a1 w1 ∧
      a1.PushBack (.value { val := 5 }) w1 = .ok a2 w2 ∧
      a2.PushBack (.value { val := 6 }) w2 = .ok a w3 ∧
      (Vector.default Fragile).PushBack (.value { val := 7 }) w3 = .ok b1 w4 ∧
      b1.PushBack (.value { val := 8 }) w4 = .ok b2 w5 ∧
      b2.PushBack (.value { val := 9 }) w5 = .ok b3 w6 ∧
      b3.PushBack (.value { val := 10 }) w6 = .ok b4 w7 ∧
      b4.PushBack (.value { val := 11 }) w7 = .ok b w8 ∧
      move_assign (two_objects a b) 0 1 w8 = .ok σ1 w9 ∧
      (Vector.default Fragile).PushBack (.value { val := 1 }) w9 = .ok c1 w10 ∧
      c1.PushBack (.value { val := 2 }) w10 = .ok c2 w11 ∧
      c2.PushBack (.value { val := 3 }) w11 = .ok c w12 ∧
      copy_assign (two_objects (σ1 1) c) 0 1 w12 = .ok σ2 w13 ∧
      move_branch Fragile = false ∧ (σ2 0).BlockOk ∧
      (σ2 0).elements = some [{ val := 1 }, { val := 2 }, { val := 3 }] ∧
      (σ2 0).Size = 3 ∧ (σ2 0).Capacity = 0 ∧ (σ2 0).data_.Capacity = 4 ∧
      (σ2 0).Reserve 1 (World.failing 2) = .undefined ∧
      (∃ w, (σ2 0).Reserve 1 (World.failing 0) = .thrown (σ2 0) w) :=
  ⟨_, _, _, _, _, _, _, _, _, _, _, _, _, _, _, _, _, _, _, _, _, _, _, _, _, _,
    rfl, rfl, rfl, rfl, rfl, rfl, rfl, rfl, rfl, rfl, rfl, rfl, rfl,
    by decide, by decide, by decide, by decide, by decide, by decide, by decide,
    ⟨_, rfl⟩⟩

end AdvancedVector
